import Mathlib

/-!
# DDD debugger agents for DBG and JDB, font table and font names

A shallow embedding of `ddd/GDBAgent_DBG.C` and `ddd/GDBAgent_JDB.C`, of
`FontTable::operator[]` in `ddd/box/FontTable.C`, and of `component` and
`make_font` in `ddd/fonts.C`.

* A DDD `string` and a C string (`const char *`) are both a `List Char`: the
  characters before the terminator.  `strlen` is the length of that list.
* Positions are `Int`, as in the source, where `-1` means "not found" and a
  negative start position means "search backward".
* The agent's mutable fields are an explicit state record (`GDBAgent`);
  what the two source files only call (capability flags, `strip_control`,
  `clear_command`, `condition_command`, `is_file_pos`, and the inherited
  `ignore_command` and `watch_command` of the DBG agent) is a parameter
  record (`Profile`).
* An output stream is the text written to it.
* The font table is the list of its slots; reading a slot outside the list
  and a failed assertion are results of their own (`Outcome`).  `MAX_FONTS`,
  `hashpjw` and the Xft calls are a parameter record (`FontEnv`).
* The `string` and `regex` classes of DDD are modelled by functions on
  `List Char`; a regular expression is matched through its derivatives, the
  match at a position being the longest one.
-/

namespace DDD

/-- Value of a DDD `string` (and of a `const char *`): its characters. -/
abbrev Str := List Char

/-! ## The `string` class operations used by the agents -/

namespace string

/-- Modelled from the spec: the backward character scan of
`string::search(start, sl, c)` of DDD's string class, for a negative start: test positions `n, n-1, ..., 0` and return the first one that holds
`c`, or `-1`. -/
def scan_back_char (s : Str) (c : Char) : Nat → Int
  | 0 => if s[0]? = some c then 0 else -1
  | n + 1 => if s[n + 1]? = some c then ((n + 1 : Nat) : Int) else scan_back_char s c n

/-- Modelled from the spec: the forward character scan of
`string::search(start, sl, c)` of DDD's string class, for a start `>= 0`: the first position of `c` in the rest `rest`, counted from `pos`. -/
def scan_fwd_char (c : Char) : Str → Nat → Int
  | [], _ => -1
  | x :: rest, pos => if x = c then (pos : Int) else scan_fwd_char c rest (pos + 1)

/-- Modelled from the spec: `string::index(char, int startpos)` of DDD's
string class, declared in `strclass.h` and not in the two agent files ("the
text following the last line break" is what lies after `index('\n', -1)`).  With
`startpos >= 0` it is the first position `>= startpos` holding `c`; with
`startpos < 0` it is the last position `<= length + startpos` holding `c`;
`-1` when there is none. -/
def index (s : Str) (c : Char) (startpos : Int) : Int :=
  if s.length = 0 then -1
  else if 0 ≤ startpos then scan_fwd_char c (s.drop startpos.toNat) startpos.toNat
  else if (s.length : Int) + startpos < 0 then -1
  else scan_back_char s c ((s.length : Int) + startpos).toNat

/-- Modelled from the spec: the backward scan of
`string::search(start, sl, t, tl)` of DDD's string class, for a negative start:
test the start positions `n, n-1, ..., 0` and return the first one at which
`t` occurs, or `-1`. -/
def scan_back_str (s t : Str) : Nat → Int
  | 0 => if t.isPrefixOf s then 0 else -1
  | n + 1 => if t.isPrefixOf (s.drop (n + 1)) then ((n + 1 : Nat) : Int) else scan_back_str s t n

/-- Modelled from the spec: the forward scan of
`string::search(start, sl, t, tl)` of DDD's string class, for a start `>= 0`:
the first position at which `t` occurs in the rest, counted from `pos`. -/
def scan_fwd_str (t : Str) : Str → Nat → Int
  | [], _ => -1
  | x :: rest, pos =>
    if t.isPrefixOf (x :: rest) then (pos : Int) else scan_fwd_str t rest (pos + 1)

/-- Modelled from the spec: `string::search(start, sl, t, tl)` of DDD's string
class (`strclass`, not in the two agent files; "scanning backward for" the
prompt).
Nothing is found in an empty string or for an empty target.  With
`start >= 0` the result is the first occurrence of `t` at a position
`>= start`; with `start < 0` the last occurrence of `t` that ends at a
position `<= length + start`; `-1` when there is none. -/
def search (s : Str) (start : Int) (t : Str) : Int :=
  if s.length = 0 ∨ t.length = 0 then -1
  else if 0 ≤ start then scan_fwd_str t (s.drop start.toNat) start.toNat
  else if (s.length : Int) + start + 1 - (t.length : Int) < 0 then -1
  else scan_back_str s t ((s.length : Int) + start + 1 - (t.length : Int)).toNat

/-- Modelled from the spec: `string::index(const char *t, int startpos)` of
DDD's string class, which is `search(startpos, length(), t)`. -/
def index_str (s : Str) (t : Str) (startpos : Int) : Int := search s startpos t

/-- Modelled from the spec: `string::match(start, sl, exact, t, tl)` of DDD's
string class (`strclass`, not in the two agent files; "the text following the
last line break equals the literal prompt string").  Returns the length of `t`
when `t` occurs in `s` at position `start` (for a negative `start`: when `t`
ends at position `length + start`), and with `exact` only when that
occurrence is all of `s` from `start` on; `-1` otherwise. -/
def match_at (s : Str) (start : Int) (exact : Bool) (t : Str) : Int :=
  let sl : Int := s.length
  let tl : Int := t.length
  let begin : Option Int :=
    if start < 0 then
      let first := sl + start - tl + 1
      if first < 0 ∨ (exact = true ∧ first ≠ 0) then none else some first
    else if exact = true ∧ sl - start ≠ tl then none
    else some start
  match begin with
  | none => -1
  | some first =>
    if sl = 0 ∨ tl = 0 ∨ sl - first < tl ∨ first ≥ sl then -1
    else if (s.drop first.toNat).take t.length = t then tl
    else -1

/-- Modelled from the spec: `string::matches(const char *t, int pos)` of DDD's
string class, which is `match(pos, length(), 1, t) >= 0`: `t` is all of the
string from `pos` on. -/
def matches_str (s : Str) (t : Str) (pos : Int) : Bool := decide (0 ≤ match_at s pos true t)

/-- Modelled from the spec: `string::contains(char c, int pos)` of DDD's string
class, which is `match(pos, length(), 0, &c, 1) >= 0`: `c` stands at `pos`. -/
def contains_char_at (s : Str) (c : Char) (pos : Int) : Bool :=
  decide (0 ≤ match_at s pos false [c])

/-- Modelled from the spec: `string::contains(const string& y, int pos)` of
DDD's string class, which is `match(pos, length(), 0, y) >= 0`: `y` stands at
`pos` (with `pos = -1`: `s` ends with `y`). -/
def contains_at (s : Str) (y : Str) (pos : Int) : Bool :=
  decide (0 ≤ match_at s pos false y)

/-- Modelled from the spec: `string::contains(const char *t)` of DDD's string
class, which is `search(0, length(), t) >= 0`: `t` occurs somewhere. -/
def contains (s : Str) (t : Str) : Bool := decide (0 ≤ search s 0 t)

/-- Modelled from the spec: `string::_substr(first, l)` of DDD's string class
(`strclass`, not in the two agent files): the `l` characters from position
`first`,
and the empty string when the range is not inside the string. -/
def substr (s : Str) (first l : Int) : Str :=
  if first < 0 ∨ l ≤ 0 ∨ first + l > (s.length : Int) then []
  else (s.drop first.toNat).take l.toNat

/-- Modelled from the spec: `string::before(int pos)` of DDD's string class,
which is `_substr(0, pos)`: the text before position `pos`. -/
def before (s : Str) (pos : Int) : Str := substr s 0 pos

/-- Modelled from the spec: `string::from(int pos)` of DDD's string class,
which is `_substr(pos, length() - pos)`: the text from position `pos` on. -/
def from_pos (s : Str) (pos : Int) : Str := substr s pos ((s.length : Int) - pos)

/-- Modelled from the spec: `string::at(int pos, int len)` of DDD's string
class, which is `_substr(pos, len)`. -/
def at_pos (s : Str) (pos len : Int) : Str := substr s pos len

/-- Modelled from the spec: `string::prepend` of DDD's string class: the
argument is put in front. -/
def prepend (s : Str) (t : Str) : Str := t ++ s

end string

/-- Modelled from the spec: `reverse(const string&)` of `string-fun`, not in
the two agent files ("reverse the entire accumulated text"). -/
def reverse (s : Str) : Str := s.reverse

/-! ## Agent state and collaborators -/

/-- Program languages (`ProgramLanguage`). -/
inductive ProgramLanguage where
  | LANGUAGE_BASH | LANGUAGE_C | LANGUAGE_FORTRAN | LANGUAGE_JAVA | LANGUAGE_MAKE
  | LANGUAGE_PERL | LANGUAGE_PHP | LANGUAGE_PYTHON | LANGUAGE_OTHER
  | LANGUAGE_ADA | LANGUAGE_PASCAL | LANGUAGE_CHILL
  deriving DecidableEq

/-- Mutable state of one agent: the fields the two source files read or
write, and the commands handed to `gdb_command`, oldest first. -/
structure GDBAgent where
  last_prompt : Str
  recording : Bool
  max_breakpoint_number_seen : Int
  issued : List Str
  deriving DecidableEq

/-- What the two source files call but do not define. -/
structure Profile where
  strip_control : Str → Str
  has_output_command : Bool
  has_print_r_option : Bool
  has_condition_command : Bool
  has_debug_command : Bool
  has_watch_command : Nat
  program_language : ProgramLanguage
  clear_command : Str → Str
  condition_command : Str → Str → Str
  is_file_pos : Str → Bool
  has_disable_command : Bool
  has_ignore_command : Bool
  ignore_command : Str → Int → Str
  watch_command : Str → Nat → Str

/-- Modelled from the spec: the setter `recording(bool)` of `GDBAgent`,
declared in `GDBAgent.h` ("flip the framer into not recording state"). -/
def GDBAgent.set_recording (st : GDBAgent) (b : Bool) : GDBAgent := { st with recording := b }

/-- Modelled from the spec: `gdb_command(cmd)`, declared in `Command.h` and
not in the two agent files ("transmits it", "returns immediately after
transmission"): the command is handed over for sending; no other field of the
agent changes. -/
def gdb_command (st : GDBAgent) (cmd : Str) : GDBAgent := { st with issued := st.issued ++ [cmd] }

/-- Addition of two C `int` values (32 bits, two's complement wrap-around). -/
def int_add (a b : Int) : Int := (a + b + 2147483648) % 4294967296 - 2147483648

/-- Modelled from the spec: `itostring(int)` of `string-fun`, not in the two
agent files: the decimal rendering of a number. -/
def itostring (n : Int) : Str := (toString n).toList

/-- The `isspace` of the C library in the "C" locale. -/
def isspace (c : Char) : Bool :=
  c == ' ' || c == '\t' || c == '\n' || c == '\x0b' || c == '\x0c' || c == '\r'

/-- Modelled from the spec: the `WatchMode` bit for "Write(Change)"; the
declaration of `WatchMode` is not in the two agent files ("bit-set over
{Read, Write(Change), Access}"). -/
def WATCH_CHANGE : Nat := 1

/-- Modelled from the spec: the `WatchMode` bit for "Read". -/
def WATCH_READ : Nat := 2

/-- Modelled from the spec: the `WatchMode` bit for "Access". -/
def WATCH_ACCESS : Nat := 4

/-! ## GDBAgent_DBG -/

namespace GDBAgent_DBG

/-- The macro `DBG_PROMPT`. -/
def DBG_PROMPT : Str := "dbg>".toList

/-- `GDBAgent_DBG::ends_with_prompt`: the result and the state after. -/
def ends_with_prompt (pf : Profile) (st : GDBAgent) (ans : Str) : Bool × GDBAgent :=
  let answer := pf.strip_control ans
  let beginning_of_line : Int := string.index answer '\n' (-1) + 1
  if beginning_of_line < (answer.length : Int) ∧ answer.length > 0
      ∧ string.matches_str answer DBG_PROMPT beginning_of_line = true then
    (true, { st.set_recording false with last_prompt := DBG_PROMPT })
  else
    (false, st)

/-- The loop `while (i > 0 && answer[i - 1] == ' ') i--;`, started at
`i`: the value of `i` after it. -/
def skip_spaces_back (answer : Str) : Nat → Nat
  | 0 => 0
  | i + 1 => if answer[i]? = some ' ' then skip_spaces_back answer i else i + 1

/-- `GDBAgent_DBG::cut_off_prompt`: the new value of `answer`. -/
def cut_off_prompt (answer : Str) : Str :=
  let i : Int := string.index_str answer DBG_PROMPT (-1)
  let i : Int := if i > 0 then (skip_spaces_back answer i.toNat : Int) else i
  string.before answer i

/-- `GDBAgent_DBG::print_command`. -/
def print_command (pf : Profile) (expr : Str) (internal : Bool) : Str :=
  let cmd : Str := if internal = true ∧ pf.has_output_command = true then "output".toList
                   else "print".toList
  let cmd : Str := if pf.has_print_r_option = true then cmd ++ " -r".toList else cmd
  if expr.length ≠ 0 then cmd ++ [' '] ++ expr else cmd

/-- `GDBAgent_DBG::set_bp`: the state after the call.  (`CommandGroup cg`
only brackets the issued commands and is left out.) -/
def set_bp (pf : Profile) (st : GDBAgent) (a : Str) (set temp : Bool) (cond : Str) : GDBAgent :=
  let new_bps : Int := int_add st.max_breakpoint_number_seen 1
  let address : Str := a
  let address : Str :=
    if string.contains_char_at address '0' 0 = true ∧ ¬ string.contains address ":".toList = true
    then string.prepend address "*".toList else address
  let st : GDBAgent :=
    if ¬ set = true then gdb_command st (pf.clear_command address)
    else if temp = true then gdb_command st ("tbreak ".toList ++ address)
    else gdb_command st ("break ".toList ++ address)
  if cond.length ≠ 0 ∧ pf.has_condition_command = true then
    gdb_command st (pf.condition_command (itostring new_bps) cond)
  else st

end GDBAgent_DBG

/-! ## Regular expressions (`regex`) -/

/-- Regular expressions over characters, enough for the three prompt
patterns of `GDBAgent_JDB::ends_with_prompt`. -/
inductive regex where
  | nothing : regex
  | eps : regex
  | cls : (Char → Bool) → regex
  | seq : regex → regex → regex
  | alt : regex → regex → regex
  | star : regex → regex

namespace regex

/-- The words a regular expression matches. -/
inductive Matches : regex → Str → Prop
  | eps : Matches regex.eps []
  | cls (p : Char → Bool) (c : Char) : p c = true → Matches (regex.cls p) [c]
  | seq (r q : regex) (u v : Str) : Matches r u → Matches q v → Matches (regex.seq r q) (u ++ v)
  | alt_left (r q : regex) (u : Str) : Matches r u → Matches (regex.alt r q) u
  | alt_right (r q : regex) (u : Str) : Matches q u → Matches (regex.alt r q) u
  | star_nil (r : regex) : Matches (regex.star r) []
  | star_cons (r : regex) (u v : Str) :
      Matches r u → Matches (regex.star r) v → Matches (regex.star r) (u ++ v)

/-- Whether the expression matches the empty word. -/
def nullable : regex → Bool
  | nothing => false
  | eps => true
  | cls _ => false
  | seq r q => nullable r && nullable q
  | alt r q => nullable r || nullable q
  | star _ => true

/-- Derivative of an expression by a character: what may follow `c`. -/
def deriv : regex → Char → regex
  | nothing, _ => nothing
  | eps, _ => nothing
  | cls p, c => if p c then eps else nothing
  | seq r q, c => if nullable r then alt (seq (deriv r c) q) (deriv q c) else seq (deriv r c) q
  | alt r q, c => alt (deriv r c) (deriv q c)
  | star r, c => seq (deriv r c) (star r)

/-- Length of the longest prefix of the text that the expression matches,
if there is one. -/
def longest : Str → regex → Option Nat
  | [], r => if nullable r then some 0 else none
  | c :: cs, r =>
    match longest cs (deriv r c) with
    | some n => some (n + 1)
    | none => if nullable r then some 0 else none

/-- Modelled from the spec: `regex::match(s, len, pos)` of DDD's regex class
(`rxclass`, not in the two agent files; "match a reversed-prompt pattern
anchored at position 0"): the length of the longest match of the expression in `s`
that starts at `pos`, and `-1` when there is none. -/
def match_pos (r : regex) (s : Str) (pos : Int) : Int :=
  if pos < 0 ∨ pos > (s.length : Int) then -1
  else
    match longest (s.drop pos.toNat) r with
    | some n => (n : Int)
    | none => -1

/-- Modelled from the spec: `string::matches(const regex& r, int pos = 0)` of
DDD's string class (`strclass`, not in the two agent files; "test only the text
after the final line break against" the pattern): the match of `r` at the
start of `s` covers all of `s`. -/
def matches_all (s : Str) (r : regex) : Bool :=
  decide (match_pos r s 0 = (s.length : Int))

/-- A single character. -/
def chr (c : Char) : regex := cls (fun x => x == c)

/-- Class `[a-zA-Z]`. -/
def alpha : regex := cls (fun c => ('a' ≤ c && c ≤ 'z') || ('A' ≤ c && c ≤ 'Z'))

/-- Class `[a-zA-Z0-9]`. -/
def alnum : regex :=
  cls (fun c => ('a' ≤ c && c ≤ 'z') || ('A' ≤ c && c ≤ 'Z') || ('0' ≤ c && c ≤ '9'))

/-- Class `[a-zA-Z0-9 ]`. -/
def alnum_space : regex :=
  cls (fun c => ('a' ≤ c && c ≤ 'z') || ('A' ≤ c && c ≤ 'Z') || ('0' ≤ c && c ≤ '9') || c == ' ')

/-- Class `[0-9]`. -/
def digit : regex := cls (fun c => '0' ≤ c && c ≤ '9')

/-- Class `[1-9]`. -/
def digit19 : regex := cls (fun c => '1' ≤ c && c ≤ '9')

end regex

/-! ## GDBAgent_JDB -/

namespace GDBAgent_JDB

open regex

/-- Standard prompt `"THREAD[DEPTH] "` or `"> "`:
`([a-zA-Z][a-zA-Z0-9 ]*[a-zA-Z0-9][[][1-9][0-9]*[]]|>) `. -/
def rxjdbprompt : regex :=
  seq (alt (seq alpha (seq (star alnum_space) (seq alnum
              (seq (chr '[') (seq digit19 (seq (star digit) (chr ']')))))))
           (chr '>'))
      (chr ' ')

/-- Same, but in reverse:
` (>|[]][0-9]*[1-9][[][a-zA-Z0-9][a-zA-Z0-9 ]*[a-zA-Z])`. -/
def rxjdbprompt_reverse : regex :=
  seq (chr ' ')
      (alt (chr '>')
           (seq (chr ']') (seq (star digit) (seq digit19 (seq (chr '[')
              (seq alnum (seq (star alnum_space) alpha)))))))

/-- Non-threaded prompt `"[DEPTH] "` or `"> "`: `(>|[[][1-9][0-9]*[]]) `. -/
def rxjdbprompt_nothread : regex :=
  seq (alt (chr '>') (seq (chr '[') (seq digit19 (seq (star digit) (chr ']')))))
      (chr ' ')

/-- The loop `while (i < int(answer.length()) && isspace(answer[i])) i++;`
over the text `rest` that starts at position `i`: the value of `i` after it. -/
def skip_isspace : Str → Nat → Nat
  | [], i => i
  | c :: rest, i => if isspace c = true then skip_isspace rest (i + 1) else i

/-- The loop `while (last_nl >= 0)` of `GDBAgent_JDB::ends_with_prompt`, with
a bound on the number of iterations: `none` when the bound is used up,
`some (some p)` when the loop returns true with `last_prompt = p`, and
`some none` when the loop ends without a prompt. -/
def line_scan (answer : Str) : Nat → Int → Option (Option Str)
  | 0, _ => none
  | fuel + 1, last_nl =>
    if last_nl ≥ 0 then
      let last_nl : Int := string.index answer '\n' (last_nl - (answer.length : Int))
      let beginning_of_line : Int := last_nl + 1
      let match_len : Int := regex.match_pos rxjdbprompt answer beginning_of_line
      if match_len > 0 then
        let i : Nat := skip_isspace (answer.drop (beginning_of_line + match_len).toNat)
                         (beginning_of_line + match_len).toNat
        if i < answer.length ∧ answer[i]? = some '=' then
          -- This is no prompt, but something like `dates[1] = 33'.
          line_scan answer fuel (last_nl - 1)
        else
          some (some (string.at_pos answer beginning_of_line match_len))
      else
        line_scan answer fuel (last_nl - 1)
    else
      some none

/-- `GDBAgent_JDB::ends_with_prompt`: the result and the state after; `none`
if the line loop did not end within `answer.length() + 1` iterations. -/
def ends_with_prompt (pf : Profile) (st : GDBAgent) (ans : Str) : Option (Bool × GDBAgent) :=
  let answer := pf.strip_control ans
  -- Check for threaded prompt at the end of the last line
  let reverse_answer := reverse answer
  let match_len : Int := regex.match_pos rxjdbprompt_reverse reverse_answer 0
  if match_len > 0 then
    some (true, { st with last_prompt := reverse (string.at_pos reverse_answer 0 match_len) })
  else
    -- Check for non-threaded prompt as the last line
    let beginning_of_line : Int := string.index answer '\n' (-1) + 1
    let possible_prompt := string.from_pos answer beginning_of_line
    if regex.matches_all possible_prompt rxjdbprompt_nothread = true then
      some (true, { st with last_prompt := possible_prompt })
    else
      -- Check for threaded prompt at the beginning of each line
      match line_scan answer (answer.length + 1) ((answer.length : Int) - 1) with
      | none => none
      | some (some p) => some (true, { st with last_prompt := p })
      | some none => some (false, st)

/-- `GDBAgent_JDB::cut_off_prompt`: the new value of `answer`. -/
def cut_off_prompt (st : GDBAgent) (answer : Str) : Str :=
  if string.contains_at answer st.last_prompt (-1) = true then
    string.before answer ((answer.length : Int) - (st.last_prompt.length : Int))
  else answer

/-- `GDBAgent_JDB::print_command`. -/
def print_command (expr : Str) (internal : Bool) : Str :=
  let cmd : Str := "print".toList
  let cmd : Str := if internal = true then "dump".toList else cmd
  if expr.length ≠ 0 then cmd ++ [' '] ++ expr else cmd

/-- `GDBAgent_JDB::watch_command`. -/
def watch_command (pf : Profile) (expr : Str) (w : Nat) : Str :=
  if (pf.has_watch_command &&& w) ≠ w then []
  else if (w &&& WATCH_CHANGE) = WATCH_CHANGE then "watch all ".toList ++ expr
  else if (w &&& WATCH_READ) = WATCH_READ then "watch access ".toList ++ expr
  else if (w &&& WATCH_ACCESS) = WATCH_ACCESS then "watch access ".toList ++ expr
  else []

/-- `GDBAgent_JDB::set_bp`: the state after the call; `temp` is unused.
(`CommandGroup cg` only brackets the issued commands and is left out.) -/
def set_bp (pf : Profile) (st : GDBAgent) (a : Str) (set _temp : Bool) (cond : Str) : GDBAgent :=
  let new_bps : Int := int_add st.max_breakpoint_number_seen 1
  let address : Str := a
  let address : Str :=
    if string.contains_char_at address '0' 0 = true ∧ ¬ string.contains address ":".toList = true
    then string.prepend address "*".toList else address
  let st : GDBAgent :=
    if ¬ set = true then gdb_command st (pf.clear_command address)
    else if pf.is_file_pos address = true then gdb_command st ("stop at ".toList ++ address)
    else gdb_command st ("stop in ".toList ++ address)
  if cond.length ≠ 0 ∧ pf.has_condition_command = true then
    gdb_command st (pf.condition_command (itostring new_bps) cond)
  else st

end GDBAgent_JDB


/-! ## Breakpoint descriptors, and the commands that restore or assign -/

/-- Breakpoint kinds (`BPType`), as the cases of
`GDBAgent_DBG::restore_breakpoint_command` list them. -/
inductive BPType where
  | BREAKPOINT | WATCHPOINT | TRACEPOINT | ACTIONPOINT
  deriving DecidableEq

/-- Breakpoint dispositions (`BPDispo`), as the cases of
`GDBAgent_DBG::restore_breakpoint_command` list them. -/
inductive BPDispo where
  | BPKEEP | BPDIS | BPDEL
  deriving DecidableEq

/-- What `GDBAgent_DBG::restore_breakpoint_command` reads of a `BreakPoint`:
the values of `type()`, `dispo()`, `expr()`, `watch_mode()`, `enabled()`,
`ignore_count()` and `commands()`. -/
structure BreakPoint where
  type : BPType
  dispo : BPDispo
  expr : Str
  watch_mode : Nat
  enabled : Bool
  ignore_count : Int
  commands : List Str

namespace GDBAgent_DBG

/-- `GDBAgent_DBG::disable_command`. -/
def disable_command (bp : Str) : Str :=
  let bp : Str := if ¬ bp.isEmpty = true then string.prepend bp [' '] else bp
  "disable".toList ++ bp

/-- `GDBAgent_DBG::assign_command`. -/
def assign_command (pf : Profile) (var expr : Str) : Str :=
  let cmd : Str := []
  let cmd : Str := cmd ++ (" ".toList ++ var ++ " ".toList)
  let cmd : Str :=
    match pf.program_language with
    | ProgramLanguage.LANGUAGE_BASH
    | ProgramLanguage.LANGUAGE_C
    | ProgramLanguage.LANGUAGE_FORTRAN
    | ProgramLanguage.LANGUAGE_JAVA
    | ProgramLanguage.LANGUAGE_MAKE
    | ProgramLanguage.LANGUAGE_PERL
    | ProgramLanguage.LANGUAGE_PHP
    | ProgramLanguage.LANGUAGE_PYTHON
    | ProgramLanguage.LANGUAGE_OTHER => cmd ++ "=".toList
    | ProgramLanguage.LANGUAGE_ADA
    | ProgramLanguage.LANGUAGE_PASCAL
    | ProgramLanguage.LANGUAGE_CHILL => cmd ++ ":=".toList
  cmd ++ " ".toList ++ expr

/-- `GDBAgent_DBG::restore_breakpoint_command`: the text written to the
stream `os`.  The inherited `watch_command` and `ignore_command` and the
capability flags come from the profile. -/
def restore_breakpoint_command (pf : Profile) (bp : BreakPoint) (pos num cond : Str)
    (as_dummy : Bool) : Str :=
  let os : Str := []
  let os : Str :=
    match bp.type with
    | BPType.BREAKPOINT =>
      match bp.dispo with
      | BPDispo.BPKEEP
      | BPDispo.BPDIS => os ++ "break ".toList ++ pos ++ "\n".toList
      | BPDispo.BPDEL => os ++ "tbreak ".toList ++ pos ++ "\n".toList
    | BPType.WATCHPOINT => os ++ pf.watch_command bp.expr bp.watch_mode ++ "\n".toList
    | BPType.TRACEPOINT
    | BPType.ACTIONPOINT => os  -- Not handled - FIXME
  if ¬ as_dummy = true then
    -- Extra infos
    let os : Str :=
      if ¬ bp.enabled = true ∧ pf.has_disable_command = true then
        os ++ disable_command num ++ "\n".toList
      else os
    let ignore : Int := bp.ignore_count
    let os : Str :=
      if ignore > 0 ∧ pf.has_ignore_command = true then
        os ++ pf.ignore_command num ignore ++ "\n".toList
      else os
    let os : Str :=
      if ¬ cond.isEmpty = true ∧ pf.has_condition_command = true then
        os ++ pf.condition_command num cond ++ "\n".toList
      else os
    if bp.commands.length ≠ 0 then
      let os : Str := os ++ "commands ".toList ++ num ++ "\n".toList
      let os : Str := bp.commands.foldl (fun out c => out ++ c ++ "\n".toList) os
      os ++ "end\n".toList
    else os
  else os

end GDBAgent_DBG

namespace GDBAgent_JDB

/-- `GDBAgent_JDB::is_exception_answer`. -/
def is_exception_answer (answer : Str) : Bool :=
  string.contains answer "com.sun.tools.example.debug".toList
    || string.contains answer "sun.tools.debug".toList
    || string.contains answer "Internal exception:".toList

/-- `GDBAgent_JDB::assign_command`. -/
def assign_command (pf : Profile) (var expr : Str) : Str :=
  let cmd : Str := "set".toList
  if pf.has_debug_command = true then []  -- JDB 1.1: not available
  else
    let cmd : Str := cmd ++ (" ".toList ++ var ++ " ".toList)
    let cmd : Str :=
      match pf.program_language with
      | ProgramLanguage.LANGUAGE_BASH
      | ProgramLanguage.LANGUAGE_C
      | ProgramLanguage.LANGUAGE_FORTRAN
      | ProgramLanguage.LANGUAGE_JAVA
      | ProgramLanguage.LANGUAGE_MAKE
      | ProgramLanguage.LANGUAGE_PERL
      | ProgramLanguage.LANGUAGE_PHP
      | ProgramLanguage.LANGUAGE_PYTHON
      | ProgramLanguage.LANGUAGE_OTHER => cmd ++ "=".toList
      | ProgramLanguage.LANGUAGE_ADA
      | ProgramLanguage.LANGUAGE_PASCAL
      | ProgramLanguage.LANGUAGE_CHILL => cmd ++ ":=".toList
    cmd ++ " ".toList ++ expr

end GDBAgent_JDB

/-! ## Loading a program, restoring a JDB breakpoint, counting the line loop -/

namespace GDBAgent_DBG

/-- `GDBAgent_DBG::debug_command`.  The local copy of `args` gets a space in
front and is then not used. -/
def debug_command (program : Str) (args : Str) : Str :=
  let _args : Str :=
    if ¬ args.isEmpty = true ∧ ¬ string.contains_char_at args ' ' 0 = true then
      string.prepend args [' ']
    else args
  "file ".toList ++ program

end GDBAgent_DBG

namespace GDBAgent_JDB

/-- `GDBAgent_JDB::debug_command`.  The local copy of `args` gets a space in
front and is then not used. -/
def debug_command (program : Str) (args : Str) : Str :=
  let _args : Str :=
    if ¬ args.isEmpty = true ∧ ¬ string.contains_char_at args ' ' 0 = true then
      string.prepend args [' ']
    else args
  "load ".toList ++ program

/-- `GDBAgent_JDB::restore_breakpoint_command`: the text written to the
stream `os`; `bp`, `num`, `cond` and `as_dummy` are unused. -/
def restore_breakpoint_command (_bp : BreakPoint) (pos _num _cond : Str) (_as_dummy : Bool) :
    Str :=
  let os : Str := []
  os ++ "stop at ".toList ++ pos ++ "\n".toList

/-- The loop `while (last_nl >= 0)` of `GDBAgent_JDB::ends_with_prompt` as in
`line_scan`, with a count of the runs of its body: `runs` is the number of
runs so far, and the result carries the number of runs at the end. -/
def line_scan_count (answer : Str) : Nat → Int → Nat → Option (Option Str × Nat)
  | 0, _, _ => none
  | fuel + 1, last_nl, runs =>
    if last_nl ≥ 0 then
      let last_nl : Int := string.index answer '\n' (last_nl - (answer.length : Int))
      let beginning_of_line : Int := last_nl + 1
      let match_len : Int := regex.match_pos rxjdbprompt answer beginning_of_line
      if match_len > 0 then
        let i : Nat := skip_isspace (answer.drop (beginning_of_line + match_len).toNat)
                         (beginning_of_line + match_len).toNat
        if i < answer.length ∧ answer[i]? = some '=' then
          line_scan_count answer fuel (last_nl - 1) (runs + 1)
        else
          some (some (string.at_pos answer beginning_of_line match_len), runs + 1)
      else
        line_scan_count answer fuel (last_nl - 1) (runs + 1)
    else
      some (none, runs)

end GDBAgent_JDB

/-! ## FontTable -/

/-- Result of code that may stop at an assertion or read outside an array. -/
inductive Outcome (α : Type) where
  | ok : α → Outcome α
  | assertion_failed : Outcome α
  | out_of_bounds : Nat → Outcome α
  deriving DecidableEq

/-- One slot of the font table (`FontTableHashEntry`): the font pointer, 0
when the slot is free, and the font name. -/
structure FontTableHashEntry where
  font : Nat
  name : Str
  deriving DecidableEq

/-- What `FontTable.C` uses and does not define: the constant `MAX_FONTS`, the
function `hashpjw`, and the two Xft calls that open a font by name and the
default font (0 when the font cannot be opened). -/
structure FontEnv where
  MAX_FONTS : Nat
  hashpjw : Str → Nat
  XftFontOpenName : Str → Nat
  XftFontOpen_default : Nat

namespace FontTable

/-- The function `hash` of `FontTable.C`. -/
def hash (env : FontEnv) (name : Str) : Nat := env.hashpjw name % env.MAX_FONTS

/-- The loop of `FontTable::operator[]`, at most `fuel` tests of its
condition: `none` when they are used up; else the index at which the loop
ends, or the failed assertion, or the index outside the table that
`table[i]` was read at. -/
def probe (env : FontEnv) (table : List FontTableHashEntry) (name : Str) :
    Nat → Nat → Option (Outcome Nat)
  | 0, _ => none
  | fuel + 1, i =>
    match table[i]? with
    | none => some (Outcome.out_of_bounds i)
    | some entry =>
      if entry.font ≠ 0 ∧ name ≠ entry.name then
        if i < env.MAX_FONTS then   -- assert (i < MAX_FONTS)
          probe env table name fuel (if i ≥ env.MAX_FONTS then 0 else i + 1)
        else some Outcome.assertion_failed
      else some (Outcome.ok i)

/-- `FontTable::operator[]`: the font returned and the table after the call
(the warning on `std::cerr` is left out).  The loop gets `table.length + 1`
tests of its condition. -/
def lookup (env : FontEnv) (table : List FontTableHashEntry) (name : Str) :
    Option (Outcome (Nat × List FontTableHashEntry)) :=
  match probe env table name (table.length + 1) (hash env name) with
  | none => none
  | some Outcome.assertion_failed => some Outcome.assertion_failed
  | some (Outcome.out_of_bounds i) => some (Outcome.out_of_bounds i)
  | some (Outcome.ok i) =>
    match table[i]? with
    | none => some (Outcome.out_of_bounds i)
    | some entry =>
      if entry.font = 0 ∧ name ≠ entry.name then
        -- Insert new font
        let font : Nat := env.XftFontOpenName (name ++ ":antialias=true".toList)
        let font : Nat := if font = 0 then env.XftFontOpen_default else font
        some (Outcome.ok (font, table.set i { font := font, name := name }))
      else some (Outcome.ok (entry.font, table))

end FontTable

/-! ## fonts -/

namespace string

/-- Modelled from the spec: `string::after(int pos)` of DDD's string class,
which is `_substr(pos + 1, length() - (pos + 1))`: the text after position
`pos`. -/
def after (s : Str) (pos : Int) : Str := substr s (pos + 1) ((s.length : Int) - (pos + 1))

/-- Modelled from the spec: `string::contains(char c)` of DDD's string class,
which is `search(0, length(), c) >= 0`: `c` occurs somewhere. -/
def contains_char (s : Str) (c : Char) : Bool := decide (0 ≤ index s c 0)

/-- Modelled from the spec: `string::before(char c)` of DDD's string class,
which is `_substr(0, search(0, length(), c))`: the text before the first
`c`. -/
def before_char (s : Str) (c : Char) : Str := substr s 0 (index s c 0)

end string

/-- The fonts of DDD (`DDDFont`), as the cases of `userfont` list them. -/
inductive DDDFont where
  | DefaultDDDFont | VariableWidthDDDFont | FixedWidthDDDFont | DataDDDFont
  deriving DecidableEq

/-- What `fonts.C` reads of `AppData` to build a font name: the four font
names and the four font sizes (as the `int` they are assigned to). -/
structure AppData where
  default_font : Str
  variable_width_font : Str
  fixed_width_font : Str
  data_font : Str
  default_font_size : Int
  variable_width_font_size : Int
  fixed_width_font_size : Int
  data_font_size : Int

namespace fonts

/-- Constant `Foundry`. -/
def Foundry : Int := 1

/-- Constant `PointSize`. -/
def PointSize : Int := 8

/-- Constant `AllComponents`. -/
def AllComponents : Int := 14

/-- The loop `while (n >= Foundry && (i = name.index('-', i + 1)) >= 0) n--;`
of `component`, for `count = n - Foundry + 1` occurrences still to find: the
value of `i` after it. -/
def nth_dash (name : Str) : Nat → Int → Int
  | 0, i => i
  | count + 1, i =>
    let i : Int := string.index name '-' (i + 1)
    if i ≥ 0 then nth_dash name count i else i

/-- `component(string name, FontComponent n)`: the Nth component of `name`. -/
def component (name : Str) (n : Int) : Str :=
  -- If name does not begin with `-', assume it's a font family
  let name : Str :=
    if ¬ string.contains_char_at name '-' 0 = true then string.prepend name "-*-".toList
    else name
  -- Let I point to the Nth occurrence of `-'
  let i : Int := nth_dash name (n - Foundry + 1).toNat (-1)
  let w : Str := []
  if i ≥ 0 then
    let w : Str := string.after name i
    if string.contains_char w '-' = true then string.before_char w '-' else w
  else w

/-- `userfont`: the user-specified value. -/
def userfont (ad : AppData) (font : DDDFont) : Str :=
  match font with
  | DDDFont.DefaultDDDFont => ad.default_font
  | DDDFont.VariableWidthDDDFont => ad.variable_width_font
  | DDDFont.FixedWidthDDDFont => ad.fixed_width_font
  | DDDFont.DataDDDFont => ad.data_font

/-- `fallbackfont`: the defaults to use if nothing is specified. -/
def fallbackfont (font : DDDFont) : Str :=
  match font with
  | DDDFont.DefaultDDDFont =>
    "-misc-liberation sans-bold-r-normal--0-0-0-0-p-0-iso8859-1".toList
  | DDDFont.VariableWidthDDDFont =>
    "-misc-liberation sans-medium-r-normal--0-0-0-0-p-0-iso8859-1".toList
  | DDDFont.FixedWidthDDDFont
  | DDDFont.DataDDDFont =>
    "-misc-liberation mono-bold-r-normal--0-0-0-0-m-0-iso8859-1".toList

/-- `component(const AppData& ad, DDDFont font, FontComponent n)`. -/
def component_ad (ad : AppData) (font : DDDFont) (n : Int) : Str :=
  if n = PointSize then
    let sz : Int :=
      match font with
      | DDDFont.DefaultDDDFont => ad.default_font_size
      | DDDFont.VariableWidthDDDFont => ad.variable_width_font_size
      | DDDFont.FixedWidthDDDFont => ad.fixed_width_font_size
      | DDDFont.DataDDDFont => ad.data_font_size
    let sz : Int := if sz < 80 then 100 else sz
    itostring sz
  else
    let w : Str := component (userfont ad font) n
    if w.isEmpty = true then   -- nothing specified
      component (fallbackfont font) n
    else w

/-- One run of the body of the loop of `make_font`, for component `n`. -/
def make_font_step (ad : AppData) (base : DDDFont) (override : Str) (font : Str) (n : Int) :
    Str :=
  let font : Str := font ++ ['-']
  let w : Str := component override n
  let w : Str := if w.isEmpty = true ∨ w = " ".toList then component_ad ad base n else w
  font ++ w

/-- `make_font`: the loop `for (n = Foundry; n <= AllComponents; n++)` runs
its body for `n = 1, ..., 14`. -/
def make_font (ad : AppData) (base : DDDFont) (override : Str) : Str :=
  ((List.range' 1 14).map (fun k : Nat => (k : Int))).foldl
    (make_font_step ad base override) []

end fonts

/-! ## A sample font environment, to evaluate on -/

/-- A sample hash function, the hash of P. J. Weinberger on 32 bits. -/
def sample_hashpjw (name : Str) : Nat :=
  name.foldl
    (fun h c =>
      let h : Nat := (h * 16 + c.toNat) % 4294967296
      let g : Nat := h &&& 4026531840
      if g ≠ 0 then (h ^^^ (g >>> 24)) ^^^ g else h)
    0

/-- A sample font environment: 511 slots, every font can be opened. -/
def sample_font_env : FontEnv where
  MAX_FONTS := 511
  hashpjw := sample_hashpjw
  XftFontOpenName := fun _ => 1
  XftFontOpen_default := 2

/-- A free slot of the font table. -/
def free_slot : FontTableHashEntry where
  font := 0
  name := []

/-- A sample table of 511 slots: the last one holds the font `9m`, all others
are free. -/
def sample_font_table : List FontTableHashEntry :=
  List.replicate 510 free_slot ++ [{ font := 1, name := "9m".toList }]

/-- Sample application data: the default font is `helvetica` at size 120,
the other fonts are not specified. -/
def sample_app_data : AppData where
  default_font := "helvetica".toList
  variable_width_font := []
  fixed_width_font := []
  data_font := []
  default_font_size := 120
  variable_width_font_size := 0
  fixed_width_font_size := 0
  data_font_size := 0

/-! ## A concrete profile and a fresh session, to evaluate on -/

/-- A sample profile: nothing to strip, all capabilities present, GDB-like
`clear` and `condition` commands, and a position with a `:` is a file
position. -/
def sample_profile : Profile where
  strip_control := fun s => s
  has_output_command := true
  has_print_r_option := true
  has_condition_command := true
  has_debug_command := false
  has_watch_command := 7
  program_language := ProgramLanguage.LANGUAGE_JAVA
  clear_command := fun pos => "clear ".toList ++ pos
  condition_command := fun nr cond => "condition ".toList ++ nr ++ [' '] ++ cond
  is_file_pos := fun pos => pos.elem ':'
  has_disable_command := true
  has_ignore_command := true
  ignore_command := fun nr count => "ignore ".toList ++ nr ++ [' '] ++ itostring count
  watch_command := fun expr _ => "watch ".toList ++ expr

/-- A fresh session: no prompt seen, recording, no breakpoint seen, nothing
issued. -/
def fresh_session : GDBAgent where
  last_prompt := []
  recording := true
  max_breakpoint_number_seen := 0
  issued := []

/-! ## Sequences of calls on one session -/

/-- The arguments of one `set_bp` call. -/
structure SetBpCall where
  a : Str
  set : Bool
  temp : Bool
  cond : Str

/-- A sequence of `GDBAgent_DBG::set_bp` calls on one session, in order. -/
def dbg_set_bp_calls (pf : Profile) (st : GDBAgent) (calls : List SetBpCall) : GDBAgent :=
  calls.foldl (fun s c => GDBAgent_DBG.set_bp pf s c.a c.set c.temp c.cond) st

/-- A sequence of `GDBAgent_JDB::set_bp` calls on one session, in order. -/
def jdb_set_bp_calls (pf : Profile) (st : GDBAgent) (calls : List SetBpCall) : GDBAgent :=
  calls.foldl (fun s c => GDBAgent_JDB.set_bp pf s c.a c.set c.temp c.cond) st

/-! ## Notions of the specification -/

/-- The text following the last line break of `s`: the whole of `s` when it
has no line break. -/
def text_after_last_line_break (s : Str) : Str :=
  (s.reverse.takeWhile (fun c => c != '\n')).reverse

/-- The position as the specification describes it: `"*" ++ a` if `a` begins
with the character `'0'` and contains no `':'`, and `a` unchanged otherwise. -/
def marked_position (a : Str) : Str :=
  if a.head? = some '0' ∧ ':' ∉ a then '*' :: a else a

/-- A letter `a`..`z` or `A`..`Z`. -/
def is_letter (c : Char) : Bool := ('a' ≤ c && c ≤ 'z') || ('A' ≤ c && c ≤ 'Z')

/-- A decimal digit `0`..`9`. -/
def is_digit (c : Char) : Bool := '0' ≤ c && c ≤ '9'

/-- A threaded prompt `THREAD[DEPTH]` followed by one space: THREAD starts
with a letter `a`, continues with letters, digits or spaces `mid` and ends
with a letter or digit `z`; DEPTH is a positive decimal number without
leading zero, with first digit `d` and further digits `ds`. -/
def is_threaded_prompt (p : Str) : Prop :=
  ∃ (a : Char) (mid : Str) (z d : Char) (ds : Str),
    p = (a :: mid) ++ (z :: '[' :: d :: ds) ++ [']', ' ']
      ∧ is_letter a = true
      ∧ (∀ c ∈ mid, is_letter c = true ∨ is_digit c = true ∨ c = ' ')
      ∧ (is_letter z = true ∨ is_digit z = true)
      ∧ ('1' ≤ d ∧ d ≤ '9')
      ∧ (∀ c ∈ ds, is_digit c = true)

/-- A thread name as the words "starts with a letter, continues with letters,
digits or spaces and ends with a letter or digit" admit it when one letter
may be first and last at once: not empty, the first character a letter, all
characters letters, digits or spaces, the last character a letter or digit. -/
def is_thread_name_as_worded (t : Str) : Prop :=
  (∃ a, t.head? = some a ∧ is_letter a = true)
    ∧ (∀ c ∈ t, is_letter c = true ∨ is_digit c = true ∨ c = ' ')
    ∧ (∃ z, t.getLast? = some z ∧ (is_letter z = true ∨ is_digit z = true))

/-- A threaded prompt `THREAD[DEPTH]` followed by one space, with a thread
name as worded and DEPTH a positive decimal number without leading zero. -/
def is_threaded_prompt_as_worded (p : Str) : Prop :=
  ∃ (t : Str) (d : Char) (ds : Str),
    p = t ++ ('[' :: d :: ds) ++ [']', ' ']
      ∧ is_thread_name_as_worded t
      ∧ ('1' ≤ d ∧ d ≤ '9')
      ∧ (∀ c ∈ ds, is_digit c = true)

/-- The prompt shapes of JDB: `"> "` or a threaded prompt. -/
def is_jdb_prompt (p : Str) : Prop := p = "> ".toList ∨ is_threaded_prompt p

/-- Position `b` is the start of a line of `answer`: the start of the text or
the position after a line break. -/
def is_line_start (answer : Str) (b : Int) : Prop :=
  b = 0 ∨ (0 < b ∧ answer[(b - 1).toNat]? = some '\n')

/-- The first non-whitespace character of `answer` at or after position `pos`
is `'='`. -/
def followed_by_equals (answer : Str) (pos : Int) : Prop :=
  ((answer.drop pos.toNat).dropWhile isspace).head? = some '='

/-- The primary set command of a breakpoint descriptor, as the specification
lists it: `break` for a breakpoint that is kept or disabled, `tbreak` for one
that is deleted when hit, the watch command for a watchpoint, and nothing for
a tracepoint or an actionpoint; each command ends its line. -/
def primary_set_command (pf : Profile) (bp : BreakPoint) (pos : Str) : Str :=
  match bp.type, bp.dispo with
  | BPType.BREAKPOINT, BPDispo.BPDEL => "tbreak ".toList ++ pos ++ ['\n']
  | BPType.BREAKPOINT, _ => "break ".toList ++ pos ++ ['\n']
  | BPType.WATCHPOINT, _ => pf.watch_command bp.expr bp.watch_mode ++ ['\n']
  | _, _ => []

/-- The attached-commands block: `commands NUM`, each command on a line of
its own, and `end`. -/
def commands_block (num : Str) (commands : List Str) : Str :=
  "commands ".toList ++ num ++ ['\n'] ++ (commands.map (fun c => c ++ ['\n'])).flatten
    ++ "end\n".toList

/-- The value `make_font` chooses for field `n`, as the specification says
it: `component(override, n)`, or `component(ad, base, n)` when that is empty
or a single space. -/
def chosen_field (ad : AppData) (base : DDDFont) (override : Str) (n : Int) : Str :=
  if fonts.component override n = [] ∨ fonts.component override n = [' '] then
    fonts.component_ad ad base n
  else fonts.component override n

/-- The font name with the fields `ws`: each field introduced by one `-`. -/
def fields_name (ws : List Str) : Str := (ws.map (fun w => '-' :: w)).flatten

/-! ## Facts about the string operations -/

theorem scan_back_char_absent (s : Str) (c : Char) (hc : c ∉ s) (n : Nat) :
    string.scan_back_char s c n = -1 := by
  have key : ∀ k : Nat, s[k]? ≠ some c := by
    intro k hk
    exact hc (List.getElem?_mem hk)
  induction n with
  | zero => simp [string.scan_back_char, key 0]
  | succ n ih => simp [string.scan_back_char, key (n + 1), ih]

theorem scan_back_char_last (a b : Str) (c : Char) (hc : c ∉ b) (k : Nat) (hk : k ≤ b.length) :
    string.scan_back_char (a ++ c :: b) c (a.length + k) = (a.length : Int) := by
  induction k with
  | zero =>
    cases hlen : a.length with
    | zero =>
      have : a = [] := List.length_eq_zero.mp hlen
      subst this
      simp [string.scan_back_char]
    | succ m =>
      have h1 : (a ++ c :: b)[m + 1]? = some c := by
        rw [← hlen, List.getElem?_append_right (Nat.le_refl _)]; simp
      simp [string.scan_back_char, h1]
  | succ k ih =>
    have h1 : (a ++ c :: b)[a.length + k + 1]? ≠ some c := by
      intro h
      rw [List.getElem?_append_right (by omega)] at h
      have h2 : a.length + k + 1 - a.length = k + 1 := by omega
      rw [h2] at h
      simp at h
      exact hc (List.getElem?_mem h)
    have h3 : a.length + (k + 1) = (a.length + k) + 1 := by omega
    rw [h3]
    simp only [string.scan_back_char]
    rw [if_neg h1]
    exact ih (by omega)

theorem index_back_absent (s : Str) (c : Char) (hc : c ∉ s) : string.index s c (-1) = -1 := by
  unfold string.index
  split
  · rfl
  · rw [if_neg (by omega)]
    split
    · rfl
    · exact scan_back_char_absent s c hc _

theorem index_back_last (a b : Str) (c : Char) (hc : c ∉ b) :
    string.index (a ++ c :: b) c (-1) = (a.length : Int) := by
  unfold string.index
  rw [if_neg (by simp), if_neg (by omega), if_neg (by simp; omega)]
  have h : (((a ++ c :: b).length : Int) + -1).toNat = a.length + b.length := by
    simp; omega
  rw [h]
  exact scan_back_char_last a b c hc b.length (Nat.le_refl _)

theorem matches_str_iff (s t : Str) (n : Nat) (ht : t ≠ []) :
    string.matches_str s t (n : Int) = true ↔ s.drop n = t := by
  have htl : 0 < t.length := List.length_pos.mpr ht
  unfold string.matches_str string.match_at
  simp only [decide_eq_true_eq]
  constructor
  · intro h
    by_cases h1 : (s.length : Int) - (n : Int) = (t.length : Int)
    · simp only [Int.toNat_ofNat] at h
      rw [if_neg (by omega), if_neg (by simp [h1])] at h
      simp only at h
      split at h
      · omega
      · split at h
        · rename_i h2
          have h3 : (s.drop n).length = t.length := by simp; omega
          rw [← h3, Int.toNat_ofNat, List.take_of_length_le (Nat.le_refl _)] at h2
          exact h2
        · omega
    · rw [if_neg (by omega), if_pos (by simp [h1])] at h
      simp at h
  · intro h
    have hlen : s.length - n = t.length := by rw [← h]; simp
    rw [if_neg (by omega), if_neg (by simp; omega)]
    simp only [Int.toNat_ofNat]
    rw [if_neg (by omega), if_pos (by rw [h]; simp)]
    omega

theorem exists_last_occurrence (c : Char) (s : Str) (h : c ∈ s) :
    ∃ a b, s = a ++ c :: b ∧ c ∉ b := by
  induction s with
  | nil => simp at h
  | cons x xs ih =>
    by_cases hx : c ∈ xs
    · obtain ⟨a, b, hab, hb⟩ := ih hx
      exact ⟨x :: a, b, by rw [hab]; rfl, hb⟩
    · have hxc : c = x := by
        rcases List.mem_cons.mp h with h1 | h1
        · exact h1
        · exact absurd h1 hx
      exact ⟨[], xs, by rw [hxc]; rfl, hx⟩

theorem takeWhile_append_stop (p : Char → Bool) (l r : Str) (c : Char)
    (hl : ∀ x ∈ l, p x = true) (hc : p c = false) :
    (l ++ c :: r).takeWhile p = l := by
  induction l with
  | nil => simp [List.takeWhile, hc]
  | cons x xs ih =>
    have hx : p x = true := hl x (List.mem_cons_self _ _)
    have hxs : ∀ y ∈ xs, p y = true := fun y hy => hl y (List.mem_cons_of_mem _ hy)
    simp [List.takeWhile, hx, ih hxs]

theorem text_after_last_line_break_absent (s : Str) (h : '\n' ∉ s) :
    text_after_last_line_break s = s := by
  unfold text_after_last_line_break
  have : s.reverse.takeWhile (fun c => c != '\n') = s.reverse := by
    rw [List.takeWhile_eq_self_iff]
    intro x hx
    have hx2 : x ∈ s := List.mem_reverse.mp hx
    have : x ≠ '\n' := fun e => h (e ▸ hx2)
    simpa using this
  rw [this, List.reverse_reverse]

theorem text_after_last_line_break_split (a b : Str) (h : '\n' ∉ b) :
    text_after_last_line_break (a ++ '\n' :: b) = b := by
  unfold text_after_last_line_break
  have h1 : (a ++ '\n' :: b).reverse = b.reverse ++ '\n' :: a.reverse := by simp
  rw [h1, takeWhile_append_stop _ _ _ _ _ (by simp), List.reverse_reverse]
  intro x hx
  have hx2 : x ∈ b := List.mem_reverse.mp hx
  have : x ≠ '\n' := fun e => h (e ▸ hx2)
  simpa using this

/-- The value of `GDBAgent_DBG::ends_with_prompt` on an answer that
`strip_control` leaves as it is. -/
theorem dbg_ends_with_prompt_iff (pf : Profile) (st : GDBAgent) (answer : Str)
    (hctl : pf.strip_control answer = answer) :
    (GDBAgent_DBG.ends_with_prompt pf st answer).1 = true
      ↔ text_after_last_line_break answer = GDBAgent_DBG.DBG_PROMPT := by
  have hp : GDBAgent_DBG.DBG_PROMPT ≠ [] := by decide
  have hplen : GDBAgent_DBG.DBG_PROMPT.length = 4 := by decide
  unfold GDBAgent_DBG.ends_with_prompt
  simp only [hctl]
  by_cases hnl : '\n' ∈ answer
  · obtain ⟨a, b, hab, hb⟩ := exists_last_occurrence _ _ hnl
    subst hab
    rw [text_after_last_line_break_split a b hb, index_back_last a b _ hb]
    have hcast : ((a.length : Int) + 1) = ((a.length + 1 : Nat) : Int) := by simp
    have hdrop : (a ++ '\n' :: b).drop (a.length + 1) = b := by
      rw [List.drop_append_eq_append_drop]
      simp
    simp only [hcast, matches_str_iff _ _ _ hp, hdrop]
    constructor
    · intro h
      split at h
      · rename_i h2; exact h2.2.2
      · simp at h
    · intro h
      rw [if_pos]
      refine ⟨?_, by simp, h⟩
      have : b.length = 4 := by rw [h]; exact hplen
      simp only [List.length_append, List.length_cons]
      omega
  · rw [text_after_last_line_break_absent answer hnl, index_back_absent answer _ hnl]
    have hcast : ((-1 : Int) + 1) = ((0 : Nat) : Int) := by simp
    simp only [hcast, matches_str_iff _ _ _ hp, List.drop_zero]
    constructor
    · intro h
      split at h
      · rename_i h2; exact h2.2.2
      · simp at h
    · intro h
      rw [if_pos]
      have : answer.length = 4 := by rw [h]; exact hplen
      refine ⟨by simp; omega, by omega, h⟩

/-- C1: on an answer without control characters (one that `strip_control`
leaves unchanged), `GDBAgent_DBG::ends_with_prompt` returns true exactly when
the text following the last line break of the answer (the whole answer when
it has no line break) is the literal prompt `dbg>`; it returns false for the
empty answer and for every answer that ends in a line break. -/
theorem C1_dbg_ends_with_prompt (pf : Profile) (st : GDBAgent) (answer : Str)
    (hctl : pf.strip_control answer = answer) :
    ((GDBAgent_DBG.ends_with_prompt pf st answer).1 = true
        ↔ text_after_last_line_break answer = "dbg>".toList)
      ∧ (answer = [] → (GDBAgent_DBG.ends_with_prompt pf st answer).1 = false)
      ∧ (answer.getLast? = some '\n' →
          (GDBAgent_DBG.ends_with_prompt pf st answer).1 = false) := by
  have key := dbg_ends_with_prompt_iff pf st answer hctl
  refine ⟨key, ?_, ?_⟩
  · intro h
    subst h
    have : ¬ (GDBAgent_DBG.ends_with_prompt pf st []).1 = true := by
      rw [key]; decide
    simpa using this
  · intro h
    obtain ⟨a, ha⟩ : ∃ a, answer = a ++ ['\n'] := by
      rcases List.eq_nil_or_concat answer with h0 | ⟨a, c, hc⟩
      · subst h0; simp at h
      · subst hc
        simp at h
        exact ⟨a, by rw [h]; simp⟩
    have : ¬ (GDBAgent_DBG.ends_with_prompt pf st answer).1 = true := by
      rw [key, ha, text_after_last_line_break_split a [] (by simp)]
      decide
    simpa using this

/-- C1 at the answer `"value = 5\ndbg>"`: the prompt is seen. -/
theorem C1_dbg_ends_with_prompt_witness :
    sample_profile.strip_control "value = 5\ndbg>".toList = "value = 5\ndbg>".toList
      ∧ (GDBAgent_DBG.ends_with_prompt sample_profile fresh_session
          "value = 5\ndbg>".toList).1 = true :=
  ⟨rfl, (C1_dbg_ends_with_prompt sample_profile fresh_session "value = 5\ndbg>".toList rfl).1.mpr
    (by decide)⟩

/-! ## Cutting off the prompt -/

theorem contains_at_end (body p : Str) (hp : p ≠ []) :
    string.contains_at (body ++ p) p (-1) = true := by
  have hpl : 0 < p.length := List.length_pos.mpr hp
  unfold string.contains_at string.match_at
  simp only [decide_eq_true_eq, List.length_append, Nat.cast_add]
  rw [if_pos (by omega), if_neg (by simp; omega)]
  simp only
  have h1 : ((body.length : Int) + (p.length : Int) + -1 - (p.length : Int) + 1).toNat
      = body.length := by
    have : (body.length : Int) + (p.length : Int) + -1 - (p.length : Int) + 1
        = (body.length : Int) := by omega
    rw [this]; simp
  rw [if_neg (by omega), h1, if_pos (by simp)]
  omega

theorem contains_at_empty (s : Str) (pos : Int) : string.contains_at s [] pos = false := by
  unfold string.contains_at string.match_at
  simp only [decide_eq_false_iff_not, List.length_nil, Nat.cast_zero]
  split
  · omega
  · simp

theorem before_append (body p : Str) :
    string.before (body ++ p) (body.length : Int) = body := by
  unfold string.before string.substr
  by_cases h : body = []
  · subst h; simp
  · have hl : 0 < body.length := List.length_pos.mpr h
    have hc : ¬ ((0 : Int) < 0 ∨ (body.length : Int) ≤ 0
        ∨ (0 : Int) + (body.length : Int) > ((body ++ p).length : Int)) := by
      rw [List.length_append]; push_cast
      rintro (h1 | h1 | h1)
      · exact h1
      · omega
      · omega
    rw [if_neg hc]
    simp

/-- C4: when the session's `last_prompt` is `p`, `GDBAgent_JDB::cut_off_prompt`
applied to `body ++ p` yields exactly `body`. -/
theorem C4_jdb_cut_off_prompt_roundtrip (st : GDBAgent) (body : Str) :
    GDBAgent_JDB.cut_off_prompt st (body ++ st.last_prompt) = body := by
  unfold GDBAgent_JDB.cut_off_prompt
  by_cases hp : st.last_prompt = []
  · rw [hp, contains_at_empty]; simp
  · rw [contains_at_end body _ hp, if_pos rfl]
    have : (((body ++ st.last_prompt).length : Int) - (st.last_prompt.length : Int))
        = (body.length : Int) := by simp
    rw [this, before_append]

theorem scan_back_str_here (s t : Str) (n : Nat) (h : t.isPrefixOf (s.drop n) = true) :
    string.scan_back_str s t n = (n : Int) := by
  cases n with
  | zero => simp [string.scan_back_str] at h ⊢; exact h
  | succ n => simp [string.scan_back_str, h]

theorem index_str_end (body p : Str) (hp : p ≠ []) :
    string.index_str (body ++ p) p (-1) = (body.length : Int) := by
  have hpl : 0 < p.length := List.length_pos.mpr hp
  unfold string.index_str string.search
  rw [if_neg (by rw [List.length_append]; omega), if_neg (by omega), if_neg (by simp)]
  have h1 : ((((body ++ p).length : Int) + -1 + 1 - (p.length : Int))).toNat = body.length := by
    simp
  rw [h1]
  apply scan_back_str_here
  simp

theorem skip_spaces_back_eq (body rest : Str) :
    GDBAgent_DBG.skip_spaces_back (body ++ rest) body.length
      = (body.rdropWhile (fun c => c == ' ')).length := by
  induction body using List.reverseRecOn generalizing rest with
  | nil => simp [GDBAgent_DBG.skip_spaces_back]
  | append_singleton l a ih =>
    have hlen : (l ++ [a]).length = l.length + 1 := by simp
    have hget : (l ++ [a] ++ rest)[l.length]? = some a := by
      rw [List.append_assoc, List.getElem?_append_right (Nat.le_refl _)]; simp
    rw [hlen]
    simp only [GDBAgent_DBG.skip_spaces_back, hget]
    by_cases ha : a = ' '
    · subst ha
      rw [if_pos rfl, List.append_assoc, ih, List.rdropWhile_concat_pos _ _ _ (by simp)]
    · rw [if_neg (by simpa using ha), List.rdropWhile_concat_neg _ _ _ (by simpa using ha)]
      simp

/-- The value of `GDBAgent_DBG::cut_off_prompt` on a body followed by the
prompt: the body without its trailing spaces. -/
theorem dbg_cut_off_prompt_eq (body : Str) :
    GDBAgent_DBG.cut_off_prompt (body ++ GDBAgent_DBG.DBG_PROMPT)
      = body.rdropWhile (fun c => c == ' ') := by
  unfold GDBAgent_DBG.cut_off_prompt
  rw [index_str_end body _ (by decide)]
  simp only [Int.toNat_ofNat, skip_spaces_back_eq]
  obtain ⟨r, hr⟩ := List.rdropWhile_prefix (fun c => c == ' ') body
  generalize body.rdropWhile (fun c => c == ' ') = pre at hr ⊢
  subst hr
  by_cases hb : 0 < pre.length + r.length
  · rw [if_pos (by simp; omega), List.append_assoc, before_append]
  · have h1 : pre = [] := List.length_eq_zero.mp (by omega)
    have h2 : r = [] := List.length_eq_zero.mp (by omega)
    subst h1 h2
    simp [string.before, string.substr]

/-- C5, as stated, fails: for the body `" "` (one space),
`GDBAgent_DBG::cut_off_prompt` applied to `" dbg>"` yields the empty text,
not the body. -/
theorem C5_dbg_cut_off_prompt_counterexample :
    GDBAgent_DBG.cut_off_prompt (" ".toList ++ "dbg>".toList) = []
      ∧ GDBAgent_DBG.cut_off_prompt (" ".toList ++ "dbg>".toList) ≠ " ".toList := by
  decide

/-- C5, amended: `GDBAgent_DBG::cut_off_prompt` applied to `body ++ "dbg>"`
yields `body` without its trailing spaces, and so exactly `body` whenever
`body` does not end with a space. -/
theorem C5_dbg_cut_off_prompt_trims (body : Str) :
    GDBAgent_DBG.cut_off_prompt (body ++ "dbg>".toList) = body.rdropWhile (fun c => c == ' ')
      ∧ (body.getLast? ≠ some ' ' →
          GDBAgent_DBG.cut_off_prompt (body ++ "dbg>".toList) = body) := by
  have key := dbg_cut_off_prompt_eq body
  refine ⟨key, ?_⟩
  intro h
  change GDBAgent_DBG.cut_off_prompt (body ++ GDBAgent_DBG.DBG_PROMPT) = body
  rw [key]
  rcases List.eq_nil_or_concat body with h0 | ⟨l, c, hc⟩
  · subst h0; simp
  · subst hc
    have hc2 : c ≠ ' ' := by simpa using h
    rw [List.concat_eq_append, List.rdropWhile_concat_neg _ _ _ (by simpa using hc2)]

/-- C5, amended, at the bodies `"value = 5\n"` (kept) and `"value = 5 "`
(the trailing space goes). -/
theorem C5_dbg_cut_off_prompt_trims_witness :
    "value = 5\n".toList.getLast? ≠ some ' '
      ∧ GDBAgent_DBG.cut_off_prompt ("value = 5\n".toList ++ "dbg>".toList)
          = "value = 5\n".toList :=
  ⟨by decide, (C5_dbg_cut_off_prompt_trims "value = 5\n".toList).2 (by decide)⟩

/-! ## Rendering commands -/

/-- C6: for both dialects and either value of `internal`, a non-empty `expr`
gives the print verb (for DBG with `" -r"` when `has_print_r_option()`
holds), one space and `expr` verbatim; an empty `expr` gives the verb alone;
and the verb part never ends with a space. -/
theorem C6_print_command (pf : Profile) (expr : Str) (internal : Bool) :
    (expr ≠ [] →
        GDBAgent_DBG.print_command pf expr internal
          = ((if internal = true ∧ pf.has_output_command = true then "output".toList
              else "print".toList)
              ++ (if pf.has_print_r_option = true then " -r".toList else [])) ++ ' ' :: expr
        ∧ GDBAgent_JDB.print_command expr internal
          = (if internal = true then "dump".toList else "print".toList) ++ ' ' :: expr)
      ∧ (expr = [] →
        GDBAgent_DBG.print_command pf expr internal
          = (if internal = true ∧ pf.has_output_command = true then "output".toList
              else "print".toList)
              ++ (if pf.has_print_r_option = true then " -r".toList else [])
        ∧ GDBAgent_JDB.print_command expr internal
          = (if internal = true then "dump".toList else "print".toList))
      ∧ (((if internal = true ∧ pf.has_output_command = true then "output".toList
              else "print".toList)
              ++ (if pf.has_print_r_option = true then " -r".toList else [])).getLast? ≠ some ' '
        ∧ (if internal = true then "dump".toList else "print".toList).getLast? ≠ some ' ') := by
  refine ⟨?_, ?_, ?_, ?_⟩
  · intro h
    have hl : expr.length ≠ 0 := fun e => h (List.length_eq_zero.mp e)
    unfold GDBAgent_DBG.print_command GDBAgent_JDB.print_command
    simp only [if_pos hl]
    constructor
    · split <;> simp
    · simp
  · intro h
    subst h
    unfold GDBAgent_DBG.print_command GDBAgent_JDB.print_command
    simp only [List.length_nil, ne_eq, not_true_eq_false, if_false]
    constructor
    · split <;> simp
    · trivial
  · cases internal <;> cases pf.has_output_command <;> cases pf.has_print_r_option <;> decide
  · cases internal <;> decide

/-- C6 at `expr = "x"` with `internal = false`, and at the empty `expr`. -/
theorem C6_print_command_witness :
    GDBAgent_DBG.print_command sample_profile "x".toList false = "print -r x".toList
      ∧ GDBAgent_JDB.print_command "x".toList false = "print x".toList
      ∧ GDBAgent_DBG.print_command sample_profile [] true = "output -r".toList
      ∧ GDBAgent_JDB.print_command [] true = "dump".toList :=
  ⟨((C6_print_command sample_profile "x".toList false).1 (by decide)).1,
   ((C6_print_command sample_profile "x".toList false).1 (by decide)).2,
   ((C6_print_command sample_profile [] true).2.1 rfl).1,
   ((C6_print_command sample_profile [] true).2.1 rfl).2⟩

/-- A watch mode below 8 with all of its bits in `has` is non-empty only if
one of the three tests of `watch_command` succeeds. -/
theorem watch_bits_cases (w : Nat) (h0 : w ≠ 0) (h7 : w ≤ 7) :
    (w &&& WATCH_CHANGE) = WATCH_CHANGE ∨ (w &&& WATCH_READ) = WATCH_READ
      ∨ (w &&& WATCH_ACCESS) = WATCH_ACCESS := by
  unfold WATCH_CHANGE WATCH_READ WATCH_ACCESS
  interval_cases w <;> first | exact absurd rfl h0 | decide

/-- C7: for a non-empty watch mode `w` made of the Change, Read and Access
bits, `GDBAgent_JDB::watch_command(expr, w)` is the empty string exactly when
`w` is not a subset of the supported bits (`has_watch_command() & w != w`). -/
theorem C7_jdb_watch_command_empty_iff (pf : Profile) (expr : Str) (w : Nat)
    (hne : w ≠ 0) (hbits : w &&& (WATCH_CHANGE ||| WATCH_READ ||| WATCH_ACCESS) = w) :
    GDBAgent_JDB.watch_command pf expr w = [] ↔ (pf.has_watch_command &&& w) ≠ w := by
  have h7 : w ≤ 7 := by
    have : w &&& 7 ≤ 7 := Nat.and_le_right
    have h2 : (WATCH_CHANGE ||| WATCH_READ ||| WATCH_ACCESS) = 7 := by decide
    rw [h2] at hbits
    omega
  unfold GDBAgent_JDB.watch_command
  by_cases hsub : (pf.has_watch_command &&& w) = w
  · rw [if_neg (by simpa using hsub)]
    have hcmd : ∀ (v : Str), v ≠ [] → v ++ expr ≠ [] := by
      intro v hv h
      exact hv (List.append_eq_nil.mp h).1
    constructor
    · intro h
      exfalso
      have hbit := watch_bits_cases w hne h7
      split at h
      · exact hcmd _ (by decide) h
      · split at h
        · exact hcmd _ (by decide) h
        · split at h
          · exact hcmd _ (by decide) h
          · rcases hbit with h1 | h1 | h1 <;> contradiction
    · intro h
      exact absurd hsub h
  · rw [if_pos hsub]
    simp [hsub]

/-- C7 at the modes Read|Access (supported by the sample profile) and Change
on a profile that supports only Read. -/
theorem C7_jdb_watch_command_empty_iff_witness :
    GDBAgent_JDB.watch_command sample_profile "x".toList 6 ≠ []
      ∧ GDBAgent_JDB.watch_command { sample_profile with has_watch_command := 2 } "x".toList 1
          = [] :=
  ⟨fun h => (C7_jdb_watch_command_empty_iff sample_profile "x".toList 6
      (by decide) (by decide)).mp h (by decide),
   (C7_jdb_watch_command_empty_iff { sample_profile with has_watch_command := 2 } "x".toList 1
      (by decide) (by decide)).mpr (by decide)⟩

/-! ## Setting breakpoints -/

theorem contains_char_at_zero (a : Str) (c : Char) :
    string.contains_char_at a c 0 = true ↔ a.head? = some c := by
  unfold string.contains_char_at string.match_at
  cases a with
  | nil => simp
  | cons x xs =>
    simp only [decide_eq_true_eq, List.length_cons, List.length_nil, List.head?_cons]
    rw [if_neg (by omega), if_neg (by simp)]
    simp only [Int.toNat_zero, List.drop_zero]
    have hc : ¬ (((xs.length + 1 : Nat) : Int) = 0 ∨ (((0 + 1 : Nat) : Int) = 0)
        ∨ ((xs.length + 1 : Nat) : Int) - 0 < ((0 + 1 : Nat) : Int)
        ∨ (0 : Int) ≥ ((xs.length + 1 : Nat) : Int)) := by
      rintro (h | h | h | h) <;> omega
    rw [if_neg hc]
    by_cases hx : x = c
    · subst hx; simp
    · have : ¬ (List.take (0 + 1) (x :: xs) = [c]) := by simpa using hx
      rw [if_neg this]
      simp [hx]

theorem scan_fwd_str_single (c : Char) (s : Str) (pos : Nat) :
    0 ≤ string.scan_fwd_str [c] s pos ↔ c ∈ s := by
  induction s generalizing pos with
  | nil => simp [string.scan_fwd_str]
  | cons x xs ih =>
    unfold string.scan_fwd_str
    by_cases hx : c = x
    · subst hx
      simp [List.isPrefixOf]
    · have h1 : List.isPrefixOf [c] (x :: xs) = false := by simp [List.isPrefixOf, hx]
      rw [h1]
      simp only [Bool.false_eq_true, if_false, List.mem_cons, hx, false_or]
      exact ih (pos + 1)

theorem contains_single (a : Str) (c : Char) : string.contains a [c] = true ↔ c ∈ a := by
  unfold string.contains string.search
  cases a with
  | nil => simp
  | cons x xs =>
    simp only [decide_eq_true_eq]
    rw [if_neg (by simp), if_pos (le_refl _)]
    simp only [Int.toNat_zero, List.drop_zero]
    exact scan_fwd_str_single c (x :: xs) 0

/-- The position `set_bp` uses: the test "machine code address given". -/
theorem address_marker_iff (a : Str) :
    (string.contains_char_at a '0' 0 = true ∧ ¬ string.contains a ":".toList = true)
      ↔ (a.head? = some '0' ∧ ':' ∉ a) := by
  rw [contains_char_at_zero]
  have h : ":".toList = [':'] := rfl
  rw [h, contains_single]

/-- All of `GDBAgent_DBG::set_bp`: the commands it issues, nothing else
changes. -/
theorem dbg_set_bp_eq (pf : Profile) (st : GDBAgent) (a : Str) (set temp : Bool) (cond : Str) :
    GDBAgent_DBG.set_bp pf st a set temp cond
      = { st with issued := st.issued
            ++ [if set = false then
                  pf.clear_command (marked_position a)
                else if temp = true then
                  "tbreak ".toList ++ (marked_position a)
                else "break ".toList ++ (marked_position a)]
            ++ (if cond ≠ [] ∧ pf.has_condition_command = true then
                  [pf.condition_command (itostring (int_add st.max_breakpoint_number_seen 1)) cond]
                else []) } := by
  unfold GDBAgent_DBG.set_bp marked_position
  simp only [address_marker_iff, string.prepend, gdb_command]
  have hs : "*".toList = ['*'] := rfl
  have hl : (cond.length ≠ 0) ↔ cond ≠ [] := by
    rw [ne_eq, ne_eq, List.length_eq_zero]
  simp only [hs, hl, List.singleton_append]
  cases set <;> cases temp <;> split <;> split <;> simp_all

/-- All of `GDBAgent_JDB::set_bp`: the commands it issues, nothing else
changes. -/
theorem jdb_set_bp_eq (pf : Profile) (st : GDBAgent) (a : Str) (set temp : Bool) (cond : Str) :
    GDBAgent_JDB.set_bp pf st a set temp cond
      = { st with issued := st.issued
            ++ [if set = false then
                  pf.clear_command (marked_position a)
                else if pf.is_file_pos (marked_position a) = true then
                  "stop at ".toList ++ (marked_position a)
                else "stop in ".toList ++ (marked_position a)]
            ++ (if cond ≠ [] ∧ pf.has_condition_command = true then
                  [pf.condition_command (itostring (int_add st.max_breakpoint_number_seen 1)) cond]
                else []) } := by
  unfold GDBAgent_JDB.set_bp marked_position
  simp only [address_marker_iff, string.prepend, gdb_command]
  have hs : "*".toList = ['*'] := rfl
  have hl : (cond.length ≠ 0) ↔ cond ≠ [] := by
    rw [ne_eq, ne_eq, List.length_eq_zero]
  simp only [hs, hl, List.singleton_append]
  generalize (if a.head? = some '0' ∧ ':' ∉ a then '*' :: a else a) = p
  cases set <;> cases hf : pf.is_file_pos p <;> split <;> simp_all

/-- C8: for both dialects, the command `set_bp` issues first is on the
position `"*" ++ a` if `a` begins with `'0'` and contains no `':'`, and on
`a` unchanged otherwise; and `GDBAgent_DBG::set_bp("0x4010", true, false, "")`
issues exactly the one command `break *0x4010`. -/
theorem C8_set_bp_address (pf : Profile) (st : GDBAgent) (a : Str) (set temp : Bool)
    (cond : Str) :
    (∃ rest, (GDBAgent_DBG.set_bp pf st a set temp cond).issued
        = st.issued ++ (if set = false then pf.clear_command (marked_position a)
                        else if temp = true then "tbreak ".toList ++ marked_position a
                        else "break ".toList ++ marked_position a) :: rest)
      ∧ (∃ rest, (GDBAgent_JDB.set_bp pf st a set temp cond).issued
        = st.issued ++ (if set = false then pf.clear_command (marked_position a)
                        else if pf.is_file_pos (marked_position a) = true then
                          "stop at ".toList ++ marked_position a
                        else "stop in ".toList ++ marked_position a) :: rest)
      ∧ (GDBAgent_DBG.set_bp pf st "0x4010".toList true false []).issued
          = st.issued ++ ["break *0x4010".toList] := by
  refine ⟨?_, ?_, ?_⟩
  · rw [dbg_set_bp_eq]
    simp only [List.append_assoc, List.singleton_append]
    exact ⟨_, rfl⟩
  · rw [jdb_set_bp_eq]
    simp only [List.append_assoc, List.singleton_append]
    exact ⟨_, rfl⟩
  · rw [dbg_set_bp_eq]
    have h : marked_position "0x4010".toList = "*0x4010".toList := by decide
    rw [h]
    have hb : "break ".toList ++ "*0x4010".toList = "break *0x4010".toList := by decide
    simp only [hb, Bool.true_eq_false, Bool.false_eq_true, if_false, ne_eq, not_true_eq_false,
      false_and, List.append_nil]

/-- C9, as stated, fails: one `GDBAgent_DBG::set_bp` call with `set = true` on
a fresh session leaves `max_breakpoint_number_seen` at 0; it does not become
1. -/
theorem C9_set_bp_counter_counterexample :
    (GDBAgent_DBG.set_bp sample_profile fresh_session "main".toList true false []).max_breakpoint_number_seen
        = 0
      ∧ (GDBAgent_DBG.set_bp sample_profile fresh_session "main".toList true false []).max_breakpoint_number_seen
        ≠ fresh_session.max_breakpoint_number_seen + 1
      ∧ (GDBAgent_JDB.set_bp sample_profile fresh_session "main".toList true false []).max_breakpoint_number_seen
        ≠ fresh_session.max_breakpoint_number_seen + 1 := by
  decide

/-- C9, amended: no `set_bp` call, of either dialect and with either value of
`set`, changes `max_breakpoint_number_seen` (so none decreases it), and after
any sequence of `set_bp` calls on one session the counter has the value it
had before them. -/
theorem C9_set_bp_keeps_counter (pf : Profile) (st : GDBAgent) (calls : List SetBpCall) :
    (∀ c : SetBpCall,
        (GDBAgent_DBG.set_bp pf st c.a c.set c.temp c.cond).max_breakpoint_number_seen
            = st.max_breakpoint_number_seen
          ∧ (GDBAgent_JDB.set_bp pf st c.a c.set c.temp c.cond).max_breakpoint_number_seen
            = st.max_breakpoint_number_seen)
      ∧ (dbg_set_bp_calls pf st calls).max_breakpoint_number_seen
          = st.max_breakpoint_number_seen
      ∧ (jdb_set_bp_calls pf st calls).max_breakpoint_number_seen
          = st.max_breakpoint_number_seen := by
  refine ⟨fun c => ⟨by rw [dbg_set_bp_eq], by rw [jdb_set_bp_eq]⟩, ?_, ?_⟩
  · unfold dbg_set_bp_calls
    induction calls generalizing st with
    | nil => rfl
    | cons c cs ih =>
      rw [List.foldl_cons, ih, dbg_set_bp_eq]
  · unfold jdb_set_bp_calls
    induction calls generalizing st with
    | nil => rfl
    | cons c cs ih =>
      rw [List.foldl_cons, ih, jdb_set_bp_eq]

/-- C10: for both dialects, with `set = true`, `set_bp` issues the set
command and then `condition_command(n, cond)` exactly if `cond` is non-empty
and `has_condition_command()` holds, and nothing more otherwise; `n` is the
decimal rendering of the C value `max_breakpoint_number_seen + 1` read at the
start of the call, which is the number `max_breakpoint_number_seen + 1`
whenever that is an `int`. -/
theorem C10_set_bp_condition (pf : Profile) (st : GDBAgent) (a : Str) (temp : Bool)
    (cond : Str) :
    (∃ setcmd, (GDBAgent_DBG.set_bp pf st a true temp cond).issued
        = st.issued ++ setcmd ::
            (if cond ≠ [] ∧ pf.has_condition_command = true then
              [pf.condition_command (itostring (int_add st.max_breakpoint_number_seen 1)) cond]
             else []))
      ∧ (∃ setcmd, (GDBAgent_JDB.set_bp pf st a true temp cond).issued
        = st.issued ++ setcmd ::
            (if cond ≠ [] ∧ pf.has_condition_command = true then
              [pf.condition_command (itostring (int_add st.max_breakpoint_number_seen 1)) cond]
             else []))
      ∧ (-2147483648 ≤ st.max_breakpoint_number_seen
          ∧ st.max_breakpoint_number_seen < 2147483647 →
          int_add st.max_breakpoint_number_seen 1 = st.max_breakpoint_number_seen + 1) := by
  refine ⟨?_, ?_, ?_⟩
  · rw [dbg_set_bp_eq]
    simp only [List.append_assoc, List.singleton_append]
    exact ⟨_, rfl⟩
  · rw [jdb_set_bp_eq]
    simp only [List.append_assoc, List.singleton_append]
    exact ⟨_, rfl⟩
  · intro h
    unfold int_add
    omega

/-- C10 on a session that has seen breakpoint 4: the condition is set on
breakpoint 5. -/
theorem C10_set_bp_condition_witness :
    int_add 4 1 = 5
      ∧ (GDBAgent_DBG.set_bp sample_profile { fresh_session with max_breakpoint_number_seen := 4 }
          "main".toList true false "x > 1".toList).issued
        = ["break main".toList, "condition 5 x > 1".toList] :=
  ⟨(C10_set_bp_condition sample_profile { fresh_session with max_breakpoint_number_seen := 4 }
      "main".toList false "x > 1".toList).2.2 (by decide),
   by decide⟩

/-! ## Regular expressions: matching by derivatives is matching -/

namespace regex

theorem matches_nothing_iff (w : Str) : Matches nothing w ↔ False := by
  constructor
  · intro h; cases h
  · intro h; exact h.elim

theorem matches_eps_iff (w : Str) : Matches eps w ↔ w = [] := by
  constructor
  · intro h; cases h; rfl
  · intro h; subst h; exact Matches.eps

theorem matches_cls_iff (p : Char → Bool) (w : Str) :
    Matches (cls p) w ↔ ∃ c, w = [c] ∧ p c = true := by
  constructor
  · intro h
    cases h with
    | cls _ c hc => exact ⟨c, rfl, hc⟩
  · rintro ⟨c, rfl, hc⟩
    exact Matches.cls p c hc

theorem matches_seq_iff (r q : regex) (w : Str) :
    Matches (seq r q) w ↔ ∃ u v, w = u ++ v ∧ Matches r u ∧ Matches q v := by
  constructor
  · intro h
    cases h with
    | seq _ _ u v hu hv => exact ⟨u, v, rfl, hu, hv⟩
  · rintro ⟨u, v, rfl, hu, hv⟩
    exact Matches.seq r q u v hu hv

theorem matches_alt_iff (r q : regex) (w : Str) :
    Matches (alt r q) w ↔ Matches r w ∨ Matches q w := by
  constructor
  · intro h
    cases h with
    | alt_left _ _ _ h1 => exact Or.inl h1
    | alt_right _ _ _ h1 => exact Or.inr h1
  · rintro (h | h)
    · exact Matches.alt_left r q w h
    · exact Matches.alt_right r q w h

theorem matches_chr_iff (c : Char) (w : Str) : Matches (chr c) w ↔ w = [c] := by
  unfold chr
  rw [matches_cls_iff]
  constructor
  · rintro ⟨x, rfl, hx⟩
    have : x = c := by simpa using hx
    rw [this]
  · intro h
    exact ⟨c, h, by simp⟩

/-- A word matched by a starred expression and starting with `c` splits into
a first piece, matched by the expression and starting with `c`, and a rest. -/
theorem matches_star_cons (r : regex) (x : Str) (h : Matches (star r) x) (c : Char) (w : Str)
    (hx : x = c :: w) :
    ∃ u v, w = u ++ v ∧ Matches r (c :: u) ∧ Matches (star r) v := by
  generalize hs : star r = s at h
  induction h generalizing w with
  | eps => cases hs
  | cls _ _ _ => cases hs
  | seq _ _ _ _ _ _ _ _ => cases hs
  | alt_left _ _ _ _ _ => cases hs
  | alt_right _ _ _ _ _ => cases hs
  | star_nil _ => cases hx
  | star_cons r1 u v hu hv _ ih2 =>
    cases hs
    cases u with
    | nil =>
      exact ih2 w (by simpa using hx) rfl
    | cons y ys =>
      have h1 : y = c ∧ ys ++ v = w := by simpa using hx
      obtain ⟨h2, h3⟩ := h1
      subst h2
      exact ⟨ys, v, h3.symm, hu, hv⟩

theorem nullable_iff (r : regex) : nullable r = true ↔ Matches r [] := by
  induction r with
  | nothing => simp [nullable, matches_nothing_iff]
  | eps => simp [nullable, matches_eps_iff]
  | cls p => simp [nullable, matches_cls_iff]
  | seq r q ihr ihq =>
    simp only [nullable, Bool.and_eq_true, ihr, ihq, matches_seq_iff]
    constructor
    · rintro ⟨h1, h2⟩
      exact ⟨[], [], rfl, h1, h2⟩
    · rintro ⟨u, v, huv, h1, h2⟩
      have h3 : u = [] ∧ v = [] := by simpa using huv.symm
      rw [h3.1] at h1
      rw [h3.2] at h2
      exact ⟨h1, h2⟩
  | alt r q ihr ihq => simp only [nullable, Bool.or_eq_true, ihr, ihq, matches_alt_iff]
  | star r _ => simp only [nullable, true_iff]; exact Matches.star_nil r

theorem deriv_iff (r : regex) (c : Char) (w : Str) :
    Matches (deriv r c) w ↔ Matches r (c :: w) := by
  induction r generalizing w with
  | nothing => simp [deriv, matches_nothing_iff]
  | eps => simp [deriv, matches_nothing_iff, matches_eps_iff]
  | cls p =>
    simp only [deriv, matches_cls_iff]
    by_cases hp : p c = true
    · rw [if_pos hp, matches_eps_iff]
      constructor
      · intro h; exact ⟨c, by rw [h], hp⟩
      · rintro ⟨x, hx, _⟩
        have : c = x ∧ w = [] := by simpa using hx
        exact this.2
    · rw [if_neg hp, matches_nothing_iff]
      constructor
      · intro h; exact h.elim
      · rintro ⟨x, hx, hpx⟩
        have : c = x ∧ w = [] := by simpa using hx
        rw [← this.1] at hpx
        exact hp hpx
  | seq r q ihr ihq =>
    have key : Matches (seq r q) (c :: w)
        ↔ (∃ u v, w = u ++ v ∧ Matches r (c :: u) ∧ Matches q v)
          ∨ (Matches r [] ∧ Matches q (c :: w)) := by
      rw [matches_seq_iff]
      constructor
      · rintro ⟨u, v, huv, hu, hv⟩
        cases u with
        | nil =>
          right
          have : v = c :: w := by simpa using huv.symm
          rw [this] at hv
          exact ⟨hu, hv⟩
        | cons y ys =>
          left
          have h1 : c = y ∧ w = ys ++ v := by simpa using huv
          obtain ⟨h2, h3⟩ := h1
          subst h2
          exact ⟨ys, v, h3, hu, hv⟩
      · rintro (⟨u, v, huv, hu, hv⟩ | ⟨hu, hv⟩)
        · exact ⟨c :: u, v, by rw [huv]; rfl, hu, hv⟩
        · exact ⟨[], c :: w, rfl, hu, hv⟩
    rw [key]
    simp only [deriv]
    by_cases hn : nullable r = true
    · rw [if_pos hn, matches_alt_iff, matches_seq_iff, ihq]
      have hn2 := (nullable_iff r).mp hn
      constructor
      · rintro (⟨u, v, huv, hu, hv⟩ | h)
        · exact Or.inl ⟨u, v, huv, (ihr u).mp hu, hv⟩
        · exact Or.inr ⟨hn2, h⟩
      · rintro (⟨u, v, huv, hu, hv⟩ | ⟨_, h⟩)
        · exact Or.inl ⟨u, v, huv, (ihr u).mpr hu, hv⟩
        · exact Or.inr h
    · rw [if_neg hn, matches_seq_iff]
      constructor
      · rintro ⟨u, v, huv, hu, hv⟩
        exact Or.inl ⟨u, v, huv, (ihr u).mp hu, hv⟩
      · rintro (⟨u, v, huv, hu, hv⟩ | ⟨h, _⟩)
        · exact ⟨u, v, huv, (ihr u).mpr hu, hv⟩
        · exact absurd ((nullable_iff r).mpr h) hn
  | alt r q ihr ihq => simp only [deriv, matches_alt_iff, ihr, ihq]
  | star r ih =>
    simp only [deriv, matches_seq_iff]
    constructor
    · rintro ⟨u, v, huv, hu, hv⟩
      rw [huv]
      exact Matches.star_cons r (c :: u) v ((ih u).mp hu) hv
    · intro h
      obtain ⟨u, v, huv, hu, hv⟩ := matches_star_cons r _ h c w rfl
      exact ⟨u, v, huv, (ih u).mpr hu, hv⟩

/-- What `longest` returns is the length of a matched prefix. -/
theorem longest_sound (s : Str) (r : regex) (n : Nat) (h : longest s r = some n) :
    n ≤ s.length ∧ Matches r (s.take n) := by
  induction s generalizing r n with
  | nil =>
    simp only [longest] at h
    split at h
    · rename_i hn
      cases h
      exact ⟨Nat.le_refl _, (nullable_iff r).mp hn⟩
    · cases h
  | cons c cs ih =>
    simp only [longest] at h
    split at h
    · rename_i m hm
      cases h
      obtain ⟨h1, h2⟩ := ih _ _ hm
      exact ⟨by simpa using h1, by rw [List.take_succ_cons]; exact (deriv_iff r c _).mp h2⟩
    · split at h
      · rename_i hn
        cases h
        exact ⟨Nat.zero_le _, (nullable_iff r).mp hn⟩
      · cases h

/-- Whenever a prefix is matched, `longest` returns a length, and one at
least as large. -/
theorem longest_complete (s : Str) (r : regex) (m : Nat) (hm : m ≤ s.length)
    (h : Matches r (s.take m)) : ∃ n, longest s r = some n ∧ m ≤ n := by
  induction s generalizing r m with
  | nil =>
    have : nullable r = true := (nullable_iff r).mpr (by simpa using h)
    exact ⟨0, by simp [longest, this], by simpa using hm⟩
  | cons c cs ih =>
    cases m with
    | zero =>
      have hn : nullable r = true := (nullable_iff r).mpr (by simpa using h)
      simp only [longest]
      cases longest cs (deriv r c) with
      | none => exact ⟨0, by simp [hn], Nat.le_refl _⟩
      | some k => exact ⟨k + 1, rfl, Nat.zero_le _⟩
    | succ m =>
      rw [List.take_succ_cons] at h
      obtain ⟨n, hn, hmn⟩ := ih (deriv r c) m (by simpa using hm) ((deriv_iff r c _).mpr h)
      exact ⟨n + 1, by simp [longest, hn], by omega⟩

end regex

/-! ## The reversed prompt pattern and the prompt shape -/

theorem regex.matches_star_cls_iff (p : Char → Bool) (w : Str) :
    regex.Matches (regex.star (regex.cls p)) w ↔ ∀ c ∈ w, p c = true := by
  constructor
  · intro h
    generalize hs : regex.star (regex.cls p) = s at h
    induction h with
    | eps => cases hs
    | cls _ _ _ => cases hs
    | seq _ _ _ _ _ _ _ _ => cases hs
    | alt_left _ _ _ _ _ => cases hs
    | alt_right _ _ _ _ _ => cases hs
    | star_nil _ => intro c hc; cases hc
    | star_cons r1 u v hu _ _ ih2 =>
      cases hs
      obtain ⟨x, hx, hpx⟩ := (regex.matches_cls_iff p u).mp hu
      subst hx
      intro c hc
      rcases List.mem_append.mp hc with h1 | h1
      · have : c = x := by simpa using h1
        rw [this]; exact hpx
      · exact ih2 rfl c h1
  · intro h
    induction w with
    | nil => exact regex.Matches.star_nil _
    | cons x xs ih =>
      have h1 : regex.Matches (regex.cls p) [x] :=
        regex.Matches.cls p x (h x (List.mem_cons_self _ _))
      have h2 := ih (fun c hc => h c (List.mem_cons_of_mem _ hc))
      exact regex.Matches.star_cons _ [x] xs h1 h2

theorem rxjdbprompt_reverse_iff (w : Str) :
    regex.Matches GDBAgent_JDB.rxjdbprompt_reverse w ↔ is_jdb_prompt w.reverse := by
  unfold GDBAgent_JDB.rxjdbprompt_reverse regex.alpha regex.alnum regex.alnum_space
    regex.digit regex.digit19
  simp only [regex.matches_seq_iff, regex.matches_alt_iff, regex.matches_chr_iff,
    regex.matches_star_cls_iff, regex.matches_cls_iff]
  constructor
  · rintro ⟨u, v, rfl, rfl, (rfl | ⟨u1, v1, rfl, rfl, u2, v2, rfl, h2, u3, v3, rfl,
      ⟨d, rfl, hd⟩, u4, v4, rfl, rfl, u5, v5, rfl, ⟨z, rfl, hz⟩, u6, v6, rfl, h6, a, rfl, ha⟩)⟩
    · left; rfl
    · right
      refine ⟨a, u6.reverse, z, d, u2.reverse, by simp, ?_, ?_, ?_, ?_, ?_⟩
      · simpa [is_letter] using ha
      · intro c hc
        have := h6 c (List.mem_reverse.mp hc)
        simpa [is_letter, is_digit, or_assoc] using this
      · simpa [is_letter, is_digit, or_assoc] using hz
      · simpa using hd
      · intro c hc
        have := h2 c (List.mem_reverse.mp hc)
        simpa [is_digit] using this
  · rintro (h | ⟨a, mid, z, d, ds, hw, ha, hmid, hz, hd, hds⟩)
    · have hw : w = " >".toList := by
        have := congrArg List.reverse h
        simpa using this
      exact ⟨[' '], ['>'], hw, rfl, Or.inl rfl⟩
    · have hw2 : w = [' '] ++ ([']'] ++ (ds.reverse ++ ([d] ++ (['['] ++ ([z]
          ++ (mid.reverse ++ [a])))))) := by
        have := congrArg List.reverse hw
        simpa using this
      refine ⟨[' '], _, hw2, rfl, Or.inr ⟨[']'], _, rfl, rfl, ds.reverse, _, rfl, ?_, [d], _, rfl,
        ⟨d, rfl, by simpa using hd⟩, ['['], _, rfl, rfl, [z], _, rfl, ⟨z, rfl, ?_⟩,
        mid.reverse, _, rfl, ?_, a, rfl, ?_⟩⟩
      · intro c hc
        have := hds c (List.mem_reverse.mp hc)
        simpa [is_digit] using this
      · simpa [is_letter, is_digit, or_assoc] using hz
      · intro c hc
        have := hmid c (List.mem_reverse.mp hc)
        simpa [is_letter, is_digit, or_assoc] using this
      · simpa [is_letter] using ha

theorem match_pos_zero (r : regex) (s : Str) (n : Nat) (h : regex.longest s r = some n) :
    regex.match_pos r s 0 = (n : Int) := by
  unfold regex.match_pos
  have hc : ¬ ((0 : Int) < 0 ∨ (0 : Int) > (s.length : Int)) := by
    rintro (h1 | h1) <;> omega
  rw [if_neg hc]
  simp only [Int.toNat_zero, List.drop_zero, h]

theorem is_jdb_prompt_length_pos (p : Str) (h : is_jdb_prompt p) : 0 < p.length := by
  rcases h with h | ⟨a, mid, z, d, ds, hp, _⟩
  · rw [h]; decide
  · rw [hp]; simp

/-- The threaded prompts of `is_threaded_prompt` are the threaded prompts as
worded whose thread name has at least two characters. -/
theorem is_threaded_prompt_iff_as_worded (p : Str) :
    is_threaded_prompt p
      ↔ ∃ (t : Str) (d : Char) (ds : Str),
          p = t ++ ('[' :: d :: ds) ++ [']', ' ']
            ∧ is_thread_name_as_worded t ∧ 2 ≤ t.length
            ∧ ('1' ≤ d ∧ d ≤ '9')
            ∧ (∀ c ∈ ds, is_digit c = true) := by
  constructor
  · rintro ⟨a, mid, z, d, ds, hp, ha, hmid, hz, hd, hds⟩
    refine ⟨a :: (mid ++ [z]), d, ds, ?_, ⟨⟨a, rfl, ha⟩, ?_, ⟨z, ?_, hz⟩⟩, ?_, hd, hds⟩
    · rw [hp]; simp
    · intro c hc
      rcases List.mem_cons.mp hc with h1 | h1
      · left; rw [h1]; exact ha
      · rcases List.mem_append.mp h1 with h2 | h2
        · exact hmid c h2
        · have hcz : c = z := by simpa using h2
          rw [hcz]
          rcases hz with hz | hz
          · exact Or.inl hz
          · exact Or.inr (Or.inl hz)
    · have h1 : a :: (mid ++ [z]) = (a :: mid) ++ [z] := rfl
      rw [h1, List.getLast?_append]
      rfl
    · simp
  · rintro ⟨t, d, ds, hp, ⟨⟨a, hhead, ha⟩, hall, ⟨z, hlast, hz⟩⟩, hlen, hd, hds⟩
    cases t with
    | nil => simp at hlen
    | cons x rest =>
      have hxa : x = a := by simpa using hhead
      subst hxa
      rcases List.eq_nil_or_concat rest with hnil | ⟨mid, y, hy⟩
      · subst hnil; simp at hlen
      · rw [List.concat_eq_append] at hy
        subst hy
        have hyz : y = z := by
          have h1 : x :: (mid ++ [y]) = (x :: mid) ++ [y] := rfl
          rw [h1, List.getLast?_append] at hlast
          simpa using hlast
        subst hyz
        refine ⟨x, mid, y, d, ds, ?_, ha, ?_, hz, hd, hds⟩
        · rw [hp]; simp
        · intro c hc
          exact hall c (List.mem_cons_of_mem _ (List.mem_append_left _ hc))

/-- C3, as stated, fails for a thread name of one letter: `"a[1] "` is a
threaded prompt as worded (the name `a` starts with a letter and ends with a
letter), yet `GDBAgent_JDB::ends_with_prompt` returns false on it and leaves
the session as it was. -/
theorem C3_jdb_one_letter_thread_counterexample :
    is_threaded_prompt_as_worded "a[1] ".toList
      ∧ sample_profile.strip_control "a[1] ".toList = "a[1] ".toList
      ∧ GDBAgent_JDB.ends_with_prompt sample_profile fresh_session "a[1] ".toList
          = some (false, fresh_session) := by
  refine ⟨⟨['a'], '1', [], rfl, ⟨⟨'a', rfl, by decide⟩, ?_, ⟨'a', rfl, Or.inl (by decide)⟩⟩,
    by decide, ?_⟩, rfl, by decide⟩
  · intro c hc
    have hca : c = 'a' := by simpa using hc
    rw [hca]
    exact Or.inl (by decide)
  · intro c hc
    cases hc

/-- C3, amended: if an answer without control characters (one that
`strip_control` leaves unchanged) ends with `"> "` or with a threaded prompt
`THREAD[DEPTH]` and one space, where THREAD has at least two characters (a
first letter, then letters, digits or spaces, then a last letter or digit),
then, whatever stands before it, `GDBAgent_JDB::ends_with_prompt` returns
true and sets `last_prompt` to a suffix of the answer that has such a prompt
shape. -/
theorem C3_jdb_prompt_at_end (pf : Profile) (st : GDBAgent) (pre p : Str)
    (hctl : pf.strip_control (pre ++ p) = pre ++ p) (hp : is_jdb_prompt p) :
    ∃ front lp,
      GDBAgent_JDB.ends_with_prompt pf st (pre ++ p) = some (true, { st with last_prompt := lp })
        ∧ pre ++ p = front ++ lp
        ∧ is_jdb_prompt lp := by
  have hrev : reverse (pre ++ p) = p.reverse ++ pre.reverse := by simp [reverse]
  have hm : regex.Matches GDBAgent_JDB.rxjdbprompt_reverse
      ((p.reverse ++ pre.reverse).take p.length) := by
    have : (p.reverse ++ pre.reverse).take p.length = p.reverse := by
      rw [← List.length_reverse p, List.take_left]
    rw [this, rxjdbprompt_reverse_iff, List.reverse_reverse]
    exact hp
  obtain ⟨n, hn, hpn⟩ := regex.longest_complete _ _ p.length (by simp) hm
  obtain ⟨hle, hmn⟩ := regex.longest_sound _ _ n hn
  have hpos : 0 < n := Nat.lt_of_lt_of_le (is_jdb_prompt_length_pos p hp) hpn
  refine ⟨((p.reverse ++ pre.reverse).drop n).reverse, ((p.reverse ++ pre.reverse).take n).reverse,
    ?_, ?_, ?_⟩
  · unfold GDBAgent_JDB.ends_with_prompt
    simp only [hctl, hrev, match_pos_zero _ _ n hn]
    rw [if_pos (by omega)]
    have hat : string.at_pos (p.reverse ++ pre.reverse) 0 (n : Int)
        = (p.reverse ++ pre.reverse).take n := by
      unfold string.at_pos string.substr
      have hc : ¬ ((0 : Int) < 0 ∨ (n : Int) ≤ 0
          ∨ (0 : Int) + (n : Int) > ((p.reverse ++ pre.reverse).length : Int)) := by
        rintro (h1 | h1 | h1) <;> omega
      rw [if_neg hc]
      simp
    rw [hat]
    rfl
  · rw [← List.reverse_append, List.take_append_drop]
    simp
  · rw [← rxjdbprompt_reverse_iff]
    exact hmn

/-- C3 at the answer `"Breakpoint hit.\nmain[1] "`. -/
theorem C3_jdb_prompt_at_end_witness :
    ∃ front lp,
      GDBAgent_JDB.ends_with_prompt sample_profile fresh_session
          ("Breakpoint hit.\n".toList ++ "main[1] ".toList)
        = some (true, { fresh_session with last_prompt := lp })
        ∧ "Breakpoint hit.\n".toList ++ "main[1] ".toList = front ++ lp
        ∧ is_jdb_prompt lp :=
  C3_jdb_prompt_at_end sample_profile fresh_session "Breakpoint hit.\n".toList "main[1] ".toList
    rfl
    (Or.inr ⟨'m', "ai".toList, 'n', '1', [], rfl, by decide, by decide, by decide, by decide,
      by decide⟩)

/-! ## The line loop of `GDBAgent_JDB::ends_with_prompt` -/

theorem scan_back_char_cases (s : Str) (c : Char) (n : Nat) :
    string.scan_back_char s c n = -1
      ∨ (0 ≤ string.scan_back_char s c n ∧ string.scan_back_char s c n ≤ (n : Int)
          ∧ s[(string.scan_back_char s c n).toNat]? = some c) := by
  induction n with
  | zero =>
    unfold string.scan_back_char
    by_cases h : s[0]? = some c
    · rw [if_pos h]; right; exact ⟨le_refl _, by simp, by simpa using h⟩
    · rw [if_neg h]; left; rfl
  | succ n ih =>
    unfold string.scan_back_char
    by_cases h : s[n + 1]? = some c
    · rw [if_pos h]; right
      exact ⟨by omega, le_refl _, by simpa using h⟩
    · rw [if_neg h]
      rcases ih with h1 | ⟨h1, h2, h3⟩
      · left; exact h1
      · right; exact ⟨h1, by push_cast; omega, h3⟩

theorem index_back_cases (s : Str) (c : Char) (last_nl : Int) (h0 : 0 ≤ last_nl)
    (hl : last_nl < (s.length : Int)) :
    string.index s c (last_nl - (s.length : Int)) = -1
      ∨ (0 ≤ string.index s c (last_nl - (s.length : Int))
          ∧ string.index s c (last_nl - (s.length : Int)) ≤ last_nl
          ∧ s[(string.index s c (last_nl - (s.length : Int))).toNat]? = some c) := by
  unfold string.index
  rw [if_neg (by omega), if_neg (by omega), if_neg (by omega)]
  have h1 : ((s.length : Int) + (last_nl - (s.length : Int))).toNat = last_nl.toNat := by
    congr 1; omega
  rw [h1]
  rcases scan_back_char_cases s c last_nl.toNat with h2 | ⟨h2, h3, h4⟩
  · left; exact h2
  · right; exact ⟨h2, by omega, h4⟩

theorem skip_isspace_spec (answer rest : Str) (k : Nat) (h : answer.drop k = rest) :
    answer[GDBAgent_JDB.skip_isspace rest k]? = (rest.dropWhile isspace).head? := by
  induction rest generalizing k with
  | nil =>
    have : answer.length ≤ k := List.drop_eq_nil_iff.mp h
    simp [GDBAgent_JDB.skip_isspace, List.getElem?_eq_none this]
  | cons c cs ih =>
    have hk : answer[k]? = some c := by
      have := List.getElem?_drop answer k 0
      rw [h] at this
      simpa using this.symm
    have hk1 : answer.drop (k + 1) = cs := by
      have : answer.drop (k + 1) = (answer.drop k).drop 1 := by
        rw [List.drop_drop]
      rw [this, h]; rfl
    unfold GDBAgent_JDB.skip_isspace
    by_cases hc : isspace c = true
    · rw [if_pos hc, List.dropWhile_cons_of_pos hc]
      exact ih (k + 1) hk1
    · rw [if_neg hc, List.dropWhile_cons_of_neg hc, hk]
      rfl

/-- The test of the loop body, "the character after the match and the
whitespace behind it is `=`", in the words of the specification. -/
theorem skip_test_iff (answer : Str) (pos : Int) :
    (GDBAgent_JDB.skip_isspace (answer.drop pos.toNat) pos.toNat < answer.length
        ∧ answer[GDBAgent_JDB.skip_isspace (answer.drop pos.toNat) pos.toNat]? = some '=')
      ↔ followed_by_equals answer pos := by
  unfold followed_by_equals
  rw [skip_isspace_spec answer _ pos.toNat rfl]
  constructor
  · intro h; exact h.2
  · intro h
    refine ⟨?_, h⟩
    rw [← skip_isspace_spec answer _ pos.toNat rfl] at h
    by_contra hlt
    rw [List.getElem?_eq_none (by omega)] at h
    cases h

/-- The line loop ends within `last_nl + 2` iterations; a prompt it returns
was found at a line start and is not followed by `=`; and it returns none if
every match at a line start is followed by `=`. -/
theorem line_scan_spec (answer : Str) (fuel : Nat) :
    ∀ last_nl : Int, last_nl < (answer.length : Int) → last_nl + 1 ≤ (fuel : Int) →
      ∃ r, GDBAgent_JDB.line_scan answer (fuel + 1) last_nl = some r
        ∧ (∀ p, r = some p → ∃ b : Int, is_line_start answer b
              ∧ 0 < regex.match_pos GDBAgent_JDB.rxjdbprompt answer b
              ∧ ¬ followed_by_equals answer (b + regex.match_pos GDBAgent_JDB.rxjdbprompt answer b)
              ∧ p = string.at_pos answer b (regex.match_pos GDBAgent_JDB.rxjdbprompt answer b))
        ∧ ((∀ b : Int, is_line_start answer b
              → 0 < regex.match_pos GDBAgent_JDB.rxjdbprompt answer b
              → followed_by_equals answer
                  (b + regex.match_pos GDBAgent_JDB.rxjdbprompt answer b))
            → r = none) := by
  induction fuel with
  | zero =>
    intro last_nl _ h2
    refine ⟨none, ?_, ?_, ?_⟩
    · unfold GDBAgent_JDB.line_scan
      rw [if_neg (by omega)]
    · intro p hp; cases hp
    · intro _; rfl
  | succ fuel ih =>
    intro last_nl h1 h2
    by_cases h0 : last_nl ≥ 0
    · have hq := index_back_cases answer '\n' last_nl h0 h1
      generalize hqd : string.index answer '\n' (last_nl - (answer.length : Int)) = q at hq
      have hstart : is_line_start answer (q + 1) := by
        rcases hq with hq | ⟨hq1, _, hq3⟩
        · left; omega
        · right
          refine ⟨by omega, ?_⟩
          have : q + 1 - 1 = q := by omega
          rw [this]; exact hq3
      have hq_le : q ≤ last_nl := by
        rcases hq with hq | ⟨_, hq2, _⟩
        · omega
        · exact hq2
      obtain ⟨r, hr, hr1, hr2⟩ := ih (q - 1) (by omega) (by omega)
      have hunf : GDBAgent_JDB.line_scan answer (fuel + 1 + 1) last_nl
          = if regex.match_pos GDBAgent_JDB.rxjdbprompt answer (q + 1) > 0 then
              if GDBAgent_JDB.skip_isspace
                    (answer.drop (q + 1 + regex.match_pos GDBAgent_JDB.rxjdbprompt answer
                      (q + 1)).toNat)
                    (q + 1 + regex.match_pos GDBAgent_JDB.rxjdbprompt answer (q + 1)).toNat
                    < answer.length
                  ∧ answer[GDBAgent_JDB.skip_isspace
                    (answer.drop (q + 1 + regex.match_pos GDBAgent_JDB.rxjdbprompt answer
                      (q + 1)).toNat)
                    (q + 1 + regex.match_pos GDBAgent_JDB.rxjdbprompt answer (q + 1)).toNat]?
                    = some '=' then
                GDBAgent_JDB.line_scan answer (fuel + 1) (q - 1)
              else some (some (string.at_pos answer (q + 1)
                (regex.match_pos GDBAgent_JDB.rxjdbprompt answer (q + 1))))
            else GDBAgent_JDB.line_scan answer (fuel + 1) (q - 1) := by
        conv_lhs => unfold GDBAgent_JDB.line_scan
        rw [if_pos h0, hqd]
      rw [hunf]
      by_cases hm : regex.match_pos GDBAgent_JDB.rxjdbprompt answer (q + 1) > 0
      · rw [if_pos hm]
        by_cases heq : followed_by_equals answer
            (q + 1 + regex.match_pos GDBAgent_JDB.rxjdbprompt answer (q + 1))
        · rw [if_pos ((skip_test_iff answer _).mpr heq)]
          exact ⟨r, hr, hr1, hr2⟩
        · rw [if_neg (fun h => heq ((skip_test_iff answer _).mp h))]
          refine ⟨_, rfl, ?_, ?_⟩
          · intro p hp
            cases hp
            exact ⟨q + 1, hstart, hm, heq, rfl⟩
          · intro hall
            exact absurd (hall (q + 1) hstart hm) heq
      · rw [if_neg hm]
        exact ⟨r, hr, hr1, hr2⟩
    · refine ⟨none, ?_, ?_, ?_⟩
      · unfold GDBAgent_JDB.line_scan
        rw [if_neg h0]
      · intro p hp; cases hp
      · intro _; rfl

/-- The third pass of `GDBAgent_JDB::ends_with_prompt`: when the reverse scan
and the last-line scan fail, the result is that of the line loop, which
ends. -/
theorem jdb_third_pass (pf : Profile) (st : GDBAgent) (answer : Str)
    (hctl : pf.strip_control answer = answer)
    (hrev : regex.match_pos GDBAgent_JDB.rxjdbprompt_reverse (reverse answer) 0 ≤ 0)
    (hlast : regex.matches_all (string.from_pos answer (string.index answer '\n' (-1) + 1))
        GDBAgent_JDB.rxjdbprompt_nothread = false) :
    ∃ r, GDBAgent_JDB.line_scan answer (answer.length + 1) ((answer.length : Int) - 1) = some r
      ∧ GDBAgent_JDB.ends_with_prompt pf st answer
          = some (match r with
                  | some p => (true, { st with last_prompt := p })
                  | none => (false, st)) := by
  obtain ⟨r, hr, _, _⟩ := line_scan_spec answer answer.length ((answer.length : Int) - 1)
    (by omega) (by omega)
  refine ⟨r, hr, ?_⟩
  unfold GDBAgent_JDB.ends_with_prompt
  simp only [hctl]
  rw [if_neg (by omega), hlast, if_neg (by simp), hr]
  cases r <;> rfl

/-- C2: `GDBAgent_JDB::ends_with_prompt` returns false on `"dates[1] = 33\n"`;
and on every answer without control characters (one that `strip_control`
leaves unchanged) on which neither the reverse scan nor the last-line scan
matches, the call ends, a result true comes from a match of the prompt
pattern at the start of a line whose first non-whitespace character after
the match is not `=` (that match is `last_prompt`), and the result is false
if every match at a line start is followed, after whitespace, by `=`. -/
theorem C2_jdb_rejects_assignment_lines (pf : Profile) (st : GDBAgent) :
    (pf.strip_control "dates[1] = 33\n".toList = "dates[1] = 33\n".toList →
        GDBAgent_JDB.ends_with_prompt pf st "dates[1] = 33\n".toList = some (false, st))
      ∧ (∀ answer : Str, pf.strip_control answer = answer →
          regex.match_pos GDBAgent_JDB.rxjdbprompt_reverse (reverse answer) 0 ≤ 0 →
          regex.matches_all (string.from_pos answer (string.index answer '\n' (-1) + 1))
              GDBAgent_JDB.rxjdbprompt_nothread = false →
          (∃ res, GDBAgent_JDB.ends_with_prompt pf st answer = some res)
            ∧ (∀ st2, GDBAgent_JDB.ends_with_prompt pf st answer = some (true, st2) →
                ∃ b : Int, is_line_start answer b
                  ∧ 0 < regex.match_pos GDBAgent_JDB.rxjdbprompt answer b
                  ∧ ¬ followed_by_equals answer
                      (b + regex.match_pos GDBAgent_JDB.rxjdbprompt answer b)
                  ∧ st2.last_prompt
                      = string.at_pos answer b
                          (regex.match_pos GDBAgent_JDB.rxjdbprompt answer b))
            ∧ ((∀ b : Int, is_line_start answer b
                  → 0 < regex.match_pos GDBAgent_JDB.rxjdbprompt answer b
                  → followed_by_equals answer
                      (b + regex.match_pos GDBAgent_JDB.rxjdbprompt answer b))
                → GDBAgent_JDB.ends_with_prompt pf st answer = some (false, st))) := by
  constructor
  · intro hctl
    obtain ⟨r, hr, hres⟩ := jdb_third_pass pf st "dates[1] = 33\n".toList hctl
      (by decide) (by decide)
    have hscan : GDBAgent_JDB.line_scan "dates[1] = 33\n".toList
        ("dates[1] = 33\n".toList.length + 1) (("dates[1] = 33\n".toList.length : Int) - 1)
        = some none := by decide
    rw [hscan] at hr
    cases hr
    exact hres
  · intro answer hctl hrev hlast
    obtain ⟨r, hr, hres⟩ := jdb_third_pass pf st answer hctl hrev hlast
    obtain ⟨r2, hr2, hacc, hrej⟩ := line_scan_spec answer answer.length
      ((answer.length : Int) - 1) (by omega) (by omega)
    rw [hr] at hr2
    cases hr2
    refine ⟨⟨_, hres⟩, ?_, ?_⟩
    · intro st2 h2
      rw [hres] at h2
      cases r with
      | none => cases h2
      | some p =>
        obtain ⟨b, hb1, hb2, hb3, hb4⟩ := hacc p rfl
        cases h2
        exact ⟨b, hb1, hb2, hb3, hb4⟩
    · intro hall
      rw [hres, hrej hall]

/-- C2 at the answers `"dates[1] = 33\n"` (the only match, `dates[1] `, is
followed by `=`) and `"main[1] x\n"` (the match `main[1] ` is accepted). -/
theorem C2_jdb_rejects_assignment_lines_witness :
    GDBAgent_JDB.ends_with_prompt sample_profile fresh_session "dates[1] = 33\n".toList
        = some (false, fresh_session)
      ∧ ∃ res, GDBAgent_JDB.ends_with_prompt sample_profile fresh_session "main[1] x\n".toList
          = some res :=
  ⟨(C2_jdb_rejects_assignment_lines sample_profile fresh_session).1 rfl,
   ((C2_jdb_rejects_assignment_lines sample_profile fresh_session).2 "main[1] x\n".toList rfl
      (by decide) (by decide)).1⟩

/-! ## The first command of `set_bp`, and assignments -/

/-- C11: on the position `p` (the given position, with `*` in front for a
machine address), the first command `set_bp` issues is `clear_command(p)` in
both dialects when `set` is false; when `set` is true it is, for DBG,
`"tbreak " ++ p` if `temp` and `"break " ++ p` otherwise, and for JDB
`"stop at " ++ p` if `is_file_pos(p)` and `"stop in " ++ p` otherwise,
whatever `temp` is. -/
theorem C11_set_bp_first_command (pf : Profile) (st : GDBAgent) (a : Str) (temp : Bool)
    (cond : Str) :
    (GDBAgent_DBG.set_bp pf st a false temp cond).issued[st.issued.length]?
        = some (pf.clear_command (marked_position a))
      ∧ (GDBAgent_JDB.set_bp pf st a false temp cond).issued[st.issued.length]?
        = some (pf.clear_command (marked_position a))
      ∧ (GDBAgent_DBG.set_bp pf st a true true cond).issued[st.issued.length]?
        = some ("tbreak ".toList ++ marked_position a)
      ∧ (GDBAgent_DBG.set_bp pf st a true false cond).issued[st.issued.length]?
        = some ("break ".toList ++ marked_position a)
      ∧ (GDBAgent_JDB.set_bp pf st a true temp cond).issued[st.issued.length]?
        = some (if pf.is_file_pos (marked_position a) = true then
                  "stop at ".toList ++ marked_position a
                else "stop in ".toList ++ marked_position a)
      ∧ GDBAgent_JDB.set_bp pf st a true true cond = GDBAgent_JDB.set_bp pf st a true false cond
      ∧ GDBAgent_JDB.set_bp pf st a false true cond
          = GDBAgent_JDB.set_bp pf st a false false cond := by
  have hget : ∀ (x : Str) (rest : List Str), (st.issued ++ [x] ++ rest)[st.issued.length]? = some x := by
    intro x rest
    rw [List.append_assoc, List.getElem?_append_right (Nat.le_refl _)]
    simp
  refine ⟨?_, ?_, ?_, ?_, ?_, ?_, ?_⟩
  · rw [dbg_set_bp_eq]; exact hget _ _
  · rw [jdb_set_bp_eq]; exact hget _ _
  · rw [dbg_set_bp_eq]; exact hget _ _
  · rw [dbg_set_bp_eq]; exact hget _ _
  · rw [jdb_set_bp_eq]; exact hget _ _
  · rw [jdb_set_bp_eq, jdb_set_bp_eq]
  · rw [jdb_set_bp_eq, jdb_set_bp_eq]

/-- The operator `GDBAgent_DBG::assign_command` puts between variable and
expression. -/
theorem dbg_assign_command_eq (pf : Profile) (var expr : Str) :
    GDBAgent_DBG.assign_command pf var expr
      = " ".toList ++ var ++ " ".toList
          ++ (if pf.program_language = ProgramLanguage.LANGUAGE_ADA
                ∨ pf.program_language = ProgramLanguage.LANGUAGE_PASCAL
                ∨ pf.program_language = ProgramLanguage.LANGUAGE_CHILL then ":=".toList
              else "=".toList)
          ++ " ".toList ++ expr := by
  unfold GDBAgent_DBG.assign_command
  cases pf.program_language <;> simp

/-- C12: `GDBAgent_DBG::assign_command(var, expr)` is `" " ++ var ++ " := " ++
expr` when the program language is Ada, Pascal or Chill and `" " ++ var ++
" = " ++ expr` for every other language; `assign("x", "5")` is `" x := 5"`
under Pascal and `" x = 5"` under C. -/
theorem C12_dbg_assign_command (pf : Profile) (var expr : Str) :
    ((pf.program_language = ProgramLanguage.LANGUAGE_ADA
          ∨ pf.program_language = ProgramLanguage.LANGUAGE_PASCAL
          ∨ pf.program_language = ProgramLanguage.LANGUAGE_CHILL) →
        GDBAgent_DBG.assign_command pf var expr = " ".toList ++ var ++ " := ".toList ++ expr)
      ∧ (¬ (pf.program_language = ProgramLanguage.LANGUAGE_ADA
          ∨ pf.program_language = ProgramLanguage.LANGUAGE_PASCAL
          ∨ pf.program_language = ProgramLanguage.LANGUAGE_CHILL) →
        GDBAgent_DBG.assign_command pf var expr = " ".toList ++ var ++ " = ".toList ++ expr)
      ∧ GDBAgent_DBG.assign_command
          { pf with program_language := ProgramLanguage.LANGUAGE_PASCAL } "x".toList "5".toList
          = " x := 5".toList
      ∧ GDBAgent_DBG.assign_command
          { pf with program_language := ProgramLanguage.LANGUAGE_C } "x".toList "5".toList
          = " x = 5".toList := by
  refine ⟨?_, ?_, ?_, ?_⟩
  · intro h
    rw [dbg_assign_command_eq, if_pos h]
    simp
  · intro h
    rw [dbg_assign_command_eq, if_neg h]
    simp
  · rw [dbg_assign_command_eq]; rfl
  · rw [dbg_assign_command_eq]; rfl

/-- C12 under Ada and under PHP, the language of the DBG agent. -/
theorem C12_dbg_assign_command_witness :
    GDBAgent_DBG.assign_command { sample_profile with program_language := ProgramLanguage.LANGUAGE_ADA }
        "count".toList "n + 1".toList = " count := n + 1".toList
      ∧ GDBAgent_DBG.assign_command { sample_profile with program_language := ProgramLanguage.LANGUAGE_PHP }
        "$count".toList "7".toList = " $count = 7".toList :=
  ⟨(C12_dbg_assign_command { sample_profile with program_language := ProgramLanguage.LANGUAGE_ADA }
      "count".toList "n + 1".toList).1 (by decide),
   (C12_dbg_assign_command { sample_profile with program_language := ProgramLanguage.LANGUAGE_PHP }
      "$count".toList "7".toList).2.1 (by decide)⟩

/-- C13: `GDBAgent_JDB::assign_command(var, expr)` is the empty string
exactly when `has_debug_command()` holds; otherwise it is `"set " ++ var ++
" " ++ op ++ " " ++ expr` with `op` being `:=` for Ada, Pascal and Chill and
`=` for every other language. -/
theorem C13_jdb_assign_command (pf : Profile) (var expr : Str) :
    (GDBAgent_JDB.assign_command pf var expr = [] ↔ pf.has_debug_command = true)
      ∧ (¬ pf.has_debug_command = true →
          GDBAgent_JDB.assign_command pf var expr
            = "set ".toList ++ var ++ " ".toList
                ++ (if pf.program_language = ProgramLanguage.LANGUAGE_ADA
                      ∨ pf.program_language = ProgramLanguage.LANGUAGE_PASCAL
                      ∨ pf.program_language = ProgramLanguage.LANGUAGE_CHILL then ":=".toList
                    else "=".toList)
                ++ " ".toList ++ expr) := by
  have hno : ¬ pf.has_debug_command = true →
      GDBAgent_JDB.assign_command pf var expr
        = "set ".toList ++ var ++ " ".toList
            ++ (if pf.program_language = ProgramLanguage.LANGUAGE_ADA
                  ∨ pf.program_language = ProgramLanguage.LANGUAGE_PASCAL
                  ∨ pf.program_language = ProgramLanguage.LANGUAGE_CHILL then ":=".toList
                else "=".toList)
            ++ " ".toList ++ expr := by
    intro h
    unfold GDBAgent_JDB.assign_command
    rw [if_neg h]
    cases pf.program_language <;> simp
  refine ⟨?_, hno⟩
  constructor
  · intro h
    by_contra hd
    rw [hno hd] at h
    simp at h
  · intro h
    unfold GDBAgent_JDB.assign_command
    rw [if_pos h]

/-- C13 on a JDB with the debug command (no assignment) and on one without
(the sample profile, language Java). -/
theorem C13_jdb_assign_command_witness :
    GDBAgent_JDB.assign_command { sample_profile with has_debug_command := true }
        "x".toList "5".toList = []
      ∧ GDBAgent_JDB.assign_command sample_profile "x".toList "5".toList = "set x = 5".toList :=
  ⟨((C13_jdb_assign_command { sample_profile with has_debug_command := true }
      "x".toList "5".toList).1).mpr rfl,
   (C13_jdb_assign_command sample_profile "x".toList "5".toList).2 (by decide)⟩

/-! ## Restoring a breakpoint -/

theorem foldl_write_lines (os : Str) (commands : List Str) :
    commands.foldl (fun out c => out ++ c ++ "\n".toList) os
      = os ++ (commands.map (fun c => c ++ ['\n'])).flatten := by
  induction commands generalizing os with
  | nil => simp
  | cons c cs ih =>
    rw [List.foldl_cons, ih]
    have : "\n".toList = ['\n'] := rfl
    simp [this]

/-- The primary set command `GDBAgent_DBG::restore_breakpoint_command` starts
with is all it writes for a dummy. -/
theorem dbg_restore_dummy_eq (pf : Profile) (bp : BreakPoint) (pos num cond : Str) :
    GDBAgent_DBG.restore_breakpoint_command pf bp pos num cond true
      = primary_set_command pf bp pos := by
  unfold GDBAgent_DBG.restore_breakpoint_command primary_set_command
  have : "\n".toList = ['\n'] := rfl
  cases bp.type <;> cases bp.dispo <;> simp [this]

/-- All that `GDBAgent_DBG::restore_breakpoint_command` writes when the
breakpoint is not a dummy. -/
theorem dbg_restore_full_eq (pf : Profile) (bp : BreakPoint) (pos num cond : Str) :
    GDBAgent_DBG.restore_breakpoint_command pf bp pos num cond false
      = primary_set_command pf bp pos
          ++ (if bp.enabled = false ∧ pf.has_disable_command = true then
                GDBAgent_DBG.disable_command num ++ ['\n'] else [])
          ++ (if 0 < bp.ignore_count ∧ pf.has_ignore_command = true then
                pf.ignore_command num bp.ignore_count ++ ['\n'] else [])
          ++ (if cond ≠ [] ∧ pf.has_condition_command = true then
                pf.condition_command num cond ++ ['\n'] else [])
          ++ (if bp.commands ≠ [] then commands_block num bp.commands else []) := by
  rw [← dbg_restore_dummy_eq pf bp pos num cond]
  unfold GDBAgent_DBG.restore_breakpoint_command commands_block
  simp only [foldl_write_lines]
  have hn : "\n".toList = ['\n'] := rfl
  have hl : bp.commands.length ≠ 0 ↔ bp.commands ≠ [] := by
    rw [ne_eq, ne_eq, List.length_eq_zero]
  have hc : (¬ cond.isEmpty = true) ↔ cond ≠ [] := by
    rw [List.isEmpty_iff]
  have he : (¬ bp.enabled = true) ↔ bp.enabled = false := by simp
  simp only [hn, hl, hc, he, gt_iff_lt]
  generalize (match bp.type with
    | BPType.BREAKPOINT =>
      match bp.dispo with
      | BPDispo.BPKEEP => [] ++ "break ".toList ++ pos ++ ['\n']
      | BPDispo.BPDIS => [] ++ "break ".toList ++ pos ++ ['\n']
      | BPDispo.BPDEL => [] ++ "tbreak ".toList ++ pos ++ ['\n']
    | BPType.WATCHPOINT => [] ++ pf.watch_command bp.expr bp.watch_mode ++ ['\n']
    | BPType.TRACEPOINT => []
    | BPType.ACTIONPOINT => []) = primary
  by_cases h1 : bp.enabled = false ∧ pf.has_disable_command = true <;>
  by_cases h2 : 0 < bp.ignore_count ∧ pf.has_ignore_command = true <;>
  by_cases h3 : cond ≠ [] ∧ pf.has_condition_command = true <;>
  by_cases h4 : bp.commands ≠ [] <;>
  simp [h1, h2, h3, h4]

/-- C14: with `as_dummy = false`, `GDBAgent_DBG::restore_breakpoint_command`
writes the primary set command and then, in this order, the line
`disable_command(num)` exactly if the breakpoint is disabled and
`has_disable_command()` holds, the line `ignore_command(num, count)` exactly
if the ignore count is positive and `has_ignore_command()` holds, the line
`condition_command(num, cond)` exactly if `cond` is non-empty and
`has_condition_command()` holds, and the block `commands NUM` ... `end`
exactly if the descriptor has attached commands; a dialect with none of the
three capabilities gets none of the three lines. -/
theorem C14_dbg_restore_breakpoint_full (pf : Profile) (bp : BreakPoint) (pos num cond : Str) :
    GDBAgent_DBG.restore_breakpoint_command pf bp pos num cond false
        = primary_set_command pf bp pos
            ++ (if bp.enabled = false ∧ pf.has_disable_command = true then
                  GDBAgent_DBG.disable_command num ++ ['\n'] else [])
            ++ (if 0 < bp.ignore_count ∧ pf.has_ignore_command = true then
                  pf.ignore_command num bp.ignore_count ++ ['\n'] else [])
            ++ (if cond ≠ [] ∧ pf.has_condition_command = true then
                  pf.condition_command num cond ++ ['\n'] else [])
            ++ (if bp.commands ≠ [] then
                  "commands ".toList ++ num ++ ['\n']
                    ++ (bp.commands.map (fun c => c ++ ['\n'])).flatten ++ "end\n".toList
                else [])
      ∧ (pf.has_disable_command = false → pf.has_ignore_command = false →
          pf.has_condition_command = false →
          GDBAgent_DBG.restore_breakpoint_command pf bp pos num cond false
            = primary_set_command pf bp pos
                ++ (if bp.commands ≠ [] then
                      "commands ".toList ++ num ++ ['\n']
                        ++ (bp.commands.map (fun c => c ++ ['\n'])).flatten ++ "end\n".toList
                    else [])) := by
  have key := dbg_restore_full_eq pf bp pos num cond
  unfold commands_block at key
  refine ⟨key, ?_⟩
  intro h1 h2 h3
  rw [key, h1, h2, h3]
  simp

/-- C14 on a disabled breakpoint with ignore count 2, a condition and one
attached command, for a dialect with all capabilities and for one with
none. -/
theorem C14_dbg_restore_breakpoint_full_witness :
    GDBAgent_DBG.restore_breakpoint_command sample_profile
        { type := BPType.BREAKPOINT, dispo := BPDispo.BPDIS, expr := [], watch_mode := 0,
          enabled := false, ignore_count := 2, commands := ["print x".toList] }
        "a.php:3".toList "7".toList "x > 1".toList false
      = ("break a.php:3\ndisable 7\nignore 7 2\ncondition 7 x > 1\n"
          ++ "commands 7\nprint x\nend\n").toList
      ∧ GDBAgent_DBG.restore_breakpoint_command
        { sample_profile with has_disable_command := false, has_ignore_command := false,
                              has_condition_command := false }
        { type := BPType.BREAKPOINT, dispo := BPDispo.BPDIS, expr := [], watch_mode := 0,
          enabled := false, ignore_count := 2, commands := ["print x".toList] }
        "a.php:3".toList "7".toList "x > 1".toList false
      = "break a.php:3\ncommands 7\nprint x\nend\n".toList :=
  ⟨by decide,
   ((C14_dbg_restore_breakpoint_full
      { sample_profile with has_disable_command := false, has_ignore_command := false,
                            has_condition_command := false }
      { type := BPType.BREAKPOINT, dispo := BPDispo.BPDIS, expr := [], watch_mode := 0,
        enabled := false, ignore_count := 2, commands := ["print x".toList] }
      "a.php:3".toList "7".toList "x > 1".toList).2 rfl rfl rfl).trans (by decide)⟩

/-- C15: with `as_dummy = true`, `GDBAgent_DBG::restore_breakpoint_command`
writes only the primary set command: `"break " ++ pos ++ "\n"` for a
breakpoint with disposition keep or disable, `"tbreak " ++ pos ++ "\n"` for
disposition delete, `watch_command(expr, watch_mode) ++ "\n"` for a
watchpoint, and nothing for a tracepoint or an actionpoint; whatever the
enabled flag, the ignore count, `num`, `cond` and the attached commands
are. -/
theorem C15_dbg_restore_breakpoint_dummy (pf : Profile) (bp : BreakPoint) (pos num cond : Str) :
    (bp.type = BPType.BREAKPOINT → (bp.dispo = BPDispo.BPKEEP ∨ bp.dispo = BPDispo.BPDIS) →
        GDBAgent_DBG.restore_breakpoint_command pf bp pos num cond true
          = "break ".toList ++ pos ++ "\n".toList)
      ∧ (bp.type = BPType.BREAKPOINT → bp.dispo = BPDispo.BPDEL →
        GDBAgent_DBG.restore_breakpoint_command pf bp pos num cond true
          = "tbreak ".toList ++ pos ++ "\n".toList)
      ∧ (bp.type = BPType.WATCHPOINT →
        GDBAgent_DBG.restore_breakpoint_command pf bp pos num cond true
          = pf.watch_command bp.expr bp.watch_mode ++ "\n".toList)
      ∧ ((bp.type = BPType.TRACEPOINT ∨ bp.type = BPType.ACTIONPOINT) →
        GDBAgent_DBG.restore_breakpoint_command pf bp pos num cond true = []) := by
  have key := dbg_restore_dummy_eq pf bp pos num cond
  unfold primary_set_command at key
  have hn : "\n".toList = ['\n'] := rfl
  refine ⟨?_, ?_, ?_, ?_⟩
  · rintro h1 (h2 | h2) <;> rw [key, h1, h2, hn]
  · intro h1 h2
    rw [key, h1, h2, hn]
  · intro h1
    rw [key, h1, hn]
  · rintro (h1 | h1) <;> rw [key, h1]

/-- C15 on a temporary breakpoint that is disabled, has an ignore count, a
condition and an attached command: only `tbreak` is written. -/
theorem C15_dbg_restore_breakpoint_dummy_witness :
    GDBAgent_DBG.restore_breakpoint_command sample_profile
        { type := BPType.BREAKPOINT, dispo := BPDispo.BPDEL, expr := [], watch_mode := 0,
          enabled := false, ignore_count := 2, commands := ["print x".toList] }
        "a.php:3".toList "7".toList "x > 1".toList true
      = "tbreak a.php:3\n".toList :=
  ((C15_dbg_restore_breakpoint_dummy sample_profile
      { type := BPType.BREAKPOINT, dispo := BPDispo.BPDEL, expr := [], watch_mode := 0,
        enabled := false, ignore_count := 2, commands := ["print x".toList] }
      "a.php:3".toList "7".toList "x > 1".toList).2.1 rfl rfl).trans (by decide)

/-! ## Exception traces of JDB -/

theorem scan_fwd_str_iff (t s : Str) (pos : Nat) (ht : t ≠ []) :
    0 ≤ string.scan_fwd_str t s pos ↔ t <:+: s := by
  induction s generalizing pos with
  | nil => simp [string.scan_fwd_str, ht]
  | cons x xs ih =>
    unfold string.scan_fwd_str
    rw [List.infix_cons_iff]
    by_cases h : t.isPrefixOf (x :: xs) = true
    · rw [if_pos h]
      constructor
      · intro _; exact Or.inl (List.isPrefixOf_iff_prefix.mp h)
      · intro _; omega
    · rw [if_neg h, ih]
      constructor
      · intro h1; exact Or.inr h1
      · rintro (h1 | h1)
        · exact absurd (List.isPrefixOf_iff_prefix.mpr h1) h
        · exact h1

theorem contains_iff_infix (s t : Str) (ht : t ≠ []) :
    string.contains s t = true ↔ t <:+: s := by
  have htl : t.length ≠ 0 := fun e => ht (List.length_eq_zero.mp e)
  unfold string.contains string.search
  simp only [decide_eq_true_eq]
  cases s with
  | nil => simp [ht]
  | cons x xs =>
    have hc : ¬ ((x :: xs).length = 0 ∨ t.length = 0) := by
      rintro (h | h)
      · simp at h
      · exact htl h
    rw [if_neg hc, if_pos (le_refl _)]
    simp only [Int.toNat_zero, List.drop_zero]
    exact scan_fwd_str_iff t (x :: xs) 0 ht

/-- C16: `GDBAgent_JDB::is_exception_answer(answer)` is true exactly when the
answer contains one of the texts `"com.sun.tools.example.debug"`,
`"sun.tools.debug"` or `"Internal exception:"`; nothing else is looked at,
and text put before or after the answer, a prompt say, keeps a true
result. -/
theorem C16_jdb_is_exception_answer (answer : Str) :
    (GDBAgent_JDB.is_exception_answer answer = true
        ↔ ((∃ front back, answer = front ++ "com.sun.tools.example.debug".toList ++ back)
            ∨ (∃ front back, answer = front ++ "sun.tools.debug".toList ++ back)
            ∨ (∃ front back, answer = front ++ "Internal exception:".toList ++ back)))
      ∧ (∀ before after : Str, GDBAgent_JDB.is_exception_answer answer = true →
          GDBAgent_JDB.is_exception_answer (before ++ answer ++ after) = true) := by
  have key : ∀ a : Str, GDBAgent_JDB.is_exception_answer a = true
      ↔ ("com.sun.tools.example.debug".toList <:+: a ∨ "sun.tools.debug".toList <:+: a
          ∨ "Internal exception:".toList <:+: a) := by
    intro a
    unfold GDBAgent_JDB.is_exception_answer
    rw [Bool.or_eq_true, Bool.or_eq_true, contains_iff_infix _ _ (by decide),
      contains_iff_infix _ _ (by decide), contains_iff_infix _ _ (by decide), or_assoc]
  have hinf : ∀ t a : Str, t <:+: a ↔ ∃ front back, a = front ++ t ++ back := by
    intro t a
    constructor
    · rintro ⟨u, v, h⟩; exact ⟨u, v, h.symm⟩
    · rintro ⟨u, v, h⟩; exact ⟨u, v, h.symm⟩
  constructor
  · rw [key, hinf, hinf, hinf]
  · intro before after h
    have hmono : ∀ t : Str, t <:+: answer → t <:+: before ++ answer ++ after := by
      intro t ht
      exact List.IsInfix.trans ht ⟨before, after, rfl⟩
    rw [key] at h ⊢
    rcases h with h | h | h
    · exact Or.inl (hmono _ h)
    · exact Or.inr (Or.inl (hmono _ h))
    · exact Or.inr (Or.inr (hmono _ h))

/-- C16 on a trace without a prompt at its end: the trace is recognised, and
it stays recognised when the prompt `"> "` follows. -/
theorem C16_jdb_is_exception_answer_witness :
    GDBAgent_JDB.is_exception_answer "at sun.tools.debug.Agent".toList = true
      ∧ GDBAgent_JDB.is_exception_answer
          ([] ++ "at sun.tools.debug.Agent".toList ++ "\n> ".toList) = true :=
  ⟨by decide,
   (C16_jdb_is_exception_answer "at sun.tools.debug.Agent".toList).2 [] "\n> ".toList
      (by decide)⟩

/-! ## The three passes of `GDBAgent_JDB::ends_with_prompt`, and the session state -/

/-- The three passes of `GDBAgent_JDB::ends_with_prompt` on any answer: the
reverse scan, else the last-line scan, else the line loop, which ends. -/
theorem jdb_ends_with_prompt_passes (pf : Profile) (st : GDBAgent) (ans : Str) :
    (0 < regex.match_pos GDBAgent_JDB.rxjdbprompt_reverse (reverse (pf.strip_control ans)) 0 →
        GDBAgent_JDB.ends_with_prompt pf st ans
          = some (true,
              { st with
                last_prompt := reverse (string.at_pos (reverse (pf.strip_control ans)) 0
                  (regex.match_pos GDBAgent_JDB.rxjdbprompt_reverse
                    (reverse (pf.strip_control ans)) 0)) }))
      ∧ (¬ 0 < regex.match_pos GDBAgent_JDB.rxjdbprompt_reverse
              (reverse (pf.strip_control ans)) 0 →
          regex.matches_all
            (string.from_pos (pf.strip_control ans)
              (string.index (pf.strip_control ans) '\n' (-1) + 1))
            GDBAgent_JDB.rxjdbprompt_nothread = true →
          GDBAgent_JDB.ends_with_prompt pf st ans
            = some (true,
                { st with
                  last_prompt := string.from_pos (pf.strip_control ans)
                    (string.index (pf.strip_control ans) '\n' (-1) + 1) }))
      ∧ (¬ 0 < regex.match_pos GDBAgent_JDB.rxjdbprompt_reverse
              (reverse (pf.strip_control ans)) 0 →
          regex.matches_all
            (string.from_pos (pf.strip_control ans)
              (string.index (pf.strip_control ans) '\n' (-1) + 1))
            GDBAgent_JDB.rxjdbprompt_nothread = false →
          ∃ r, GDBAgent_JDB.line_scan (pf.strip_control ans) ((pf.strip_control ans).length + 1)
                (((pf.strip_control ans).length : Int) - 1) = some r
            ∧ GDBAgent_JDB.ends_with_prompt pf st ans
                = some (match r with
                        | some p => (true, { st with last_prompt := p })
                        | none => (false, st))) := by
  refine ⟨?_, ?_, ?_⟩
  · intro h
    unfold GDBAgent_JDB.ends_with_prompt
    simp only []
    rw [if_pos (by omega)]
  · intro h1 h2
    unfold GDBAgent_JDB.ends_with_prompt
    simp only []
    rw [if_neg (by omega), if_pos h2]
  · intro h1 h2
    obtain ⟨r, hr, _, _⟩ := line_scan_spec (pf.strip_control ans) (pf.strip_control ans).length
      (((pf.strip_control ans).length : Int) - 1) (by omega) (by omega)
    refine ⟨r, hr, ?_⟩
    unfold GDBAgent_JDB.ends_with_prompt
    simp only []
    rw [if_neg (by omega), h2, if_neg (by simp), hr]
    cases r <;> rfl

/-- Whatever the answer, `GDBAgent_JDB::ends_with_prompt` ends, and either
returns true and has set `last_prompt` only, or returns false and has changed
nothing. -/
theorem jdb_ends_with_prompt_cases (pf : Profile) (st : GDBAgent) (ans : Str) :
    (∃ lp, GDBAgent_JDB.ends_with_prompt pf st ans = some (true, { st with last_prompt := lp }))
      ∨ GDBAgent_JDB.ends_with_prompt pf st ans = some (false, st) := by
  obtain ⟨p1, p2, p3⟩ := jdb_ends_with_prompt_passes pf st ans
  by_cases h1 : 0 < regex.match_pos GDBAgent_JDB.rxjdbprompt_reverse
      (reverse (pf.strip_control ans)) 0
  · exact Or.inl ⟨_, p1 h1⟩
  · cases h2 : regex.matches_all
        (string.from_pos (pf.strip_control ans)
          (string.index (pf.strip_control ans) '\n' (-1) + 1))
        GDBAgent_JDB.rxjdbprompt_nothread with
    | true => exact Or.inl ⟨_, p2 h1 h2⟩
    | false =>
      obtain ⟨r, _, hres⟩ := p3 h1 h2
      cases r with
      | some p => exact Or.inl ⟨p, hres⟩
      | none => exact Or.inr hres

/-- C17, as stated, fails for JDB: on a fresh session, which is recording,
`GDBAgent_JDB::ends_with_prompt("> ")` returns true and the recording flag is
still true afterwards. -/
theorem C17_recording_counterexample :
    fresh_session.recording = true
      ∧ GDBAgent_JDB.ends_with_prompt sample_profile fresh_session "> ".toList
          = some (true, { fresh_session with last_prompt := "> ".toList })
      ∧ ({ fresh_session with last_prompt := "> ".toList } : GDBAgent).recording = true := by
  decide

/-- C17, amended: whenever `GDBAgent_DBG::ends_with_prompt` returns true the
recording flag is false afterwards; `GDBAgent_JDB::ends_with_prompt` never
changes the recording flag, so that after it returns true the flag has the
value it had before the call. -/
theorem C17_recording_after_prompt (pf : Profile) (st : GDBAgent) (ans : Str) :
    ((GDBAgent_DBG.ends_with_prompt pf st ans).1 = true →
        (GDBAgent_DBG.ends_with_prompt pf st ans).2.recording = false)
      ∧ (∀ res, GDBAgent_JDB.ends_with_prompt pf st ans = some res →
          res.2.recording = st.recording) := by
  constructor
  · intro h
    unfold GDBAgent_DBG.ends_with_prompt at h ⊢
    simp only [] at h ⊢
    split
    · rfl
    · rename_i hc
      rw [if_neg hc] at h
      cases h
  · intro res h
    rcases jdb_ends_with_prompt_cases pf st ans with ⟨lp, h1⟩ | h1
    · rw [h1] at h; cases h; rfl
    · rw [h1] at h; cases h; rfl

/-- C17, amended, on the prompts `"dbg>"` and `"> "` seen by a fresh session,
which is recording. -/
theorem C17_recording_after_prompt_witness :
    (GDBAgent_DBG.ends_with_prompt sample_profile fresh_session "dbg>".toList).2.recording = false
      ∧ ({ fresh_session with last_prompt := "> ".toList } : GDBAgent).recording
          = fresh_session.recording :=
  ⟨(C17_recording_after_prompt sample_profile fresh_session "dbg>".toList).1 (by decide),
   (C17_recording_after_prompt sample_profile fresh_session "> ".toList).2
      (true, { fresh_session with last_prompt := "> ".toList }) (by decide)⟩

/-- C19: for both dialects, when `ends_with_prompt` returns false the session
is as it was before the call, `last_prompt` and the recording flag included;
and the JDB call always returns. -/
theorem C19_false_leaves_state (pf : Profile) (st : GDBAgent) (ans : Str) :
    ((GDBAgent_DBG.ends_with_prompt pf st ans).1 = false →
        (GDBAgent_DBG.ends_with_prompt pf st ans).2 = st
          ∧ (GDBAgent_DBG.ends_with_prompt pf st ans).2.last_prompt = st.last_prompt
          ∧ (GDBAgent_DBG.ends_with_prompt pf st ans).2.recording = st.recording)
      ∧ (∃ res, GDBAgent_JDB.ends_with_prompt pf st ans = some res)
      ∧ (∀ st2, GDBAgent_JDB.ends_with_prompt pf st ans = some (false, st2) →
          st2 = st ∧ st2.last_prompt = st.last_prompt ∧ st2.recording = st.recording) := by
  refine ⟨?_, ?_, ?_⟩
  · intro h
    have h2 : (GDBAgent_DBG.ends_with_prompt pf st ans).2 = st := by
      unfold GDBAgent_DBG.ends_with_prompt at h ⊢
      simp only [] at h ⊢
      split
      · rename_i hc
        rw [if_pos hc] at h
        cases h
      · rfl
    exact ⟨h2, by rw [h2], by rw [h2]⟩
  · rcases jdb_ends_with_prompt_cases pf st ans with ⟨lp, h1⟩ | h1
    · exact ⟨_, h1⟩
    · exact ⟨_, h1⟩
  · intro st2 h
    rcases jdb_ends_with_prompt_cases pf st ans with ⟨lp, h1⟩ | h1
    · rw [h1] at h; cases h
    · rw [h1] at h; cases h
      exact ⟨rfl, rfl, rfl⟩

/-- C19 on the answer `"value = 5\n"`, which has no prompt, seen by a session
that remembers the prompt `"main[1] "`. -/
theorem C19_false_leaves_state_witness :
    (GDBAgent_DBG.ends_with_prompt sample_profile
        { fresh_session with last_prompt := "main[1] ".toList } "value = 5\n".toList).2
        = { fresh_session with last_prompt := "main[1] ".toList }
      ∧ GDBAgent_JDB.ends_with_prompt sample_profile
          { fresh_session with last_prompt := "main[1] ".toList } "value = 5\n".toList
        = some (false, { fresh_session with last_prompt := "main[1] ".toList }) :=
  ⟨((C19_false_leaves_state sample_profile
      { fresh_session with last_prompt := "main[1] ".toList } "value = 5\n".toList).1
      (by decide)).1,
   by decide⟩

/-! ## Where the recorded prompt stands in the answer -/

/-- A positive result of `regex::match` is the length of a matched piece that
lies inside the text. -/
theorem match_pos_pos (r : regex) (s : Str) (b : Int) (h : 0 < regex.match_pos r s b) :
    ∃ n : Nat, regex.match_pos r s b = (n : Int) ∧ 0 ≤ b ∧ b ≤ (s.length : Int)
      ∧ b.toNat + n ≤ s.length := by
  unfold regex.match_pos at h ⊢
  by_cases hb : b < 0 ∨ b > (s.length : Int)
  · rw [if_pos hb] at h
    omega
  · rw [if_neg hb] at h ⊢
    cases hl : regex.longest (s.drop b.toNat) r with
    | none => rw [hl] at h; simp at h
    | some n =>
      obtain ⟨hle, _⟩ := regex.longest_sound _ _ n hl
      rw [List.length_drop] at hle
      refine ⟨n, rfl, by omega, by omega, by omega⟩

theorem substr_in_range (s : Str) (b : Int) (n : Nat) (hb : 0 ≤ b) (hn : 0 < n)
    (hle : b.toNat + n ≤ s.length) :
    s = s.take b.toNat ++ string.substr s b (n : Int) ++ s.drop (b.toNat + n) := by
  unfold string.substr
  have hc : ¬ (b < 0 ∨ (n : Int) ≤ 0 ∨ b + (n : Int) > (s.length : Int)) := by
    rintro (h | h | h) <;> omega
  rw [if_neg hc, Int.toNat_ofNat, List.append_assoc]
  have h1 : s.drop (b.toNat + n) = (s.drop b.toNat).drop n := by
    rw [List.drop_drop]
  rw [h1, List.take_append_drop, List.take_append_drop]

theorem from_pos_suffix (s : Str) (k : Int) : ∃ front, s = front ++ string.from_pos s k := by
  unfold string.from_pos string.substr
  by_cases hc : k < 0 ∨ (s.length : Int) - k ≤ 0 ∨ k + ((s.length : Int) - k) > (s.length : Int)
  · rw [if_pos hc]
    exact ⟨s, by simp⟩
  · rw [if_neg hc]
    refine ⟨s.take k.toNat, ?_⟩
    have h1 : ((s.length : Int) - k).toNat = (s.drop k.toNat).length := by
      rw [List.length_drop]; omega
    rw [h1, List.take_length, List.take_append_drop]

theorem contains_at_end_suffix (s y : Str) (h : string.contains_at s y (-1) = true) :
    ∃ front, s = front ++ y := by
  unfold string.contains_at string.match_at at h
  simp only [decide_eq_true_eq] at h
  rw [if_pos (by omega)] at h
  by_cases h1 : (s.length : Int) + -1 - (y.length : Int) + 1 < 0
      ∨ (false = true ∧ (s.length : Int) + -1 - (y.length : Int) + 1 ≠ 0)
  · rw [if_pos h1] at h
    simp at h
  · rw [if_neg h1] at h
    simp only at h
    split at h
    · omega
    · split at h
      · rename_i h2 h3
        have hge : ¬ (s.length : Int) + -1 - (y.length : Int) + 1 < 0 := fun e => h1 (Or.inl e)
        have hn : ((s.length : Int) + -1 - (y.length : Int) + 1).toNat = s.length - y.length := by
          omega
        rw [hn] at h3
        have hlen : (s.drop (s.length - y.length)).length = y.length := by
          rw [List.length_drop]; omega
        rw [List.take_of_length_le (by omega)] at h3
        have hsplit := (List.take_append_drop (s.length - y.length) s).symm
        rw [h3] at hsplit
        exact ⟨_, hsplit⟩
      · omega

/-- The effect of `GDBAgent_JDB::cut_off_prompt` on an answer that ends with
the remembered prompt. -/
theorem jdb_cut_off_prompt_append (st : GDBAgent) (front : Str) :
    GDBAgent_JDB.cut_off_prompt st (front ++ st.last_prompt) = front := by
  unfold GDBAgent_JDB.cut_off_prompt
  by_cases hp : st.last_prompt = []
  · rw [hp, contains_at_empty]; simp
  · rw [contains_at_end front _ hp, if_pos rfl]
    have : (((front ++ st.last_prompt).length : Int) - (st.last_prompt.length : Int))
        = (front.length : Int) := by simp
    rw [this, before_append]

/-- The prompt recorded by the reverse scan ends the answer. -/
theorem jdb_reverse_scan_suffix (answer : Str)
    (h : 0 < regex.match_pos GDBAgent_JDB.rxjdbprompt_reverse (reverse answer) 0) :
    ∃ front, answer = front
      ++ reverse (string.at_pos (reverse answer) 0
          (regex.match_pos GDBAgent_JDB.rxjdbprompt_reverse (reverse answer) 0)) := by
  obtain ⟨n, hn, _, _, hle⟩ := match_pos_pos _ _ _ h
  rw [hn] at h ⊢
  have hsplit := substr_in_range (reverse answer) 0 n (le_refl _) (by omega) hle
  simp only [Int.toNat_zero, List.take_zero, List.nil_append, Nat.zero_add] at hsplit
  refine ⟨((reverse answer).drop n).reverse, ?_⟩
  have h2 := congrArg List.reverse hsplit
  rw [List.reverse_append] at h2
  have h3 : List.reverse (reverse answer) = answer := by simp [reverse]
  rw [h3] at h2
  exact h2

/-- C18, as stated, fails: on `"main[1] x"` the line loop of
`GDBAgent_JDB::ends_with_prompt` finds `main[1] ` at the start of the line,
returns true and records it, but the answer does not end with it, and
`GDBAgent_JDB::cut_off_prompt` leaves the answer as it is. -/
theorem C18_jdb_prompt_not_at_end_counterexample :
    sample_profile.strip_control "main[1] x".toList = "main[1] x".toList
      ∧ GDBAgent_JDB.ends_with_prompt sample_profile fresh_session "main[1] x".toList
          = some (true, { fresh_session with last_prompt := "main[1] ".toList })
      ∧ ¬ ("main[1] ".toList <:+ "main[1] x".toList)
      ∧ GDBAgent_JDB.cut_off_prompt { fresh_session with last_prompt := "main[1] ".toList }
          "main[1] x".toList = "main[1] x".toList := by
  decide

/-- C18, amended: when `GDBAgent_JDB::ends_with_prompt` returns true on an
answer without control characters (one that `strip_control` leaves
unchanged), the recorded `last_prompt` is a piece of the answer; if the
reverse scan or the last-line scan matched, the answer ends with
`last_prompt` and `GDBAgent_JDB::cut_off_prompt` removes it; and whenever the
answer does not end with `last_prompt`, which can happen when only the line
loop matched, `cut_off_prompt` leaves the answer as it is; and when only the
line loop matched, `last_prompt` stands at the start of a line: it is the
match of the prompt pattern at a position `b` that is a line start, and the
answer is its first `b` characters, then `last_prompt`, then the rest. -/
theorem C18_jdb_prompt_in_answer (pf : Profile) (st st2 : GDBAgent) (answer : Str)
    (hctl : pf.strip_control answer = answer)
    (h : GDBAgent_JDB.ends_with_prompt pf st answer = some (true, st2)) :
    (∃ front back, answer = front ++ st2.last_prompt ++ back)
      ∧ ((0 < regex.match_pos GDBAgent_JDB.rxjdbprompt_reverse (reverse answer) 0
            ∨ regex.matches_all
                (string.from_pos answer (string.index answer '\n' (-1) + 1))
                GDBAgent_JDB.rxjdbprompt_nothread = true) →
          ∃ front, answer = front ++ st2.last_prompt
            ∧ GDBAgent_JDB.cut_off_prompt st2 answer = front)
      ∧ ((¬ ∃ front, answer = front ++ st2.last_prompt) →
          GDBAgent_JDB.cut_off_prompt st2 answer = answer)
      ∧ (¬ 0 < regex.match_pos GDBAgent_JDB.rxjdbprompt_reverse (reverse answer) 0 →
          regex.matches_all
              (string.from_pos answer (string.index answer '\n' (-1) + 1))
              GDBAgent_JDB.rxjdbprompt_nothread = false →
          ∃ (b : Int) (back : Str), is_line_start answer b ∧ 0 ≤ b
            ∧ 0 < regex.match_pos GDBAgent_JDB.rxjdbprompt answer b
            ∧ st2.last_prompt
                = string.at_pos answer b (regex.match_pos GDBAgent_JDB.rxjdbprompt answer b)
            ∧ answer = answer.take b.toNat ++ st2.last_prompt ++ back) := by
  obtain ⟨p1, p2, p3⟩ := jdb_ends_with_prompt_passes pf st answer
  simp only [hctl] at p1 p2 p3
  have hcut : ∀ front, answer = front ++ st2.last_prompt →
      ∃ front, answer = front ++ st2.last_prompt
        ∧ GDBAgent_JDB.cut_off_prompt st2 answer = front := by
    intro front hf
    refine ⟨front, hf, ?_⟩
    conv_lhs => rw [hf]
    exact jdb_cut_off_prompt_append st2 front
  have hrest : (¬ ∃ front, answer = front ++ st2.last_prompt) →
      GDBAgent_JDB.cut_off_prompt st2 answer = answer := by
    intro hno
    unfold GDBAgent_JDB.cut_off_prompt
    by_cases hc : string.contains_at answer st2.last_prompt (-1) = true
    · exact absurd (contains_at_end_suffix _ _ hc) hno
    · rw [if_neg hc]
  by_cases h1 : 0 < regex.match_pos GDBAgent_JDB.rxjdbprompt_reverse (reverse answer) 0
  · rw [p1 h1] at h
    cases h
    obtain ⟨front, hf⟩ := jdb_reverse_scan_suffix answer h1
    exact ⟨⟨front, [], by rw [List.append_nil]; exact hf⟩, fun _ => hcut front hf, hrest,
      fun hn _ => absurd h1 hn⟩
  · cases h2 : regex.matches_all
        (string.from_pos answer (string.index answer '\n' (-1) + 1))
        GDBAgent_JDB.rxjdbprompt_nothread with
    | true =>
      rw [p2 h1 h2] at h
      cases h
      obtain ⟨front, hf⟩ := from_pos_suffix answer (string.index answer '\n' (-1) + 1)
      exact ⟨⟨front, [], by rw [List.append_nil]; exact hf⟩, fun _ => hcut front hf, hrest,
        fun _ hf2 => by cases hf2⟩
    | false =>
      obtain ⟨r, hr, hres⟩ := p3 h1 h2
      obtain ⟨r2, hr2, hacc, _⟩ := line_scan_spec answer answer.length
        ((answer.length : Int) - 1) (by omega) (by omega)
      rw [hr] at hr2
      cases hr2
      rw [hres] at h
      cases r with
      | none => cases h
      | some p =>
        cases h
        obtain ⟨b, hb1, hb2, _, hb4⟩ := hacc p rfl
        have hb2o := hb2
        have hb4o := hb4
        obtain ⟨n, hn, hb0, _, hle⟩ := match_pos_pos _ _ _ hb2
        rw [hn] at hb2 hb4
        have hsplit := substr_in_range answer b n hb0 (by omega) hle
        have hpiece : answer = answer.take b.toNat ++ p ++ answer.drop (b.toNat + n) := by
          rw [hb4]
          exact hsplit
        refine ⟨⟨answer.take b.toNat, answer.drop (b.toNat + n), hpiece⟩, ?_, hrest, ?_⟩
        · rintro (h3 | h3)
          · exact absurd h3 h1
          · cases h3
        · intro _ _
          exact ⟨b, answer.drop (b.toNat + n), hb1, hb0, hb2o, hb4o, hpiece⟩

/-- C18, amended, on `"Breakpoint hit.\nmain[1] "`, where the reverse scan
matches and the prompt ends the answer and is cut off, and on
`"ok\nmain[1] x"`, where only the line loop matches and the prompt stands at
a line start inside the answer. -/
theorem C18_jdb_prompt_in_answer_witness :
    (∃ front, "Breakpoint hit.\nmain[1] ".toList = front ++ "main[1] ".toList
        ∧ GDBAgent_JDB.cut_off_prompt { fresh_session with last_prompt := "main[1] ".toList }
            "Breakpoint hit.\nmain[1] ".toList = front)
      ∧ (∃ (b : Int) (back : Str), is_line_start "ok\nmain[1] x".toList b ∧ 0 ≤ b
          ∧ 0 < regex.match_pos GDBAgent_JDB.rxjdbprompt "ok\nmain[1] x".toList b
          ∧ "main[1] ".toList
              = string.at_pos "ok\nmain[1] x".toList b
                  (regex.match_pos GDBAgent_JDB.rxjdbprompt "ok\nmain[1] x".toList b)
          ∧ "ok\nmain[1] x".toList
              = "ok\nmain[1] x".toList.take b.toNat ++ "main[1] ".toList ++ back) :=
  ⟨(C18_jdb_prompt_in_answer sample_profile fresh_session
      { fresh_session with last_prompt := "main[1] ".toList }
      "Breakpoint hit.\nmain[1] ".toList rfl (by decide)).2.1 (Or.inl (by decide)),
   (C18_jdb_prompt_in_answer sample_profile fresh_session
      { fresh_session with last_prompt := "main[1] ".toList }
      "ok\nmain[1] x".toList rfl (by decide)).2.2.2 (by decide) (by decide)⟩

/-! ## The DBG scenario -/

/-- C20, as stated, fails: `GDBAgent_DBG::ends_with_prompt` is false on
`"value = 5\ndbg> "`, whose last line is `dbg> ` and not `dbg>`, and
`GDBAgent_DBG::cut_off_prompt` turns that text into `"value = 5\n"`, not into
`"value = 5"`. -/
theorem C20_dbg_scenario_counterexample :
    sample_profile.strip_control "value = 5\ndbg> ".toList = "value = 5\ndbg> ".toList
      ∧ (GDBAgent_DBG.ends_with_prompt sample_profile fresh_session
          "value = 5\ndbg> ".toList).1 = false
      ∧ GDBAgent_DBG.cut_off_prompt "value = 5\ndbg> ".toList = "value = 5\n".toList
      ∧ GDBAgent_DBG.cut_off_prompt "value = 5\ndbg> ".toList ≠ "value = 5".toList := by
  decide

/-- C20, amended: for the DBG dialect, `ends_with_prompt("value = 5\n")` is
false; `ends_with_prompt("value = 5\ndbg> ")` is false as well and leaves the
session as it was; `ends_with_prompt("value = 5\ndbg>")` is true with
`last_prompt` equal to `"dbg>"`; and `cut_off_prompt` applied to
`"value = 5\ndbg> "` or to `"value = 5\ndbg>"` yields `"value = 5\n"`. -/
theorem C20_dbg_scenario (pf : Profile) (st : GDBAgent)
    (h1 : pf.strip_control "value = 5\n".toList = "value = 5\n".toList)
    (h2 : pf.strip_control "value = 5\ndbg> ".toList = "value = 5\ndbg> ".toList)
    (h3 : pf.strip_control "value = 5\ndbg>".toList = "value = 5\ndbg>".toList) :
    GDBAgent_DBG.ends_with_prompt pf st "value = 5\n".toList = (false, st)
      ∧ GDBAgent_DBG.ends_with_prompt pf st "value = 5\ndbg> ".toList = (false, st)
      ∧ GDBAgent_DBG.ends_with_prompt pf st "value = 5\ndbg>".toList
          = (true, { st with last_prompt := "dbg>".toList, recording := false })
      ∧ GDBAgent_DBG.cut_off_prompt "value = 5\ndbg> ".toList = "value = 5\n".toList
      ∧ GDBAgent_DBG.cut_off_prompt "value = 5\ndbg>".toList = "value = 5\n".toList := by
  refine ⟨?_, ?_, ?_, by decide, by decide⟩
  · unfold GDBAgent_DBG.ends_with_prompt
    simp only [h1]
    rw [if_neg (by decide)]
  · unfold GDBAgent_DBG.ends_with_prompt
    simp only [h2]
    rw [if_neg (by decide)]
  · unfold GDBAgent_DBG.ends_with_prompt
    simp only [h3]
    rw [if_pos (by decide)]
    rfl

/-- C20, amended, on a fresh session. -/
theorem C20_dbg_scenario_witness :
    GDBAgent_DBG.ends_with_prompt sample_profile fresh_session "value = 5\n".toList
        = (false, fresh_session)
      ∧ GDBAgent_DBG.ends_with_prompt sample_profile fresh_session "value = 5\ndbg> ".toList
        = (false, fresh_session)
      ∧ GDBAgent_DBG.ends_with_prompt sample_profile fresh_session "value = 5\ndbg>".toList
        = (true, { fresh_session with last_prompt := "dbg>".toList, recording := false })
      ∧ GDBAgent_DBG.cut_off_prompt "value = 5\ndbg> ".toList = "value = 5\n".toList
      ∧ GDBAgent_DBG.cut_off_prompt "value = 5\ndbg>".toList = "value = 5\n".toList :=
  C20_dbg_scenario sample_profile fresh_session rfl rfl rfl

/-! ## The JDB scenario, and what the result depends on -/

/-- C21, as stated, fails in its last part: on `"Breakpoint hit.\nmain[1] "`
the result is true with `last_prompt` equal to `"main[1] "`, but
`GDBAgent_JDB::cut_off_prompt` then yields `"Breakpoint hit.\n"`, with the
line break, not `"Breakpoint hit."`. -/
theorem C21_jdb_scenario_counterexample :
    GDBAgent_JDB.ends_with_prompt sample_profile fresh_session "Breakpoint hit.\nmain[1] ".toList
        = some (true, { fresh_session with last_prompt := "main[1] ".toList })
      ∧ GDBAgent_JDB.cut_off_prompt { fresh_session with last_prompt := "main[1] ".toList }
          "Breakpoint hit.\nmain[1] ".toList = "Breakpoint hit.\n".toList
      ∧ GDBAgent_JDB.cut_off_prompt { fresh_session with last_prompt := "main[1] ".toList }
          "Breakpoint hit.\nmain[1] ".toList ≠ "Breakpoint hit.".toList := by
  decide

/-- C21, amended: for the JDB dialect, on `"Breakpoint hit.\nmain[1] "` the
reverse scan matches, `ends_with_prompt` is true with `last_prompt` equal to
`"main[1] "`, and `cut_off_prompt` then turns that buffer into
`"Breakpoint hit.\n"`. -/
theorem C21_jdb_scenario (pf : Profile) (st : GDBAgent)
    (hctl : pf.strip_control "Breakpoint hit.\nmain[1] ".toList
      = "Breakpoint hit.\nmain[1] ".toList) :
    0 < regex.match_pos GDBAgent_JDB.rxjdbprompt_reverse
          (reverse "Breakpoint hit.\nmain[1] ".toList) 0
      ∧ GDBAgent_JDB.ends_with_prompt pf st "Breakpoint hit.\nmain[1] ".toList
          = some (true, { st with last_prompt := "main[1] ".toList })
      ∧ GDBAgent_JDB.cut_off_prompt { st with last_prompt := "main[1] ".toList }
          "Breakpoint hit.\nmain[1] ".toList = "Breakpoint hit.\n".toList := by
  have hm : 0 < regex.match_pos GDBAgent_JDB.rxjdbprompt_reverse
      (reverse "Breakpoint hit.\nmain[1] ".toList) 0 := by decide
  refine ⟨hm, ?_, ?_⟩
  · have p1 := (jdb_ends_with_prompt_passes pf st "Breakpoint hit.\nmain[1] ".toList).1
    rw [hctl] at p1
    rw [p1 hm]
    have hlp : reverse (string.at_pos (reverse "Breakpoint hit.\nmain[1] ".toList) 0
        (regex.match_pos GDBAgent_JDB.rxjdbprompt_reverse
          (reverse "Breakpoint hit.\nmain[1] ".toList) 0)) = "main[1] ".toList := by decide
    rw [hlp]
  · exact jdb_cut_off_prompt_append { st with last_prompt := "main[1] ".toList }
      "Breakpoint hit.\n".toList

/-- C21, amended, on a fresh session. -/
theorem C21_jdb_scenario_witness :
    GDBAgent_JDB.ends_with_prompt sample_profile fresh_session "Breakpoint hit.\nmain[1] ".toList
        = some (true, { fresh_session with last_prompt := "main[1] ".toList })
      ∧ GDBAgent_JDB.cut_off_prompt { fresh_session with last_prompt := "main[1] ".toList }
          "Breakpoint hit.\nmain[1] ".toList = "Breakpoint hit.\n".toList :=
  (C21_jdb_scenario sample_profile fresh_session rfl).2

/-- The result of `GDBAgent_JDB::ends_with_prompt` is fixed by the profile and
the answer: the same prompt, or none, whatever the session. -/
theorem jdb_ends_with_prompt_uniform (pf : Profile) (ans : Str) :
    ∃ found : Option Str, ∀ st : GDBAgent,
      GDBAgent_JDB.ends_with_prompt pf st ans
        = some (match found with
                | some p => (true, { st with last_prompt := p })
                | none => (false, st)) := by
  by_cases h1 : 0 < regex.match_pos GDBAgent_JDB.rxjdbprompt_reverse
      (reverse (pf.strip_control ans)) 0
  · exact ⟨some _, fun st => (jdb_ends_with_prompt_passes pf st ans).1 h1⟩
  · cases h2 : regex.matches_all
        (string.from_pos (pf.strip_control ans)
          (string.index (pf.strip_control ans) '\n' (-1) + 1))
        GDBAgent_JDB.rxjdbprompt_nothread with
    | true => exact ⟨some _, fun st => (jdb_ends_with_prompt_passes pf st ans).2.1 h1 h2⟩
    | false =>
      obtain ⟨r, hr, _⟩ := (jdb_ends_with_prompt_passes pf fresh_session ans).2.2 h1 h2
      refine ⟨r, fun st => ?_⟩
      obtain ⟨r2, hr2, hres⟩ := (jdb_ends_with_prompt_passes pf st ans).2.2 h1 h2
      rw [hr] at hr2
      cases hr2
      exact hres

/-- C22: for both dialects and every answer, two sessions in any two states
that are fed the same text get the same boolean result from
`ends_with_prompt`, and when it is true the same `last_prompt`. -/
theorem C22_result_depends_on_text_only (pf : Profile) (st1 st2 : GDBAgent) (ans : Str) :
    (GDBAgent_DBG.ends_with_prompt pf st1 ans).1 = (GDBAgent_DBG.ends_with_prompt pf st2 ans).1
      ∧ ((GDBAgent_DBG.ends_with_prompt pf st1 ans).1 = true →
          (GDBAgent_DBG.ends_with_prompt pf st1 ans).2.last_prompt
            = (GDBAgent_DBG.ends_with_prompt pf st2 ans).2.last_prompt)
      ∧ (∃ b r1 r2, GDBAgent_JDB.ends_with_prompt pf st1 ans = some (b, r1)
          ∧ GDBAgent_JDB.ends_with_prompt pf st2 ans = some (b, r2)
          ∧ (b = true → r1.last_prompt = r2.last_prompt)) := by
  refine ⟨?_, ?_, ?_⟩
  · unfold GDBAgent_DBG.ends_with_prompt
    simp only []
    split <;> rfl
  · unfold GDBAgent_DBG.ends_with_prompt
    simp only []
    split
    · intro _; rfl
    · intro h; cases h
  · obtain ⟨found, hf⟩ := jdb_ends_with_prompt_uniform pf ans
    cases found with
    | some p => exact ⟨true, _, _, hf st1, hf st2, fun _ => rfl⟩
    | none => exact ⟨false, _, _, hf st1, hf st2, fun h => by cases h⟩

/-- C22 on the text `"dbg>"` in a fresh session and in one that is not
recording and remembers another prompt. -/
theorem C22_result_depends_on_text_only_witness :
    (GDBAgent_DBG.ends_with_prompt sample_profile fresh_session "dbg>".toList).2.last_prompt
      = (GDBAgent_DBG.ends_with_prompt sample_profile
          { fresh_session with last_prompt := "> ".toList, recording := false }
          "dbg>".toList).2.last_prompt :=
  (C22_result_depends_on_text_only sample_profile fresh_session
      { fresh_session with last_prompt := "> ".toList, recording := false } "dbg>".toList).2.1
    (by decide)

/-! ## Watch scope, clearing with a condition, loading, restoring in JDB -/

/-- C23: for a watch mode `w` that is a subset of the supported bits,
`GDBAgent_JDB::watch_command(expr, w)` is `"watch all " ++ expr` if `w` has the
Change bit, and otherwise `"watch access " ++ expr` if `w` has the Read bit or
the Access bit. -/
theorem C23_jdb_watch_command_scope (pf : Profile) (expr : Str) (w : Nat)
    (hsub : (pf.has_watch_command &&& w) = w) :
    ((w &&& WATCH_CHANGE) = WATCH_CHANGE →
        GDBAgent_JDB.watch_command pf expr w = "watch all ".toList ++ expr)
      ∧ (¬ (w &&& WATCH_CHANGE) = WATCH_CHANGE →
          ((w &&& WATCH_READ) = WATCH_READ ∨ (w &&& WATCH_ACCESS) = WATCH_ACCESS) →
          GDBAgent_JDB.watch_command pf expr w = "watch access ".toList ++ expr) := by
  unfold GDBAgent_JDB.watch_command
  rw [if_neg (by simpa using hsub)]
  constructor
  · intro h
    rw [if_pos h]
  · intro h1 h2
    rw [if_neg h1]
    rcases h2 with h2 | h2
    · rw [if_pos h2]
    · split <;> rfl

/-- C23 at the modes Change|Read, Read and Access. -/
theorem C23_jdb_watch_command_scope_witness :
    GDBAgent_JDB.watch_command sample_profile "x".toList 3 = "watch all x".toList
      ∧ GDBAgent_JDB.watch_command sample_profile "x".toList 2 = "watch access x".toList
      ∧ GDBAgent_JDB.watch_command sample_profile "x".toList 4 = "watch access x".toList :=
  ⟨(C23_jdb_watch_command_scope sample_profile "x".toList 3 (by decide)).1 (by decide),
   (C23_jdb_watch_command_scope sample_profile "x".toList 2 (by decide)).2 (by decide)
      (Or.inl (by decide)),
   (C23_jdb_watch_command_scope sample_profile "x".toList 4 (by decide)).2 (by decide)
      (Or.inr (by decide))⟩

/-- C24: for both dialects, `set_bp` with `set = false`, a non-empty `cond`
and `has_condition_command()` issues two commands, `clear_command(position)`
and then `condition_command` on the decimal rendering of
`max_breakpoint_number_seen + 1`; the follow-up is the same for `set = true`;
and with an empty `cond` or without the capability exactly one command is
issued. -/
theorem C24_set_bp_clear_with_condition (pf : Profile) (st : GDBAgent) (a : Str)
    (set temp : Bool) (cond : Str) :
    (cond ≠ [] → pf.has_condition_command = true →
        (GDBAgent_DBG.set_bp pf st a false temp cond).issued
            = st.issued ++ [pf.clear_command (marked_position a),
                pf.condition_command (itostring (int_add st.max_breakpoint_number_seen 1)) cond]
          ∧ (GDBAgent_JDB.set_bp pf st a false temp cond).issued
            = st.issued ++ [pf.clear_command (marked_position a),
                pf.condition_command (itostring (int_add st.max_breakpoint_number_seen 1)) cond]
          ∧ (GDBAgent_DBG.set_bp pf st a true temp cond).issued[st.issued.length + 1]?
            = some (pf.condition_command
                (itostring (int_add st.max_breakpoint_number_seen 1)) cond)
          ∧ (GDBAgent_JDB.set_bp pf st a true temp cond).issued[st.issued.length + 1]?
            = some (pf.condition_command
                (itostring (int_add st.max_breakpoint_number_seen 1)) cond))
      ∧ ((cond = [] ∨ pf.has_condition_command = false) →
          (GDBAgent_DBG.set_bp pf st a set temp cond).issued.length = st.issued.length + 1
            ∧ (GDBAgent_JDB.set_bp pf st a set temp cond).issued.length
                = st.issued.length + 1) := by
  constructor
  · intro h1 h2
    have hc : cond ≠ [] ∧ pf.has_condition_command = true := ⟨h1, h2⟩
    have hget : ∀ (x y : Str), (st.issued ++ [x] ++ [y])[st.issued.length + 1]? = some y := by
      intro x y
      rw [List.append_assoc, List.getElem?_append_right (by omega)]
      simp
    refine ⟨?_, ?_, ?_, ?_⟩
    · rw [dbg_set_bp_eq]; simp [hc]
    · rw [jdb_set_bp_eq]; simp [hc]
    · rw [dbg_set_bp_eq]; simp only [if_pos hc]; exact hget _ _
    · rw [jdb_set_bp_eq]; simp only [if_pos hc]; exact hget _ _
  · intro h
    have hc : ¬ (cond ≠ [] ∧ pf.has_condition_command = true) := by
      rintro ⟨h1, h2⟩
      rcases h with h | h
      · exact h1 h
      · rw [h] at h2; cases h2
    constructor
    · rw [dbg_set_bp_eq]; simp [hc]
    · rw [jdb_set_bp_eq]; simp [hc]

/-- C24 on a session that has seen breakpoint 4: clearing `main` with the
condition `x > 1`. -/
theorem C24_set_bp_clear_with_condition_witness :
    (GDBAgent_DBG.set_bp sample_profile { fresh_session with max_breakpoint_number_seen := 4 }
        "main".toList false false "x > 1".toList).issued
      = ["clear main".toList, "condition 5 x > 1".toList] :=
  ((C24_set_bp_clear_with_condition sample_profile
      { fresh_session with max_breakpoint_number_seen := 4 } "main".toList false false
      "x > 1".toList).1 (by decide) rfl).1.trans (by decide)

/-- C25: `GDBAgent_DBG::debug_command(program, args)` is `"file " ++ program`
and `GDBAgent_JDB::debug_command(program, args)` is `"load " ++ program`,
whatever `args` is. -/
theorem C25_debug_command (program args : Str) :
    GDBAgent_DBG.debug_command program args = "file ".toList ++ program
      ∧ GDBAgent_JDB.debug_command program args = "load ".toList ++ program
      ∧ (∀ args2 : Str,
          GDBAgent_DBG.debug_command program args = GDBAgent_DBG.debug_command program args2
            ∧ GDBAgent_JDB.debug_command program args
                = GDBAgent_JDB.debug_command program args2) :=
  ⟨rfl, rfl, fun _ => ⟨rfl, rfl⟩⟩

/-- C26: `GDBAgent_JDB::restore_breakpoint_command` writes exactly
`"stop at " ++ pos ++ "\n"`, whatever the descriptor, `num`, `cond` and
`as_dummy` are. -/
theorem C26_jdb_restore_breakpoint (bp : BreakPoint) (pos num cond : Str) (as_dummy : Bool) :
    GDBAgent_JDB.restore_breakpoint_command bp pos num cond as_dummy
        = "stop at ".toList ++ pos ++ "\n".toList
      ∧ (∀ (bp2 : BreakPoint) (num2 cond2 : Str) (as_dummy2 : Bool),
          GDBAgent_JDB.restore_breakpoint_command bp pos num cond as_dummy
            = GDBAgent_JDB.restore_breakpoint_command bp2 pos num2 cond2 as_dummy2) := by
  constructor
  · unfold GDBAgent_JDB.restore_breakpoint_command
    simp
  · intro bp2 num2 cond2 as_dummy2
    rfl

/-! ## Termination of the line loop -/

/-- The backward search for a line break from `last_nl` returns `-1` or a
position not greater than `last_nl`. -/
theorem index_back_le (answer : Str) (last_nl : Int) (h0 : 0 ≤ last_nl)
    (hl : last_nl < (answer.length : Int)) :
    -1 ≤ string.index answer '\n' (last_nl - (answer.length : Int))
      ∧ string.index answer '\n' (last_nl - (answer.length : Int)) ≤ last_nl := by
  rcases index_back_cases answer '\n' last_nl h0 hl with h | ⟨h1, h2, _⟩
  · rw [h]; omega
  · omega

/-- The counted loop ends within `last_nl + 2` tests of its condition, runs
its body at most `last_nl + 1` times more, and returns what `line_scan`
returns. -/
theorem line_scan_count_spec (answer : Str) (fuel : Nat) :
    ∀ (last_nl : Int) (runs : Nat), last_nl < (answer.length : Int) →
      last_nl + 1 ≤ (fuel : Int) →
      ∃ r k, GDBAgent_JDB.line_scan_count answer (fuel + 1) last_nl runs = some (r, k)
        ∧ GDBAgent_JDB.line_scan answer (fuel + 1) last_nl = some r
        ∧ k ≤ runs + (last_nl + 1).toNat := by
  induction fuel with
  | zero =>
    intro last_nl runs _ h2
    refine ⟨none, runs, ?_, ?_, by omega⟩
    · unfold GDBAgent_JDB.line_scan_count
      rw [if_neg (by omega)]
    · unfold GDBAgent_JDB.line_scan
      rw [if_neg (by omega)]
  | succ fuel ih =>
    intro last_nl runs h1 h2
    by_cases h0 : last_nl ≥ 0
    · obtain ⟨hq1, hq2⟩ := index_back_le answer last_nl h0 h1
      generalize hqd : string.index answer '\n' (last_nl - (answer.length : Int)) = q
        at hq1 hq2
      obtain ⟨r, k, hc, hs, hk⟩ := ih (q - 1) (runs + 1) (by omega) (by omega)
      have hk2 : k ≤ runs + (last_nl + 1).toNat := by omega
      conv => enter [1, r, 1, k, 1, 1]; unfold GDBAgent_JDB.line_scan_count
      conv => enter [1, r, 1, k, 2, 1, 1]; unfold GDBAgent_JDB.line_scan
      simp only [if_pos h0, hqd]
      by_cases hm : regex.match_pos GDBAgent_JDB.rxjdbprompt answer (q + 1) > 0
      · simp only [if_pos hm]
        split
        · exact ⟨r, k, hc, hs, hk2⟩
        · exact ⟨_, _, rfl, rfl, by omega⟩
      · simp only [if_neg hm]
        exact ⟨r, k, hc, hs, hk2⟩
    · refine ⟨none, runs, ?_, ?_, by omega⟩
      · unfold GDBAgent_JDB.line_scan_count
        rw [if_neg h0]
      · unfold GDBAgent_JDB.line_scan
        rw [if_neg h0]

/-- C27: `GDBAgent_JDB::ends_with_prompt` returns on every answer; in the
loop over the lines the backward search from `last_nl` gives `-1` or a
position not greater than `last_nl`, so that after the decrement `last_nl`
is smaller than before; and the body of the loop runs at most
`answer.length()` times, `answer` being the stripped text. -/
theorem C27_jdb_ends_with_prompt_terminates (pf : Profile) (st : GDBAgent) (ans : Str) :
    (∃ res, GDBAgent_JDB.ends_with_prompt pf st ans = some res)
      ∧ (∀ last_nl : Int, 0 ≤ last_nl → last_nl < ((pf.strip_control ans).length : Int) →
          -1 ≤ string.index (pf.strip_control ans) '\n'
                  (last_nl - ((pf.strip_control ans).length : Int))
            ∧ string.index (pf.strip_control ans) '\n'
                  (last_nl - ((pf.strip_control ans).length : Int)) - 1 < last_nl)
      ∧ (∃ r k, GDBAgent_JDB.line_scan_count (pf.strip_control ans)
              ((pf.strip_control ans).length + 1) (((pf.strip_control ans).length : Int) - 1) 0
            = some (r, k)
          ∧ GDBAgent_JDB.line_scan (pf.strip_control ans)
              ((pf.strip_control ans).length + 1) (((pf.strip_control ans).length : Int) - 1)
            = some r
          ∧ k ≤ (pf.strip_control ans).length) := by
  refine ⟨?_, ?_, ?_⟩
  · rcases jdb_ends_with_prompt_cases pf st ans with ⟨lp, h1⟩ | h1
    · exact ⟨_, h1⟩
    · exact ⟨_, h1⟩
  · intro last_nl h0 hl
    obtain ⟨h1, h2⟩ := index_back_le (pf.strip_control ans) last_nl h0 hl
    exact ⟨h1, by omega⟩
  · obtain ⟨r, k, hc, hs, hk⟩ := line_scan_count_spec (pf.strip_control ans)
      (pf.strip_control ans).length (((pf.strip_control ans).length : Int) - 1) 0
      (by omega) (by omega)
    exact ⟨r, k, hc, hs, by omega⟩

/-- C27 on a text of three lines and 21 characters: the body runs three
times, once for each line. -/
theorem C27_jdb_ends_with_prompt_terminates_witness :
    GDBAgent_JDB.line_scan_count "a1[1]=\nb2[2] =\nc3[3]=".toList 22 20 0 = some (none, 3)
      ∧ -1 ≤ string.index (sample_profile.strip_control "a1[1]=\nb2[2] =\nc3[3]=".toList) '\n'
                (20 - ((sample_profile.strip_control "a1[1]=\nb2[2] =\nc3[3]=".toList).length : Int))
      ∧ string.index (sample_profile.strip_control "a1[1]=\nb2[2] =\nc3[3]=".toList) '\n'
            (20 - ((sample_profile.strip_control "a1[1]=\nb2[2] =\nc3[3]=".toList).length : Int))
          - 1 < 20 :=
  ⟨by decide,
   ((C27_jdb_ends_with_prompt_terminates sample_profile fresh_session
      "a1[1]=\nb2[2] =\nc3[3]=".toList).2.1 20 (by decide) (by decide)).1,
   ((C27_jdb_ends_with_prompt_terminates sample_profile fresh_session
      "a1[1]=\nb2[2] =\nc3[3]=".toList).2.1 20 (by decide) (by decide)).2⟩

/-! ## The font table -/

/-- C28, the code at the failing input: if the name hashes to the last index
`MAX_FONTS - 1` and the last slot of the table holds a font under another
name, then `FontTable::operator[]` goes on to read `table[MAX_FONTS]`, outside
the table, whatever free slots the table has: the index is not set back to 0
after `MAX_FONTS - 1`. -/
theorem C28_font_table_probe_leaves_table (env : FontEnv) (table : List FontTableHashEntry)
    (name : Str) (entry : FontTableHashEntry)
    (hpos : 0 < env.MAX_FONTS) (hlen : table.length = env.MAX_FONTS)
    (hhash : env.hashpjw name % env.MAX_FONTS = env.MAX_FONTS - 1)
    (hlast : table[env.MAX_FONTS - 1]? = some entry)
    (hfont : entry.font ≠ 0) (hname : name ≠ entry.name) :
    FontTable.probe env table name (table.length + 1) (FontTable.hash env name)
        = some (Outcome.out_of_bounds env.MAX_FONTS)
      ∧ FontTable.lookup env table name = some (Outcome.out_of_bounds env.MAX_FONTS) := by
  have hp : FontTable.probe env table name (table.length + 1) (FontTable.hash env name)
      = some (Outcome.out_of_bounds env.MAX_FONTS) := by
    unfold FontTable.hash
    rw [hhash, hlen]
    obtain ⟨m, hm⟩ : ∃ m, env.MAX_FONTS = m + 1 := ⟨env.MAX_FONTS - 1, by omega⟩
    rw [hm] at hlast ⊢
    have hnone : table[m + 1]? = none := List.getElem?_eq_none (by omega)
    simp only [Nat.add_sub_cancel] at hlast ⊢
    unfold FontTable.probe
    simp only [hlast]
    rw [if_pos ⟨hfont, hname⟩, if_pos (by omega), if_neg (by omega)]
    unfold FontTable.probe
    simp only [hnone]
  refine ⟨hp, ?_⟩
  unfold FontTable.lookup
  rw [hp]

set_option maxRecDepth 8192

/-- C28 at the failing input: in a table of 511 slots whose last slot holds
the font `9m` and whose other slots are free, the name `Yl`, which hashes to
510 as `9m` does, is looked up outside the table, at index 511. -/
theorem C28_font_table_probe_leaves_table_witness :
    sample_font_table[0]? = some free_slot
      ∧ FontTable.hash sample_font_env "Yl".toList = 510
      ∧ FontTable.lookup sample_font_env sample_font_table "Yl".toList
          = some (Outcome.out_of_bounds 511) :=
  ⟨by decide, by decide,
   (C28_font_table_probe_leaves_table sample_font_env sample_font_table "Yl".toList
      { font := 1, name := "9m".toList } (by decide) (by decide) (by decide) (by decide)
      (by decide) (by decide)).2⟩

/-! ## Font names -/

theorem exists_first_occurrence (c : Char) (s : Str) (h : c ∈ s) :
    ∃ a b, s = a ++ c :: b ∧ c ∉ a := by
  induction s with
  | nil => simp at h
  | cons x xs ih =>
    by_cases hx : x = c
    · exact ⟨[], xs, by rw [hx]; rfl, by simp⟩
    · have hxs : c ∈ xs := by
        rcases List.mem_cons.mp h with h1 | h1
        · exact absurd h1.symm hx
        · exact h1
      obtain ⟨a, b, hab, ha⟩ := ih hxs
      refine ⟨x :: a, b, by rw [hab]; rfl, ?_⟩
      intro hmem
      rcases List.mem_cons.mp hmem with h1 | h1
      · exact hx h1.symm
      · exact ha h1

theorem scan_fwd_char_first (c : Char) (a b : Str) (pos : Nat) (ha : c ∉ a) :
    string.scan_fwd_char c (a ++ c :: b) pos = ((pos + a.length : Nat) : Int) := by
  induction a generalizing pos with
  | nil => simp [string.scan_fwd_char]
  | cons x xs ih =>
    have hx : ¬ x = c := fun e => ha (by rw [e]; exact List.mem_cons_self _ _)
    have hxs : c ∉ xs := fun e => ha (List.mem_cons_of_mem _ e)
    rw [List.cons_append]
    unfold string.scan_fwd_char
    rw [if_neg hx, ih (pos + 1) hxs]
    simp only [List.length_cons]
    congr 1
    omega

theorem scan_fwd_char_absent (c : Char) (s : Str) (pos : Nat) (h : c ∉ s) :
    string.scan_fwd_char c s pos = -1 := by
  induction s generalizing pos with
  | nil => rfl
  | cons x xs ih =>
    have hx : ¬ x = c := fun e => h (by rw [e]; exact List.mem_cons_self _ _)
    have hxs : c ∉ xs := fun e => h (List.mem_cons_of_mem _ e)
    unfold string.scan_fwd_char
    rw [if_neg hx, ih (pos + 1) hxs]

/-- Forward `index` from the end of `pre`: the next `c`. -/
theorem index_fwd_first (c : Char) (pre a b : Str) (hc : c ∉ a) :
    string.index (pre ++ a ++ c :: b) c (pre.length : Int)
      = ((pre.length + a.length : Nat) : Int) := by
  unfold string.index
  rw [if_neg (by simp), if_pos (by omega)]
  simp only [Int.toNat_ofNat]
  have hd : (pre ++ a ++ c :: b).drop pre.length = a ++ c :: b := by
    rw [List.append_assoc, List.drop_left]
  rw [hd]
  exact scan_fwd_char_first c a b pre.length hc

/-- Forward `index` from the end of `pre` when no `c` follows. -/
theorem index_fwd_absent (c : Char) (pre a : Str) (hc : c ∉ a) :
    string.index (pre ++ a) c (pre.length : Int) = -1 := by
  unfold string.index
  split
  · rfl
  · rw [if_pos (by omega)]
    simp only [Int.toNat_ofNat, List.drop_left]
    exact scan_fwd_char_absent c a pre.length hc

theorem after_split (a b : Str) (c : Char) :
    string.after (a ++ c :: b) (a.length : Int) = b := by
  unfold string.after string.substr
  by_cases hb : b = []
  · subst hb
    rw [if_pos (by right; left; simp)]
  · have hl : 0 < b.length := List.length_pos.mpr hb
    have hc : ¬ ((a.length : Int) + 1 < 0
        ∨ (((a ++ c :: b).length : Int) - ((a.length : Int) + 1)) ≤ 0
        ∨ (a.length : Int) + 1 + (((a ++ c :: b).length : Int) - ((a.length : Int) + 1))
            > ((a ++ c :: b).length : Int)) := by
      simp only [List.length_append, List.length_cons]
      push_cast
      rintro (h | h | h) <;> omega
    rw [if_neg hc]
    have h1 : ((a.length : Int) + 1).toNat = a.length + 1 := by omega
    have h2 : (((a ++ c :: b).length : Int) - ((a.length : Int) + 1)).toNat = b.length := by
      simp only [List.length_append, List.length_cons]
      push_cast
      omega
    have h3 : (a ++ c :: b).drop (a.length + 1) = b := by
      rw [List.drop_append_eq_append_drop]
      simp
    rw [h1, h2, h3, List.take_length]

/-- The text before the first `c`, and whether there is one. -/
theorem before_char_first (c : Char) (a b : Str) (hc : c ∉ a) :
    string.contains_char (a ++ c :: b) c = true
      ∧ string.before_char (a ++ c :: b) c = a := by
  have hi : string.index (a ++ c :: b) c 0 = (a.length : Int) := by
    have := index_fwd_first c [] a b hc
    simpa using this
  constructor
  · unfold string.contains_char
    rw [hi]
    simp
  · unfold string.before_char
    rw [hi]
    exact before_append a (c :: b)

theorem contains_char_absent (c : Char) (s : Str) (hc : c ∉ s) :
    string.contains_char s c = false := by
  have hi : string.index s c 0 = -1 := by
    have := index_fwd_absent c [] s hc
    simpa using this
  unfold string.contains_char
  rw [hi]
  rfl

theorem fields_name_cons (w : Str) (ws : List Str) :
    fields_name (w :: ws) = '-' :: (w ++ fields_name ws) := by
  simp [fields_name]

theorem fields_name_split (ws : List Str) (k : Nat) (hk : k < ws.length) :
    fields_name ws
      = fields_name (ws.take k) ++ '-' :: (ws[k] ++ fields_name (ws.drop (k + 1))) := by
  induction ws generalizing k with
  | nil => simp at hk
  | cons w ws ih =>
    cases k with
    | zero => simp [fields_name]
    | succ k =>
      have hk2 : k < ws.length := by simpa using hk
      rw [fields_name_cons, ih k hk2]
      simp [fields_name]

/-- The loop of `component` on a name made of fields without `-`: after
`k + 1` steps `i` is the position of the `-` that introduces field `k`. -/
theorem nth_dash_fields (k : Nat) :
    ∀ (pre w : Str) (ws : List Str) (i : Int), i + 1 = (pre.length : Int) → '-' ∉ w →
      k < ws.length → (∀ x ∈ ws, '-' ∉ x) →
      fonts.nth_dash (pre ++ w ++ fields_name ws) (k + 1) i
        = ((pre ++ w ++ fields_name (ws.take k)).length : Int) := by
  induction k with
  | zero =>
    intro pre w ws i hi hw hk _
    cases ws with
    | nil => simp at hk
    | cons w0 ws =>
      rw [fields_name_cons]
      unfold fonts.nth_dash
      simp only [hi]
      rw [index_fwd_first '-' pre w _ hw, if_pos (by omega)]
      unfold fonts.nth_dash
      simp [fields_name]
  | succ k ih =>
    intro pre w ws i hi hw hk hws
    cases ws with
    | nil => simp at hk
    | cons w0 ws =>
      have hk2 : k < ws.length := by simpa using hk
      have hw0 : '-' ∉ w0 := hws w0 (List.mem_cons_self _ _)
      have hws2 : ∀ x ∈ ws, '-' ∉ x := fun x hx => hws x (List.mem_cons_of_mem _ hx)
      rw [fields_name_cons]
      unfold fonts.nth_dash
      simp only [hi]
      rw [index_fwd_first '-' pre w _ hw, if_pos (by omega)]
      have hname : pre ++ w ++ '-' :: (w0 ++ fields_name ws)
          = (pre ++ w ++ ['-']) ++ w0 ++ fields_name ws := by simp
      rw [hname, ih (pre ++ w ++ ['-']) w0 ws _
        (by simp only [List.length_append, List.length_singleton]; push_cast; omega)
        hw0 hk2 hws2]
      simp [fields_name]

/-- On a name made of fields without `-`, `component` returns the fields. -/
theorem component_fields (ws : List Str) (k : Nat) (hk : k < ws.length)
    (hws : ∀ x ∈ ws, '-' ∉ x) :
    fonts.component (fields_name ws) ((k : Int) + 1) = ws[k] := by
  have hhead : (fields_name ws).head? = some '-' := by
    cases ws with
    | nil => simp at hk
    | cons w0 ws => rw [fields_name_cons]; rfl
  have hbegin : string.contains_char_at (fields_name ws) '-' 0 = true :=
    (contains_char_at_zero _ _).mpr hhead
  have hcount : ((k : Int) + 1 - fonts.Foundry + 1).toNat = k + 1 := by
    unfold fonts.Foundry; omega
  have hdash := nth_dash_fields k [] [] ws (-1) (by simp) (by simp) hk hws
  simp only [List.nil_append] at hdash
  unfold fonts.component
  simp only [hbegin, not_true_eq_false, if_false, hcount, hdash]
  rw [if_pos (by omega)]
  have hsplit := fields_name_split ws k hk
  have hafter : string.after (fields_name ws) ((fields_name (ws.take k)).length : Int)
      = ws[k] ++ fields_name (ws.drop (k + 1)) := by
    conv_lhs => rw [hsplit]
    exact after_split _ _ _
  rw [hafter]
  have hwk : '-' ∉ ws[k] := hws _ (List.getElem_mem _)
  cases hrest : ws.drop (k + 1) with
  | nil =>
    have : fields_name [] = [] := rfl
    rw [this, List.append_nil, contains_char_absent _ _ hwk]
    simp
  | cons r rs =>
    rw [fields_name_cons]
    obtain ⟨h1, h2⟩ := before_char_first '-' ws[k] (r ++ fields_name rs) hwk
    rw [h1, if_pos rfl, h2]

/-- Cutting a text at its first `-`, as `component` does, leaves no `-`. -/
theorem cut_at_dash_no_dash (w : Str) :
    '-' ∉ (if string.contains_char w '-' = true then string.before_char w '-' else w) := by
  by_cases hd : '-' ∈ w
  · obtain ⟨a, b, hab, ha⟩ := exists_first_occurrence _ _ hd
    obtain ⟨h1, h2⟩ := before_char_first '-' a b ha
    rw [hab, h1, if_pos rfl, h2]
    exact ha
  · rw [contains_char_absent _ _ hd]
    simpa using hd

/-- No result of `component` contains a `-`. -/
theorem component_no_dash (name : Str) (n : Int) : '-' ∉ fonts.component name n := by
  unfold fonts.component
  simp only []
  generalize (if ¬ string.contains_char_at name '-' 0 = true then
    string.prepend name "-*-".toList else name) = name2
  generalize fonts.nth_dash name2 (n - fonts.Foundry + 1).toNat (-1) = i
  split
  · exact cut_at_dash_no_dash _
  · simp

theorem digitChar_ne_dash (d : Nat) (hd : d < 10) : Nat.digitChar d ≠ '-' := by
  interval_cases d <;> decide

theorem toDigitsCore_no_dash (fuel : Nat) :
    ∀ (n : Nat) (ds : List Char), '-' ∉ ds → '-' ∉ Nat.toDigitsCore 10 fuel n ds := by
  induction fuel with
  | zero => intro n ds h; exact h
  | succ fuel ih =>
    intro n ds h
    have hd : '-' ∉ Nat.digitChar (n % 10) :: ds := by
      intro hmem
      rcases List.mem_cons.mp hmem with h1 | h1
      · exact digitChar_ne_dash _ (Nat.mod_lt _ (by decide)) h1.symm
      · exact h h1
    unfold Nat.toDigitsCore
    simp only []
    split
    · exact hd
    · exact ih _ _ hd

/-- The decimal rendering of a number that is not negative has no `-`. -/
theorem itostring_no_dash (n : Int) (h : 0 ≤ n) : '-' ∉ itostring n := by
  obtain ⟨m, hm⟩ := Int.eq_ofNat_of_zero_le h
  subst hm
  have hs : itostring (m : Int) = Nat.toDigits 10 m := rfl
  rw [hs]
  exact toDigitsCore_no_dash _ _ _ (by simp)

/-- No result of `component(ad, font, n)` contains a `-`. -/
theorem component_ad_no_dash (ad : AppData) (font : DDDFont) (n : Int) :
    '-' ∉ fonts.component_ad ad font n := by
  unfold fonts.component_ad
  split
  · apply itostring_no_dash
    split <;> omega
  · simp only []
    split
    · exact component_no_dash _ _
    · exact component_no_dash _ _

theorem chosen_field_no_dash (ad : AppData) (base : DDDFont) (override : Str) (n : Int) :
    '-' ∉ chosen_field ad base override n := by
  unfold chosen_field
  split
  · exact component_ad_no_dash _ _ _
  · exact component_no_dash _ _

/-- One run of the loop body of `make_font` appends `-` and the chosen
field. -/
theorem make_font_step_eq (ad : AppData) (base : DDDFont) (override font : Str) (n : Int) :
    fonts.make_font_step ad base override font n
      = font ++ '-' :: chosen_field ad base override n := by
  unfold fonts.make_font_step chosen_field
  have hsp : " ".toList = [' '] := rfl
  simp only [List.isEmpty_iff, hsp]
  split <;> simp

theorem make_font_foldl (ad : AppData) (base : DDDFont) (override : Str) (ns : List Int)
    (font : Str) :
    ns.foldl (fonts.make_font_step ad base override) font
      = font ++ fields_name (ns.map (chosen_field ad base override)) := by
  induction ns generalizing font with
  | nil => simp [fields_name]
  | cons n ns ih =>
    rw [List.foldl_cons, ih, make_font_step_eq, List.map_cons, fields_name_cons]
    simp

/-- The name `make_font` builds: the fourteen chosen fields, each after a
`-`. -/
theorem make_font_eq (ad : AppData) (base : DDDFont) (override : Str) :
    fonts.make_font ad base override
      = fields_name ((List.range' 1 14).map
          (fun k : Nat => chosen_field ad base override (k : Int))) := by
  unfold fonts.make_font
  rw [make_font_foldl, List.nil_append, List.map_map]
  rfl

/-- C29: for every `n` from 1 to 14, `component(make_font(ad, base, override),
n)` is the value `make_font` chose for field `n`, that is
`component(override, n)`, or `component(ad, base, n)` when that is empty or a
single space; the name built by `make_font` is these fourteen fields, each
introduced by one `-`, and no field contains a `-`. -/
theorem C29_make_font_components (ad : AppData) (base : DDDFont) (override : Str) (n : Int)
    (h1 : 1 ≤ n) (h14 : n ≤ 14) :
    fonts.component (fonts.make_font ad base override) n = chosen_field ad base override n
      ∧ fonts.make_font ad base override
          = ((List.range' 1 14).map
              (fun k : Nat => '-' :: chosen_field ad base override (k : Int))).flatten
      ∧ (∀ k : Int, '-' ∉ chosen_field ad base override k) := by
  have hname := make_font_eq ad base override
  refine ⟨?_, ?_, chosen_field_no_dash ad base override⟩
  · obtain ⟨k, hk⟩ : ∃ k : Nat, n = (k : Int) + 1 := ⟨(n - 1).toNat, by omega⟩
    have hk14 : k < 14 := by omega
    have hlen : k < ((List.range' 1 14).map
        (fun j : Nat => chosen_field ad base override (j : Int))).length := by
      simpa using hk14
    have hws : ∀ x ∈ (List.range' 1 14).map
        (fun j : Nat => chosen_field ad base override (j : Int)), '-' ∉ x := by
      intro x hx
      obtain ⟨j, _, hj⟩ := List.mem_map.mp hx
      rw [← hj]
      exact chosen_field_no_dash _ _ _ _
    have hcast : ((1 + 1 * k : Nat) : Int) = (k : Int) + 1 := by push_cast; omega
    rw [hname, hk, component_fields _ k hlen hws]
    simp only [List.getElem_map, List.getElem_range', hcast]
  · have hflat : ∀ (f : Nat → Str) (l : List Nat),
        fields_name (l.map f) = (l.map (fun k => '-' :: f k)).flatten := by
      intro f l
      unfold fields_name
      rw [List.map_map]
      rfl
    exact hname.trans (hflat _ _)

/-- C29 for the point size (field 8) of the default font with the override
`"-*-courier"`: the size 120 of the application data. -/
theorem C29_make_font_components_witness :
    (1 : Int) ≤ 8 ∧ (8 : Int) ≤ 14
      ∧ fonts.component
          (fonts.make_font sample_app_data DDDFont.DefaultDDDFont "-*-courier".toList) 8
        = "120".toList :=
  ⟨by decide, by decide,
   ((C29_make_font_components sample_app_data DDDFont.DefaultDDDFont "-*-courier".toList 8
      (by decide) (by decide)).1).trans (by decide)⟩

end DDD
